import Mathlib

/-!
# BudgetPilot: budget-constrained selection and query-string hand-off

A shallow embedding of the state logic of `RestaurantPage.jsx` and
`TouristPage.jsx` (budgetpilot-frontend/src/pages).

Modelling conventions.

* A React state pair `(selectedRestaurants, totalSelectedPrice)` is a value of
  `SelectionState`; a handler is a function from the state before the event to
  the state after it.  Every event is handled against the state of the latest
  render, as in the single-threaded event loop of the page.
* A JavaScript `Set` is the list of its members in insertion order, which is
  the order in which `Array.from` enumerates it.
* The running total, the ceiling and the price argument of a handler are
  JavaScript numbers, that is binary64 values (`F64`): `+` and `-` round to
  the nearest value, ties to even, and every comparison with `NaN` is false.
  The price of a catalog entry is an integer (`Int`), passed to the handlers as
  the number `F64.ofInt price`; an integer of magnitude below `2^53` is such a
  number exactly.
-/

namespace BudgetPilot

/-! ## Numbers of the page: binary64

Not code of the repository: the Number type of ECMA-262 (IEEE 754 binary64,
round to nearest, ties to even), as far as the handlers use it: `+`, `-`, `>`,
`<=` and `toString`. -/

/-- A binary64 number. Every finite binary64 value is an integer multiple of
`2^-1074`; `fin units` is the value `units * 2^-1074`. The finite values are
those whose magnitude is below `2^1024` and has at most 53 significant bits;
`ofRat` and the operations below return only such values. The two zeros are one
value: the pages never divide and never print the sign of a zero. -/
inductive F64
  | nan
  | inf (negative : Bool)
  | fin (units : Int)
deriving DecidableEq, Repr

namespace F64

/-- The number of units that make `1`. -/
@[irreducible]
def scale : Nat := 2 ^ 1074

/-- The first magnitude, in units, that is no longer finite: `2^1024`. -/
@[irreducible]
def limit : Nat := 2 ^ 2098

/-- How many low bits of `q` do not fit in a significand of 53 bits; `fuel`
bounds the number of halvings and `q` itself is always enough. -/
def excessBits : Nat → Nat → Nat
  | 0, _ => 0
  | fuel + 1, q => if q < 2 ^ 53 then 0 else excessBits fuel (q / 2) + 1

/-- The rational `a / b` of units rounded to a multiple of units with at most 53
significant bits: to the nearest one, and to the one with an even significand
when two are equally near. -/
def roundRat (a b : Nat) : Nat :=
  let sh := excessBits (a / b) (a / b)
  let d := b * 2 ^ sh
  let q := a / d
  let r := a % d
  let q1 := if 2 * r < d then q else if d < 2 * r then q + 1 else if q % 2 = 0 then q else q + 1
  q1 * 2 ^ sh

/-- The binary64 value of the rational `a / b` of units with the given sign:
the rounded value, or an infinity when that is `2^1024` or more. -/
def ofRat (negative : Bool) (a b : Nat) : F64 :=
  let r := roundRat a b
  if limit ≤ r then .inf negative
  else .fin (if negative then -(r : Int) else (r : Int))

/-- The binary64 value of an exact number of units. -/
def ofUnits (u : Int) : F64 := ofRat (decide (u < 0)) u.natAbs 1

/-- The Number value of a mathematical integer. -/
def ofInt (k : Int) : F64 := ofUnits (k * scale)

/-- Unary minus. -/
def neg : F64 → F64
  | .nan => .nan
  | .inf b => .inf (!b)
  | .fin u => .fin (-u)

/-- Number::add: the exact sum, rounded. -/
def add : F64 → F64 → F64
  | .nan, _ => .nan
  | _, .nan => .nan
  | .inf a, .inf b => if a = b then .inf a else .nan
  | .inf a, .fin _ => .inf a
  | .fin _, .inf b => .inf b
  | .fin x, .fin y => ofUnits (x + y)

/-- Number::subtract: `x - y` is `x + (-y)`. -/
def sub (x y : F64) : F64 := add x (neg y)

/-- Number::lessThan, with `undefined` (an operand is `NaN`) read as false. -/
def lt : F64 → F64 → Bool
  | .nan, _ => false
  | _, .nan => false
  | .inf a, .inf b => a && !b
  | .inf a, .fin _ => a
  | .fin _, .inf b => !b
  | .fin x, .fin y => decide (x < y)

/-- The operator `x > y`. -/
def gt (x y : F64) : Bool := lt y x

/-- The operator `x <= y`: false when an operand is `NaN`, otherwise the
negation of `y < x`. -/
def le : F64 → F64 → Bool
  | .nan, _ => false
  | _, .nan => false
  | x, y => !(lt y x)

/-- An integer in the range of `Number.MIN_SAFE_INTEGER` to
`Number.MAX_SAFE_INTEGER`, that is of magnitude at most `2^53 - 1`. -/
def safeInteger (k : Int) : Prop := -9007199254740991 ≤ k ∧ k ≤ 9007199254740991

instance (k : Int) : Decidable (safeInteger k) := inferInstanceAs (Decidable (_ ∧ _))

end F64

/-! ## The selection state and the toggle handlers -/

/-- The fields of an entry of the `restaurants` / `tourists` array that the
handlers read. The price is an integer; the number that the page holds for it
is `F64.ofInt price`. -/
structure CatalogItem where
  id : String
  name : String
  price : Int
deriving DecidableEq, Repr

/-- The pair of React states `(selectedRestaurants, totalSelectedPrice)`, or
`(selectedTourists, totalSelectedPrice)`. -/
structure SelectionState where
  selected : List String
  total : F64
deriving DecidableEq, Repr

/-- The initial states `useState(new Set())` and `useState(0)`. -/
def SelectionState.initial : SelectionState := { selected := [], total := .fin 0 }

/-- `Set.prototype.has`. -/
def setHas (s : List String) (x : String) : Bool := s.contains x

/-- `Set.prototype.delete`. -/
def setDelete (s : List String) (x : String) : List String := s.filter (fun y => y != x)

/-- `Set.prototype.add`: a new member goes last, a present one stays where it is. -/
def setAdd (s : List String) (x : String) : List String := if s.contains x then s else s ++ [x]

/-- `handleRestaurantToggle` of RestaurantPage.jsx, lines 95-113. `foodBudget`
is the number that `newTotal > foodBudget` compares with. -/
def handleRestaurantToggle (foodBudget : F64) (st : SelectionState)
    (restaurantId : String) (price : F64) : SelectionState :=
  if setHas st.selected restaurantId then
    { selected := setDelete st.selected restaurantId, total := F64.sub st.total price }
  else
    let newTotal := F64.add st.total price
    if F64.gt newTotal foodBudget then st
    else { selected := setAdd st.selected restaurantId, total := newTotal }

/-- `handleTouristToggle` of TouristPage.jsx, lines 106-124. `tourismBudget`
is the number that `newTotal > tourismBudget` compares with. -/
def handleTouristToggle (tourismBudget : F64) (st : SelectionState)
    (touristId : String) (price : F64) : SelectionState :=
  if setHas st.selected touristId then
    { selected := setDelete st.selected touristId, total := F64.sub st.total price }
  else
    let newTotal := F64.add st.total price
    if F64.gt newTotal tourismBudget then st
    else { selected := setAdd st.selected touristId, total := newTotal }

/-- The `onChange` handler of a restaurant card (RestaurantPage.jsx, line 237):
`handleRestaurantToggle(restaurant.id, restaurant.price)`. -/
def toggleRestaurant (foodBudget : F64) (st : SelectionState) (restaurant : CatalogItem) :
    SelectionState :=
  handleRestaurantToggle foodBudget st restaurant.id (F64.ofInt restaurant.price)

/-- The `onChange` handler of an attraction card (TouristPage.jsx, line 247):
`handleTouristToggle(tourist.id, tourist.price)`. -/
def toggleTourist (tourismBudget : F64) (st : SelectionState) (tourist : CatalogItem) :
    SelectionState :=
  handleTouristToggle tourismBudget st tourist.id (F64.ofInt tourist.price)

/-- The state after the cards in `events` were toggled one after the other,
starting from the initial state of RestaurantPage. -/
def runRestaurantToggles (foodBudget : F64) (events : List CatalogItem) : SelectionState :=
  events.foldl (toggleRestaurant foodBudget) SelectionState.initial

/-- The state after the cards in `events` were toggled one after the other,
starting from the initial state of TouristPage. -/
def runTouristToggles (tourismBudget : F64) (events : List CatalogItem) : SelectionState :=
  events.foldl (toggleTourist tourismBudget) SelectionState.initial

/-- The sum of the prices of the catalog items that are currently selected. -/
def selectedPriceSum (catalog : List CatalogItem) (selected : List String) : Int :=
  ((catalog.filter (fun r => setHas selected r.id)).map CatalogItem.price).sum

/-- The sum of the magnitudes of the prices of a catalog: a bound on the
magnitude of the price sum of every selection from it. -/
def priceMagnitude (catalog : List CatalogItem) : Int :=
  (catalog.map (fun r => |r.price|)).sum

/-- `canSelect` of a restaurant card (RestaurantPage.jsx, lines 176-177). -/
def canSelectRestaurant (foodBudget : F64) (st : SelectionState) (restaurant : CatalogItem) :
    Bool :=
  let isSelected := setHas st.selected restaurant.id
  F64.le (F64.add st.total (F64.ofInt restaurant.price)) foodBudget || isSelected

/-- `canSelect` of an attraction card (TouristPage.jsx, lines 187-188). -/
def canSelectTourist (tourismBudget : F64) (st : SelectionState) (tourist : CatalogItem) :
    Bool :=
  let isSelected := setHas st.selected tourist.id
  F64.le (F64.add st.total (F64.ofInt tourist.price)) tourismBudget || isSelected

/-- The invariant that the toggle handlers maintain over a fixed catalog with
non-negative prices whose sum is a safe integer. -/
structure BudgetInv (c : F64) (catalog : List CatalogItem) (st : SelectionState) : Prop where
  ids : ∀ x ∈ st.selected, ∃ r ∈ catalog, r.id = x
  nodup : st.selected.Nodup
  total_eq : st.total = F64.ofInt (selectedPriceSum catalog st.selected)
  within : F64.le st.total c = true

/-! ## The platform functions that the pages call

The functions below are not code of the repository: they are the parts of the
URL, Encoding and ECMAScript standards that the pages call (`URLSearchParams`,
`decodeURIComponent`, `JSON.parse`, `JSON.stringify`, `Number`), written out so
that the code of the pages can be evaluated. A string is a sequence of Unicode
scalar values, that is, a JavaScript string without unpaired surrogates. -/

/-- The exceptions that the modelled code can raise. -/
inductive JSError
  | typeError
  | uriError
  | syntaxError
deriving DecidableEq, Repr

/-! ## Text, bytes and UTF-8 -/

/-- U+FFFD, which a lossy decoder puts where the bytes are not UTF-8. -/
def replacementChar : Char := Char.ofNat 0xFFFD

/-- The value of an ASCII hex digit. -/
def hexVal (c : Char) : Option Nat :=
  let n := c.toNat
  if 48 ≤ n ∧ n ≤ 57 then some (n - 48)
  else if 65 ≤ n ∧ n ≤ 70 then some (n - 55)
  else if 97 ≤ n ∧ n ≤ 102 then some (n - 87)
  else none

/-- The byte written by two hex digits. -/
def hexOctet (h l : Char) : Option Nat :=
  match hexVal h, hexVal l with
  | some a, some b => some (16 * a + b)
  | _, _ => none

/-- The upper-case hex digit of a value below 16. -/
def hexDigitUpper (d : Nat) : Char :=
  if d < 10 then Char.ofNat (48 + d) else Char.ofNat (55 + d)

/-- The lower-case hex digit of a value below 16. -/
def hexDigitLower (d : Nat) : Char :=
  if d < 10 then Char.ofNat (48 + d) else Char.ofNat (87 + d)

namespace Utf8

/-- The UTF-8 bytes of one scalar value. -/
def encodeChar (c : Char) : List Nat :=
  let n := c.toNat
  if n < 0x80 then [n]
  else if n < 0x800 then [0xC0 + n / 0x40, 0x80 + n % 0x40]
  else if n < 0x10000 then [0xE0 + n / 0x1000, 0x80 + n / 0x40 % 0x40, 0x80 + n % 0x40]
  else [0xF0 + n / 0x40000, 0x80 + n / 0x1000 % 0x40, 0x80 + n / 0x40 % 0x40, 0x80 + n % 0x40]

/-- UTF-8 encode. -/
def encode : List Char → List Nat
  | [] => []
  | c :: cs => encodeChar c ++ encode cs

/-- What the decoder does with a byte read when no sequence is open. -/
inductive Lead
  | emit (c : Char)
  | invalid
  | more (cp needed lower upper : Nat)

/-- Step 3 of the UTF-8 decoder of the Encoding standard (bytes needed is 0). -/
def lead (b : Nat) : Lead :=
  if b ≤ 0x7F then .emit (Char.ofNat b)
  else if 0xC2 ≤ b ∧ b ≤ 0xDF then .more (b % 0x20) 1 0x80 0xBF
  else if 0xE0 ≤ b ∧ b ≤ 0xEF then
    .more (b % 0x10) 2 (if b = 0xE0 then 0xA0 else 0x80) (if b = 0xED then 0x9F else 0xBF)
  else if 0xF0 ≤ b ∧ b ≤ 0xF4 then
    .more (b % 0x08) 3 (if b = 0xF0 then 0x90 else 0x80) (if b = 0xF4 then 0x8F else 0xBF)
  else .invalid

/-- The open sequence of the decoder: code point so far, bytes still needed,
and the bounds of the next byte. -/
structure Pending where
  cp : Nat
  needed : Nat
  lower : Nat
  upper : Nat

/-- The UTF-8 decoder of the Encoding standard with error mode replacement
(UTF-8 decode without BOM). A byte that cannot continue the open sequence ends
it with U+FFFD and is read again as the first byte of a sequence. -/
def decodeFrom : Option Pending → List Nat → List Char
  | none, [] => []
  | some _, [] => [replacementChar]
  | none, b :: bs =>
    match lead b with
    | .emit c => c :: decodeFrom none bs
    | .invalid => replacementChar :: decodeFrom none bs
    | .more cp needed lower upper => decodeFrom (some ⟨cp, needed, lower, upper⟩) bs
  | some p, b :: bs =>
    if p.lower ≤ b ∧ b ≤ p.upper then
      let cp := p.cp * 0x40 + b % 0x40
      if p.needed ≤ 1 then Char.ofNat cp :: decodeFrom none bs
      else decodeFrom (some ⟨cp, p.needed - 1, 0x80, 0xBF⟩) bs
    else
      match lead b with
      | .emit c => replacementChar :: c :: decodeFrom none bs
      | .invalid => replacementChar :: replacementChar :: decodeFrom none bs
      | .more cp needed lower upper =>
        replacementChar :: decodeFrom (some ⟨cp, needed, lower, upper⟩) bs

/-- UTF-8 decode without BOM. -/
def decode (bytes : List Nat) : List Char := decodeFrom none bytes

/-- The scalar value that `octets` encode, when they are the well-formed UTF-8
encoding of exactly one scalar value. -/
def decodeOne (octets : List Nat) : Option Char :=
  match decodeFrom none octets with
  | [c] => if encodeChar c = octets then some c else none
  | _ => none

end Utf8

/-! ## application/x-www-form-urlencoded and URLSearchParams (URL standard) -/

/-- Percent-decode a byte sequence: `%XX` with two hex digits is the byte XX,
any other byte, a lone `%` included, stands for itself. -/
def percentDecode : List Nat → List Nat
  | [] => []
  | b :: h :: l :: rest =>
    if b = 0x25 then
      match hexOctet (Char.ofNat h) (Char.ofNat l) with
      | some v => v :: percentDecode rest
      | none => b :: percentDecode (h :: l :: rest)
    else b :: percentDecode (h :: l :: rest)
  | b :: rest => b :: percentDecode rest

/-- The bytes outside the application/x-www-form-urlencoded percent-encode set:
ASCII alphanumerics, `*`, `-`, `.` and `_`. -/
def formSafeByte (b : Nat) : Bool :=
  (0x30 ≤ b && b ≤ 0x39) || (0x41 ≤ b && b ≤ 0x5A) || (0x61 ≤ b && b ≤ 0x7A) ||
    b == 0x2A || b == 0x2D || b == 0x2E || b == 0x5F

/-- Percent-encode one byte for a form-urlencoded component, space as plus. -/
def formEncodeByte (b : Nat) : List Nat :=
  if b = 0x20 then [0x2B]
  else if formSafeByte b then [b]
  else [0x25, (hexDigitUpper (b / 16)).toNat, (hexDigitUpper (b % 16)).toNat]

/-- Percent-encode a byte sequence for a form-urlencoded component. -/
def formEncodeBytes : List Nat → List Nat
  | [] => []
  | b :: bs => formEncodeByte b ++ formEncodeBytes bs

/-- The serialized bytes of one name or value. -/
def formEncodeComponent (s : String) : List Nat := formEncodeBytes (Utf8.encode s.data)

/-- The string of one parsed name or value: plus to space, percent-decode,
UTF-8 decode without BOM. -/
def formDecodeComponent (bytes : List Nat) : String :=
  ⟨Utf8.decode (percentDecode (bytes.map (fun b => if b = 0x2B then 0x20 else b)))⟩

/-- The name-value tuple of one byte sequence between two `&`: nothing for an
empty sequence, otherwise the name is what precedes the first `=` and the value
what follows it (the whole sequence and the empty string without a `=`). -/
def formParseSequence (bytes : List Nat) : Option (String × String) :=
  if bytes.isEmpty then none
  else
    let name := bytes.takeWhile (fun b => b != 0x3D)
    let value := (bytes.dropWhile (fun b => b != 0x3D)).drop 1
    some (formDecodeComponent name, formDecodeComponent value)

/-- The application/x-www-form-urlencoded parser, on bytes. -/
def formParseBytes (input : List Nat) : List (String × String) :=
  (input.splitOn 0x26).filterMap formParseSequence

/-- The serialized bytes of one tuple: name, `=`, value. -/
def formSerializeTuple (t : String × String) : List Nat :=
  formEncodeComponent t.1 ++ 0x3D :: formEncodeComponent t.2

/-- The application/x-www-form-urlencoded serializer, as bytes. -/
def formSerializeBytes (tuples : List (String × String)) : List Nat :=
  [0x26].intercalate (tuples.map formSerializeTuple)

/-- The bytes that the serializer writes for a component: ASCII, and none of
`&`, `=` and `?`. -/
def formChar (b : Nat) : Prop := b < 0x80 ∧ b ≠ 0x26 ∧ b ≠ 0x3D ∧ b ≠ 0x3F

/-- The list of name-value tuples of a `URLSearchParams` object. -/
abbrev URLSearchParams := List (String × String)

namespace URLSearchParams

/-- `new URLSearchParams(init)` for a string `init`: a leading `?` is dropped
and the rest is parsed. -/
def ofString (init : String) : URLSearchParams :=
  match init.data with
  | '?' :: rest => formParseBytes (Utf8.encode rest)
  | cs => formParseBytes (Utf8.encode cs)

/-- `get(name)`: the value of the first tuple named `name`, `none` for `null`. -/
def get (ps : URLSearchParams) (name : String) : Option String :=
  match ps with
  | [] => none
  | t :: rest => if t.1 = name then some t.2 else get rest name

/-- The tuples of `ps` with the first one named `name` given the value `value`
and the other ones named `name` removed. -/
def replaceFirst (name value : String) : URLSearchParams → URLSearchParams
  | [] => []
  | t :: rest =>
    if t.1 = name then (name, value) :: rest.filter (fun u => u.1 != name)
    else t :: replaceFirst name value rest

/-- `set(name, value)`. -/
def set (ps : URLSearchParams) (name value : String) : URLSearchParams :=
  if ps.any (fun t => t.1 == name) then replaceFirst name value ps
  else ps ++ [(name, value)]

/-- `delete(name)`: the tuples not named `name`. -/
def delete (ps : URLSearchParams) (name : String) : URLSearchParams :=
  ps.filter (fun t => t.1 != name)

/-- `toString()`: the serialization, an ASCII string. -/
def toString (ps : URLSearchParams) : String :=
  ⟨(formSerializeBytes ps).map Char.ofNat⟩

end URLSearchParams

/-- `decodeURIComponent` (ECMA-262, Decode with an empty reserved set). Every
failure is a URIError: a `%` without two hex digits, a first byte that is a
continuation byte or has more than four leading ones, a missing or malformed
continuation escape, bytes that are not the UTF-8 encoding of a scalar value. -/
def decodeURIComponent : List Char → Except JSError (List Char)
  | [] => .ok []
  | c :: cs =>
    if c ≠ '%' then
      match decodeURIComponent cs with
      | .ok out => .ok (c :: out)
      | .error e => .error e
    else
      match cs with
      | h :: l :: rest =>
        match hexOctet h l with
        | none => .error .uriError
        | some b =>
          if b < 0x80 then
            match decodeURIComponent rest with
            | .ok out => .ok (Char.ofNat b :: out)
            | .error e => .error e
          else if b < 0xC0 then .error .uriError
          else if b < 0xE0 then
            match rest with
            | p1 :: h1 :: l1 :: rest1 =>
              match (if p1 = '%' then hexOctet h1 l1 else none) with
              | some b1 =>
                match Utf8.decodeOne [b, b1], decodeURIComponent rest1 with
                | some ch, .ok out => .ok (ch :: out)
                | _, _ => .error .uriError
              | none => .error .uriError
            | _ => .error .uriError
          else if b < 0xF0 then
            match rest with
            | p1 :: h1 :: l1 :: p2 :: h2 :: l2 :: rest2 =>
              match (if p1 = '%' then hexOctet h1 l1 else none),
                (if p2 = '%' then hexOctet h2 l2 else none) with
              | some b1, some b2 =>
                match Utf8.decodeOne [b, b1, b2], decodeURIComponent rest2 with
                | some ch, .ok out => .ok (ch :: out)
                | _, _ => .error .uriError
              | _, _ => .error .uriError
            | _ => .error .uriError
          else if b < 0xF8 then
            match rest with
            | p1 :: h1 :: l1 :: p2 :: h2 :: l2 :: p3 :: h3 :: l3 :: rest3 =>
              match (if p1 = '%' then hexOctet h1 l1 else none),
                (if p2 = '%' then hexOctet h2 l2 else none),
                (if p3 = '%' then hexOctet h3 l3 else none) with
              | some b1, some b2, some b3 =>
                match Utf8.decodeOne [b, b1, b2, b3], decodeURIComponent rest3 with
                | some ch, .ok out => .ok (ch :: out)
                | _, _ => .error .uriError
              | _, _, _ => .error .uriError
            | _ => .error .uriError
          else .error .uriError
      | _ => .error .uriError

/-! ## Numbers and JSON values -/

/-- A number read from or written to JSON text or a query parameter:
not-a-number, an infinity, or the decimal `mantissa * 10 ^ exp10` as written.
An integer `n` is `dec n 0`. The decimal is kept as written and stands for the
binary64 value nearest to it; on integers of magnitude below `2 ^ 53` the two
are the same number. -/
inductive JSNumber
  | nan
  | inf (negative : Bool)
  | dec (mantissa : Int) (exp10 : Int)
deriving DecidableEq, Repr

/-- A value that `JSON.parse` can return. An object is the list of its members
in source order; a later member with the same key overrides an earlier one. -/
inductive JSValue
  | null
  | bool (b : Bool)
  | num (n : JSNumber)
  | str (s : String)
  | arr (items : List JSValue)
  | obj (members : List (String × JSValue))
deriving Repr

/-- ToBoolean of a number: false for `NaN` and for zero. A decimal stands for
the binary64 value nearest to it, which is zero when the magnitude of the
decimal is at most `2^-1075`, half of the least positive value. -/
def JSNumber.truthy : JSNumber → Bool
  | .nan => false
  | .inf _ => true
  | .dec m e => m != 0 && (decide (0 ≤ e) || decide (10 ^ (-e).toNat < m.natAbs * 2 ^ 1075))

/-- ToBoolean. -/
def JSValue.truthy : JSValue → Bool
  | .null => false
  | .bool b => b
  | .num n => n.truthy
  | .str s => s != ""
  | .arr _ => true
  | .obj _ => true

/-- Whether a parsed value is a JSON object, the expected form of `budget` and
`breakdown`. -/
def JSValue.isObject : JSValue → Bool
  | .obj _ => true
  | _ => false

/-- Whether a parsed value is a JSON array, the expected form of
`selectedRestaurants`. -/
def JSValue.isArray : JSValue → Bool
  | .arr _ => true
  | _ => false

/-- The decimal digits of a natural number. -/
def natToDigits (n : Nat) : List Char := Nat.toDigits 10 n

/-- The number written by a list of decimal digits. -/
def digitsToNat (ds : List Char) : Nat := ds.foldl (fun acc d => 10 * acc + (d.toNat - 48)) 0

/-- The decimal text of an integer. -/
def intToChars (n : Int) : List Char :=
  if n < 0 then '-' :: natToDigits n.natAbs else natToDigits n.natAbs

/-- The text of `digits` with trailing zeros removed. -/
def stripTrailingZeros (digits : List Char) : List Char :=
  (digits.reverse.dropWhile (fun d => d == '0')).reverse

/-- `Number.prototype.toString` / Number::toString in radix 10, on the model:
an integer is written with all of its digits and a decimal fraction with a
point; the exponent form that JavaScript uses from `1e21` up and below `1e-6`
is not modelled. -/
def JSNumber.toChars : JSNumber → List Char
  | .nan => "NaN".data
  | .inf false => "Infinity".data
  | .inf true => "-Infinity".data
  | .dec m e =>
    if 0 ≤ e then intToChars (m * 10 ^ e.toNat)
    else
      let k := (-e).toNat
      let a := m.natAbs
      let whole := natToDigits (a / 10 ^ k)
      let fracDigits := natToDigits (a % 10 ^ k)
      let frac := stripTrailingZeros (List.replicate (k - fracDigits.length) '0' ++ fracDigits)
      let body := if frac.isEmpty then whole else whole ++ '.' :: frac
      if m < 0 then '-' :: body else body

namespace F64

/-- For a value `u` of units below `1`: the least `j >= 1` with
`u * 10^j >= 1`, searched upwards from `j`. -/
def leadingZeros : Nat → Nat → Nat → Nat
  | 0, _, j => j
  | fuel + 1, u, j => if scale ≤ u * 10 ^ j then j else leadingZeros fuel u (j + 1)

/-- The integer `n` with `10^(n-1) <= u < 10^n`, for a positive value `u` of units. -/
def decimalExponent (u : Nat) : Int :=
  if scale ≤ u then ((natToDigits (u / scale)).length : Int)
  else 1 - (leadingZeros 400 u 1 : Int)

/-- The integer part of `u / 10^e`, for a value `u` of units. -/
def floorScaled (u : Nat) (e : Int) : Nat :=
  if 0 ≤ e then u / (scale * 10 ^ e.toNat) else (u * 10 ^ (-e).toNat) / scale

/-- The decimal `s * 10^e` as a rational number of units. -/
def decimalUnits (s : Nat) (e : Int) : Nat × Nat :=
  if 0 ≤ e then (s * 10 ^ e.toNat * scale, 1) else (s * scale, 10 ^ (-e).toNat)

/-- Whether the Number value of the decimal `s * 10^e` is the value `u` of units. -/
def readsBack (u s : Nat) (e : Int) : Bool :=
  decide (ofRat false (decimalUnits s e).1 (decimalUnits s e).2 = .fin u)

/-- The distance of the decimal `s * 10^e` from `u`, as a rational number of units. -/
def decimalError (u s : Nat) (e : Int) : Nat × Nat :=
  let a := (decimalUnits s e).1
  let b := (decimalUnits s e).2
  ((if a ≤ u * b then u * b - a else a - u * b), b)

/-- Whether the decimal `x` of `k` digits is to be preferred to `y`: the one
nearer to `u`, and the even one of two equally near. -/
def betterDecimal (u : Nat) (k : Nat) (x y : Nat × Int) : Bool :=
  let ex := decimalError u x.1 (x.2 - k)
  let ey := decimalError u y.1 (y.2 - k)
  if ex.1 * ey.2 < ey.1 * ex.2 then true
  else if ey.1 * ex.2 < ex.1 * ey.2 then false
  else x.1 % 2 == 0

/-- The pairs `(s, n)` with `s` of exactly `k` digits such that the Number value
of `s * 10^(n-k)` is `u`; `n0` is the decimal exponent of `u`. -/
def decimalsOfLength (u : Nat) (n0 : Int) (k : Nat) : List (Nat × Int) :=
  [(floorScaled u (n0 - k), n0), (floorScaled u (n0 - k) + 1, n0),
   (floorScaled u (n0 + 1 - k), n0 + 1), (floorScaled u (n0 + 1 - k) + 1, n0 + 1)].filter
    (fun c => decide (10 ^ (k - 1) ≤ c.1) && decide (c.1 < 10 ^ k) && readsBack u c.1 (c.2 - k))

/-- The preferred one of a list of decimals of `k` digits. -/
def bestDecimal (u : Nat) (k : Nat) : List (Nat × Int) → Option (Nat × Int)
  | [] => none
  | c :: cs =>
    match bestDecimal u k cs with
    | none => some c
    | some d => if betterDecimal u k c d then some c else some d

/-- The integers `s`, `n`, `k` of Number::toString for a positive finite value:
`k` as small as possible with `10^(k-1) <= s < 10^k` and the Number value of
`s * 10^(n-k)` equal to the value. Seventeen digits identify every value. -/
def shortestDecimal (u : Nat) : Option (Nat × Int × Nat) :=
  (List.range 17).findSome? (fun i =>
    (bestDecimal u (i + 1) (decimalsOfLength u (decimalExponent u) (i + 1))).map
      (fun c => (c.1, c.2, i + 1)))

/-- The text of Number::toString for the digits `s` (`k` of them) and the
exponent `n`: plain digits up to `10^21`, a fraction down to `10^-6`, the
exponent form otherwise. -/
def formatDecimal (s : Nat) (n : Int) (k : Nat) : List Char :=
  let ds := natToDigits s
  if (k : Int) ≤ n ∧ n ≤ 21 then ds ++ List.replicate (n.toNat - k) '0'
  else if 0 < n ∧ n ≤ 21 then ds.take n.toNat ++ '.' :: ds.drop n.toNat
  else if -6 < n ∧ n ≤ 0 then '0' :: '.' :: (List.replicate (-n).toNat '0' ++ ds)
  else
    let ex := n - 1
    let tail := 'e' :: (if ex < 0 then '-' else '+') :: natToDigits ex.natAbs
    if k = 1 then ds ++ tail else ds.take 1 ++ '.' :: (ds.drop 1 ++ tail)

/-- `Number.prototype.toString()` / Number::toString in radix 10. An integer of
magnitude below `2^53` is written with all of its digits, which is what the
shortest decimal that reads back as the value comes to for such a value. -/
def toChars : F64 → List Char
  | .nan => "NaN".data
  | .inf false => "Infinity".data
  | .inf true => "-Infinity".data
  | .fin u =>
    if u % scale = 0 ∧ (u / scale).natAbs < 2 ^ 53 then intToChars (u / scale)
    else
      let body := match shortestDecimal u.natAbs with
        | some (s, n, k) => formatDecimal s n k
        | none => []
      if u < 0 then '-' :: body else body

end F64

namespace JSON

/-- QuoteJSONString, one character: the two-character escapes, `\u00xx` for the
other control characters, the character itself otherwise. -/
def quoteChar (c : Char) : List Char :=
  if c = '"' then ['\\', '"']
  else if c = '\\' then ['\\', '\\']
  else if c.toNat = 0x08 then ['\\', 'b']
  else if c.toNat = 0x0C then ['\\', 'f']
  else if c.toNat = 0x0A then ['\\', 'n']
  else if c.toNat = 0x0D then ['\\', 'r']
  else if c.toNat = 0x09 then ['\\', 't']
  else if c.toNat < 0x20 then
    ['\\', 'u', '0', '0', hexDigitLower (c.toNat / 16), hexDigitLower (c.toNat % 16)]
  else [c]

/-- The quoted characters of a string, without the enclosing quotes. -/
def quoteBody : List Char → List Char
  | [] => []
  | c :: cs => quoteChar c ++ quoteBody cs

/-- QuoteJSONString. -/
def quote (s : String) : List Char := '"' :: (quoteBody s.data ++ ['"'])

/-- The elements of an array or the members of an object, comma separated. -/
def joinComma : List (List Char) → List Char
  | [] => []
  | [x] => x
  | x :: y :: rest => x ++ ',' :: joinComma (y :: rest)

mutual
/-- `JSON.stringify` of a value, without indentation. -/
def stringify : JSValue → List Char
  | .null => "null".data
  | .bool true => "true".data
  | .bool false => "false".data
  | .num (.dec m e) => (JSNumber.dec m e).toChars
  | .num _ => "null".data
  | .str s => quote s
  | .arr items => '[' :: (joinComma (stringifyItems items) ++ [']'])
  | .obj members => '{' :: (joinComma (stringifyMembers members) ++ ['}'])
/-- The texts of the elements of an array. -/
def stringifyItems : List JSValue → List (List Char)
  | [] => []
  | v :: rest => stringify v :: stringifyItems rest
/-- The texts of the members of an object. -/
def stringifyMembers : List (String × JSValue) → List (List Char)
  | [] => []
  | (k, v) :: rest => (quote k ++ ':' :: stringify v) :: stringifyMembers rest
end

/-- JSON white space. -/
def isWs (c : Char) : Bool := c == ' ' || c == '\t' || c == '\n' || c == '\r'

/-- The text after leading white space. -/
def skipWs (cs : List Char) : List Char := cs.dropWhile isWs

/-- The code unit written by four hex digits. -/
def hex4 (a b c d : Char) : Option Nat :=
  match hexVal a, hexVal b, hexVal c, hexVal d with
  | some x, some y, some z, some w => some (4096 * x + 256 * y + 16 * z + w)
  | _, _, _, _ => none

/-- The character named by a one-character escape. -/
def simpleEscape (e : Char) : Option Nat :=
  if e = '"' then some 0x22
  else if e = '\\' then some 0x5C
  else if e = '/' then some 0x2F
  else if e = 'b' then some 0x08
  else if e = 'f' then some 0x0C
  else if e = 'n' then some 0x0A
  else if e = 'r' then some 0x0D
  else if e = 't' then some 0x09
  else none

/-- The rest of a string literal after its opening quote: the code units (a
character outside the basic plane counts as one unit) up to the closing quote,
and the text after it. -/
def parseStringBody : List Char → Option (List Nat × List Char)
  | [] => none
  | c :: cs =>
    if c = '"' then some ([], cs)
    else if c = '\\' then
      match cs with
      | [] => none
      | e :: rest =>
        if e = 'u' then
          match rest with
          | a :: b :: c2 :: d :: rest2 =>
            match hex4 a b c2 d, parseStringBody rest2 with
            | some u, some (out, after) => some (u :: out, after)
            | _, _ => none
          | _ => none
        else
          match simpleEscape e, parseStringBody rest with
          | some u, some (out, after) => some (u :: out, after)
          | _, _ => none
    else if c.toNat < 0x20 then none
    else
      match parseStringBody cs with
      | some (out, after) => some (c.toNat :: out, after)
      | none => none

/-- Whether a code unit is a surrogate. -/
def isSurrogate (u : Nat) : Bool := 0xD800 ≤ u && u ≤ 0xDFFF

/-- The characters of a sequence of code units: a leading surrogate followed by
a trailing one is the character of the pair. A surrogate without its partner,
which a JavaScript string keeps as it is, is U+FFFD here. -/
def fromCodeUnits : List Nat → List Char
  | [] => []
  | [u] => [if isSurrogate u then replacementChar else Char.ofNat u]
  | u :: v :: rest =>
    if 0xD800 ≤ u ∧ u ≤ 0xDBFF ∧ 0xDC00 ≤ v ∧ v ≤ 0xDFFF then
      Char.ofNat (0x10000 + (u - 0xD800) * 0x400 + (v - 0xDC00)) :: fromCodeUnits rest
    else (if isSurrogate u then replacementChar else Char.ofNat u) :: fromCodeUnits (v :: rest)

/-- A string literal after its opening quote. -/
def parseString (cs : List Char) : Option (String × List Char) :=
  match parseStringBody cs with
  | some (units, after) => some (⟨fromCodeUnits units⟩, after)
  | none => none

/-- The digits at the head of a text and the text after them. -/
def spanDigits (cs : List Char) : List Char × List Char :=
  (cs.takeWhile Char.isDigit, cs.dropWhile Char.isDigit)

/-- The integer part of a number literal: `0`, or a digit from 1 to 9 followed
by digits. -/
def parseIntPart : List Char → Option (List Char × List Char)
  | [] => none
  | d :: rest =>
    if d = '0' then some (['0'], rest)
    else if d.isDigit then some (d :: (spanDigits rest).1, (spanDigits rest).2)
    else none

/-- The optional fraction of a number literal: the digits after the point. -/
def parseFraction : List Char → Option (List Char × List Char)
  | [] => some ([], [])
  | c :: rest =>
    if c = '.' then
      if (spanDigits rest).1.isEmpty then none else some (spanDigits rest)
    else some ([], c :: rest)

/-- The optional exponent of a number literal. -/
def parseExponent : List Char → Option (Int × List Char)
  | [] => some (0, [])
  | c :: rest =>
    if c = 'e' ∨ c = 'E' then
      match rest with
      | [] => none
      | s :: rest2 =>
        if s = '-' then
          if (spanDigits rest2).1.isEmpty then none
          else some (-(digitsToNat (spanDigits rest2).1 : Int), (spanDigits rest2).2)
        else if s = '+' then
          if (spanDigits rest2).1.isEmpty then none
          else some ((digitsToNat (spanDigits rest2).1 : Int), (spanDigits rest2).2)
        else
          if (spanDigits rest).1.isEmpty then none
          else some ((digitsToNat (spanDigits rest).1 : Int), (spanDigits rest).2)
    else some (0, c :: rest)

/-- An unsigned number literal. -/
def parseUnsigned (cs : List Char) : Option ((Nat × Int) × List Char) :=
  match parseIntPart cs with
  | none => none
  | some (whole, cs1) =>
    match parseFraction cs1 with
    | none => none
    | some (frac, cs2) =>
      match parseExponent cs2 with
      | none => none
      | some (e, cs3) => some ((digitsToNat (whole ++ frac), e - frac.length), cs3)

/-- A number literal. -/
def parseNumber : List Char → Option (JSNumber × List Char)
  | [] => none
  | c :: rest =>
    if c = '-' then
      match parseUnsigned rest with
      | some ((m, e), after) => some (.dec (-(m : Int)) e, after)
      | none => none
    else
      match parseUnsigned (c :: rest) with
      | some ((m, e), after) => some (.dec m e, after)
      | none => none

/-- A character that can follow a number in a JSON text: not a digit, a point
or an exponent mark. -/
def endsNumber (c : Char) : Prop := c.isDigit = false ∧ c ≠ '.' ∧ c ≠ 'e' ∧ c ≠ 'E'

/-- What the parser is reading: a value, the elements of an array after the
ones in `acc`, or the members of an object after the ones in `acc`. -/
inductive Mode
  | value
  | elements (acc : List JSValue)
  | members (acc : List (String × JSValue))

/-- The text after the keyword `kw`, when `cs` starts with it. -/
def stripKeyword (kw cs : List Char) : Option (List Char) :=
  if kw.isPrefixOf cs then some (cs.drop kw.length) else none

/-- The JSON grammar by recursive descent. `fuel` bounds the depth of the
calls; the depth is at most twice the length of the text plus one, so that the
fuel given by `parse` is never used up (`parse_fuel_enough`). -/
def parseAux : Nat → Mode → List Char → Option (JSValue × List Char)
  | 0, _, _ => none
  | fuel + 1, .value, cs =>
    match skipWs cs with
    | [] => none
    | c :: rest =>
      if c = '[' then
        match skipWs rest with
        | [] => none
        | c2 :: rest2 =>
          if c2 = ']' then some (.arr [], rest2)
          else parseAux fuel (.elements []) (c2 :: rest2)
      else if c = '{' then
        match skipWs rest with
        | [] => none
        | c2 :: rest2 =>
          if c2 = '}' then some (.obj [], rest2)
          else parseAux fuel (.members []) (c2 :: rest2)
      else if c = '"' then
        match parseString rest with
        | some (s, after) => some (.str s, after)
        | none => none
      else if c = 'n' then (stripKeyword "ull".data rest).map (fun after => (.null, after))
      else if c = 't' then (stripKeyword "rue".data rest).map (fun after => (.bool true, after))
      else if c = 'f' then (stripKeyword "alse".data rest).map (fun after => (.bool false, after))
      else
        match parseNumber (c :: rest) with
        | some (n, after) => some (.num n, after)
        | none => none
  | fuel + 1, .elements acc, cs =>
    match parseAux fuel .value cs with
    | none => none
    | some (v, after) =>
      match skipWs after with
      | [] => none
      | c :: rest =>
        if c = ',' then parseAux fuel (.elements (acc ++ [v])) rest
        else if c = ']' then some (.arr (acc ++ [v]), rest)
        else none
  | fuel + 1, .members acc, cs =>
    match skipWs cs with
    | [] => none
    | q :: rest =>
      if q = '"' then
        match parseString rest with
        | none => none
        | some (k, after) =>
          match skipWs after with
          | [] => none
          | c :: rest2 =>
            if c = ':' then
              match parseAux fuel .value rest2 with
              | none => none
              | some (v, after2) =>
                match skipWs after2 with
                | [] => none
                | c3 :: rest3 =>
                  if c3 = ',' then parseAux fuel (.members (acc ++ [(k, v)])) rest3
                  else if c3 = '}' then some (.obj (acc ++ [(k, v)]), rest3)
                  else none
            else none
      else none

/-- The body of `parseAux` with its recursive calls made through `again`. -/
def parseStep (again : Mode → List Char → Option (JSValue × List Char)) :
    Mode → List Char → Option (JSValue × List Char)
  | .value, cs =>
    match skipWs cs with
    | [] => none
    | c :: rest =>
      if c = '[' then
        match skipWs rest with
        | [] => none
        | c2 :: rest2 =>
          if c2 = ']' then some (.arr [], rest2)
          else again (.elements []) (c2 :: rest2)
      else if c = '{' then
        match skipWs rest with
        | [] => none
        | c2 :: rest2 =>
          if c2 = '}' then some (.obj [], rest2)
          else again (.members []) (c2 :: rest2)
      else if c = '"' then
        match parseString rest with
        | some (s, after) => some (.str s, after)
        | none => none
      else if c = 'n' then (stripKeyword "ull".data rest).map (fun after => (.null, after))
      else if c = 't' then (stripKeyword "rue".data rest).map (fun after => (.bool true, after))
      else if c = 'f' then (stripKeyword "alse".data rest).map (fun after => (.bool false, after))
      else
        match parseNumber (c :: rest) with
        | some (n, after) => some (.num n, after)
        | none => none
  | .elements acc, cs =>
    match again .value cs with
    | none => none
    | some (v, after) =>
      match skipWs after with
      | [] => none
      | c :: rest =>
        if c = ',' then again (.elements (acc ++ [v])) rest
        else if c = ']' then some (.arr (acc ++ [v]), rest)
        else none
  | .members acc, cs =>
    match skipWs cs with
    | [] => none
    | q :: rest =>
      if q = '"' then
        match parseString rest with
        | none => none
        | some (k, after) =>
          match skipWs after with
          | [] => none
          | c :: rest2 =>
            if c = ':' then
              match again .value rest2 with
              | none => none
              | some (v, after2) =>
                match skipWs after2 with
                | [] => none
                | c3 :: rest3 =>
                  if c3 = ',' then again (.members (acc ++ [(k, v)])) rest3
                  else if c3 = '}' then some (.obj (acc ++ [(k, v)]), rest3)
                  else none
            else none
      else none

/-- A bound of the depth of the calls below a call of `parseAux`. -/
def Mode.rank : Mode → List Char → Nat
  | .value, cs => 2 * cs.length
  | .elements _, cs => 2 * cs.length + 1
  | .members _, cs => 2 * cs.length + 1

/-- `JSON.parse(text)` without a reviver: the value of the text, or a
SyntaxError when the text is not one JSON value between white space. -/
def parse (text : String) : Except JSError JSValue :=
  match parseAux (2 * text.data.length + 2) .value text.data with
  | some (v, after) => if (skipWs after).isEmpty then .ok v else .error .syntaxError
  | none => .error .syntaxError

end JSON

/-! ## ToNumber on strings and property reads -/

/-- The characters that StringToNumber trims: WhiteSpace and LineTerminator. -/
def isStrWhiteSpace (c : Char) : Bool :=
  let n := c.toNat
  n == 0x09 || n == 0x0A || n == 0x0B || n == 0x0C || n == 0x0D || n == 0x20 || n == 0xA0 ||
    n == 0x1680 || (0x2000 ≤ n && n ≤ 0x200A) || n == 0x2028 || n == 0x2029 || n == 0x202F ||
    n == 0x205F || n == 0x3000 || n == 0xFEFF

/-- The text without leading and trailing StrWhiteSpace. -/
def trimStrWhiteSpace (cs : List Char) : List Char :=
  ((cs.dropWhile isStrWhiteSpace).reverse.dropWhile isStrWhiteSpace).reverse

/-- The value of a digit in a radix up to 16. -/
def digitInBase (base : Nat) (c : Char) : Option Nat :=
  match hexVal c with
  | some v => if v < base then some v else none
  | none => none

/-- The number written by the digits `cs` in the radix `base`, most significant first. -/
def natInBase (base : Nat) : List Char → Nat → Option Nat
  | [], acc => some acc
  | c :: cs, acc =>
    match digitInBase base c with
    | some v => natInBase base cs (base * acc + v)
    | none => none

/-- StrUnsignedDecimalLiteral: `Infinity`, or digits with an optional point and
an optional exponent, with a digit before or after the point. -/
def strUnsignedDecimal (cs : List Char) : Option JSNumber :=
  if cs = "Infinity".data then some (.inf false)
  else
    let whole := (JSON.spanDigits cs).1
    let afterWhole := (JSON.spanDigits cs).2
    let frac := match afterWhole with
      | '.' :: r => (JSON.spanDigits r).1
      | _ => []
    let afterFrac := match afterWhole with
      | '.' :: r => (JSON.spanDigits r).2
      | _ => afterWhole
    if (whole ++ frac).isEmpty then none
    else
      match JSON.parseExponent afterFrac with
      | some (e, []) => some (.dec (digitsToNat (whole ++ frac)) (e - frac.length))
      | _ => none

/-- The opposite number. -/
def JSNumber.neg : JSNumber → JSNumber
  | .nan => .nan
  | .inf b => .inf (!b)
  | .dec m e => .dec (-m) e

/-- StringToNumber: the value of a StringNumericLiteral, `NaN` for any other text. -/
def stringToNumber (s : String) : JSNumber :=
  match trimStrWhiteSpace s.data with
  | [] => .dec 0 0
  | '0' :: 'x' :: d :: ds | '0' :: 'X' :: d :: ds =>
    match natInBase 16 (d :: ds) 0 with
    | some n => .dec n 0
    | none => .nan
  | '0' :: 'o' :: d :: ds | '0' :: 'O' :: d :: ds =>
    match natInBase 8 (d :: ds) 0 with
    | some n => .dec n 0
    | none => .nan
  | '0' :: 'b' :: d :: ds | '0' :: 'B' :: d :: ds =>
    match natInBase 2 (d :: ds) 0 with
    | some n => .dec n 0
    | none => .nan
  | '+' :: rest => (strUnsignedDecimal rest).getD .nan
  | '-' :: rest => ((strUnsignedDecimal rest).map JSNumber.neg).getD .nan
  | cs => (strUnsignedDecimal cs).getD .nan

/-- `Number(x)` for `x` a string or `null` (`none`): `Number(null)` is `0`. -/
def toNumber : Option String → JSNumber
  | none => .dec 0 0
  | some s => stringToNumber s

/-- The value of the last member of `members` with the key `key`. -/
def lookupMember (members : List (String × JSValue)) (key : String) : Option JSValue :=
  match members with
  | [] => none
  | (k, v) :: rest =>
    match lookupMember rest key with
    | some w => some w
    | none => if k = key then some v else none

/-- `v?.key` for a key that no prototype defines: the member of an object,
`undefined` (`none`) on every other value. -/
def JSValue.getProp (v : JSValue) (key : String) : Option JSValue :=
  match v with
  | .obj members => lookupMember members key
  | _ => none

/-- `a || b` with a string or `null` on the left and a string on the right. -/
def strOr (a : Option String) (b : String) : String :=
  match a with
  | some s => if s = "" then b else s
  | none => b

/-- `a || b` with a value or `undefined` on the left. -/
def valueOr (a : Option JSValue) (b : JSValue) : JSValue :=
  match a with
  | some v => if v.truthy then v else b
  | none => b

/-- `try { return JSON.parse(text) || {}; } catch (e) { return {}; }`. -/
def parseOrEmptyObject (text : String) : JSValue :=
  match JSON.parse text with
  | .ok v => if v.truthy then v else .obj []
  | .error _ => .obj []

/-- `try { return JSON.parse(text); } catch (e) { return []; }`. -/
def parseOrEmptyArray (text : String) : JSValue :=
  match JSON.parse text with
  | .ok v => v
  | .error _ => .arr []

/-! ## Query decoding at the top of the pages -/

/-- The constants that the render of RestaurantPage computes from the query
(RestaurantPage.jsx, lines 20-54). -/
structure RestaurantPageQuery where
  region : String
  period : String
  totalAmount : JSNumber
  hotelId : String
  hotelName : String
  budget : JSValue
  breakdown : JSValue
  foodBudget : JSValue

/-- The constants that the render of TouristPage computes from the query
(TouristPage.jsx, lines 20-63). -/
structure TouristPageQuery where
  region : String
  period : String
  totalAmount : JSNumber
  hotelId : String
  hotelName : String
  budget : JSValue
  breakdown : JSValue
  selectedRestaurants : JSValue
  tourismBudget : JSValue

/-- `Number(searchParams.get("totalAmount")) || 0`. -/
def totalAmountOf (searchParams : URLSearchParams) : JSNumber :=
  let n := toNumber (searchParams.get "totalAmount")
  if n.truthy then n else .dec 0 0

/-- RestaurantPage.jsx, lines 20-54, from the `searchParams` object. The
statements run in source order; the only one that can throw is the call of
`decodeURIComponent`, which no handler encloses. -/
def decodeRestaurantParams (searchParams : URLSearchParams) :
    Except JSError RestaurantPageQuery :=
  let region := strOr (searchParams.get "region") (strOr (searchParams.get "regionIds") "강릉")
  let period := strOr (searchParams.get "period") "1박2일"
  let totalAmount := totalAmountOf searchParams
  let hotelId := strOr (searchParams.get "hotelId") ""
  match decodeURIComponent (strOr (searchParams.get "hotelName") "").data with
  | .error e => .error e
  | .ok hotelName =>
    let budgetStr := strOr (searchParams.get "budget") "{}"
    let budget := parseOrEmptyObject budgetStr
    let breakdownStr := strOr (searchParams.get "breakdown") "{}"
    let breakdown := parseOrEmptyObject breakdownStr
    let foodBudget :=
      valueOr (breakdown.getProp "식비") (valueOr (budget.getProp "식비") (.num (.dec 0 0)))
    .ok { region := region, period := period, totalAmount := totalAmount, hotelId := hotelId,
          hotelName := ⟨hotelName⟩, budget := budget, breakdown := breakdown,
          foodBudget := foodBudget }

/-- RestaurantPage.jsx, lines 15-54: `new URLSearchParams(location.search)` and
the constants read from it. -/
def decodeRestaurantPage (search : String) : Except JSError RestaurantPageQuery :=
  decodeRestaurantParams (URLSearchParams.ofString search)

/-- TouristPage.jsx, lines 20-63, from the `searchParams` object. -/
def decodeTouristParams (searchParams : URLSearchParams) : Except JSError TouristPageQuery :=
  let region := strOr (searchParams.get "region") (strOr (searchParams.get "regionIds") "강릉")
  let period := strOr (searchParams.get "period") "1박2일"
  let totalAmount := totalAmountOf searchParams
  let hotelId := strOr (searchParams.get "hotelId") ""
  match decodeURIComponent (strOr (searchParams.get "hotelName") "").data with
  | .error e => .error e
  | .ok hotelName =>
    let budgetStr := strOr (searchParams.get "budget") "{}"
    let budget := parseOrEmptyObject budgetStr
    let breakdownStr := strOr (searchParams.get "breakdown") "{}"
    let breakdown := parseOrEmptyObject breakdownStr
    let selectedRestaurantsStr := strOr (searchParams.get "selectedRestaurants") "[]"
    let selectedRestaurants := parseOrEmptyArray selectedRestaurantsStr
    let tourismBudget :=
      valueOr (breakdown.getProp "관광") (valueOr (budget.getProp "관광") (.num (.dec 0 0)))
    .ok { region := region, period := period, totalAmount := totalAmount, hotelId := hotelId,
          hotelName := ⟨hotelName⟩, budget := budget, breakdown := breakdown,
          selectedRestaurants := selectedRestaurants, tourismBudget := tourismBudget }

/-- TouristPage.jsx, lines 15-63. -/
def decodeTouristPage (search : String) : Except JSError TouristPageQuery :=
  decodeTouristParams (URLSearchParams.ofString search)

/-! ## Completion -/

/-- The record `{ id, name, price }` kept for a selected item. -/
structure SelectionRecord where
  id : String
  name : String
  price : Int
deriving DecidableEq, Repr

/-- The object `{ id, name, price }` as a value. -/
def SelectionRecord.toJSValue (r : SelectionRecord) : JSValue :=
  .obj [("id", .str r.id), ("name", .str r.name), ("price", .num (.dec r.price 0))]

/-- `selectedRestaurantData` (RestaurantPage.jsx, lines 275-282): for every
member of the Set in insertion order, the record of the first catalog item with
that id. When `find` returns `undefined`, `restaurant.id` raises a TypeError. -/
def selectedRestaurantData (restaurants : List CatalogItem) :
    List String → Except JSError (List SelectionRecord)
  | [] => .ok []
  | id :: rest =>
    match restaurants.find? (fun r => r.id == id) with
    | none => .error .typeError
    | some restaurant =>
      match selectedRestaurantData restaurants rest with
      | .error e => .error e
      | .ok records =>
        .ok ({ id := restaurant.id, name := restaurant.name, price := restaurant.price }
          :: records)

/-- `selectedTouristData` (TouristPage.jsx, lines 285-292). -/
def selectedTouristData (tourists : List CatalogItem) :
    List String → Except JSError (List SelectionRecord)
  | [] => .ok []
  | id :: rest =>
    match tourists.find? (fun t => t.id == id) with
    | none => .error .typeError
    | some tourist =>
      match selectedTouristData tourists rest with
      | .error e => .error e
      | .ok records =>
        .ok ({ id := tourist.id, name := tourist.name, price := tourist.price } :: records)

/-- What a click on the complete button does besides raising: the message of
`alert`, the argument of `navigate`, and the React state after it. -/
structure CompletionOutcome where
  alert : Option String
  navigate : Option String
  state : SelectionState
deriving DecidableEq, Repr

/-- The query string that the complete button of RestaurantPage builds
(RestaurantPage.jsx, lines 285-288). -/
def restaurantQueryParams (search : String) (records : List SelectionRecord) (total : F64) :
    URLSearchParams :=
  let queryParams := URLSearchParams.ofString search
  let queryParams := queryParams.set "selectedRestaurants"
    ⟨JSON.stringify (.arr (records.map SelectionRecord.toJSValue))⟩
  queryParams.set "restaurantTotalPrice" ⟨total.toChars⟩

/-- The query string that the complete button of TouristPage builds
(TouristPage.jsx, lines 295-298). -/
def touristQueryParams (search : String) (records : List SelectionRecord) (total : F64) :
    URLSearchParams :=
  let queryParams := URLSearchParams.ofString search
  let queryParams := queryParams.set "selectedTourists"
    ⟨JSON.stringify (.arr (records.map SelectionRecord.toJSValue))⟩
  queryParams.set "touristTotalPrice" ⟨total.toChars⟩

/-- The `onClick` handler of the complete button of RestaurantPage
(RestaurantPage.jsx, lines 268-291). -/
def completeRestaurant (search : String) (restaurants : List CatalogItem)
    (st : SelectionState) : Except JSError CompletionOutcome :=
  if st.selected.length = 0 then
    .ok { alert := some "최소 1개 이상의 식당을 선택해주세요.", navigate := none, state := st }
  else
    match selectedRestaurantData restaurants st.selected with
    | .error e => .error e
    | .ok selectedRestaurantData =>
      let queryParams := restaurantQueryParams search selectedRestaurantData st.total
      .ok { alert := none, navigate := some ("/tourist?" ++ queryParams.toString), state := st }

/-- The `onClick` handler of the complete button of TouristPage
(TouristPage.jsx, lines 278-302). -/
def completeTourist (search : String) (tourists : List CatalogItem)
    (st : SelectionState) : Except JSError CompletionOutcome :=
  if st.selected.length = 0 then
    .ok { alert := some "최소 1개 이상의 관광지를 선택해주세요.", navigate := none, state := st }
  else
    match selectedTouristData tourists st.selected with
    | .error e => .error e
    | .ok selectedTouristData =>
      let queryParams := touristQueryParams search selectedTouristData st.total
      .ok { alert := none, navigate := some ("/report?" ++ queryParams.toString), state := st }

/-! ## Normalisation of the records of the catalog service -/

mutual
/-- ToString of a JSON value: the text of a primitive, the comma-joined texts
of the elements of an array, `[object Object]` for an object. -/
def JSValue.toText : JSValue → List Char
  | .null => "null".data
  | .bool true => "true".data
  | .bool false => "false".data
  | .num n => n.toChars
  | .str s => s.data
  | .arr items => JSON.joinComma (JSValue.elementTexts items)
  | .obj _ => "[object Object]".data
/-- The texts that `Array.prototype.join` joins: empty for `null`. -/
def JSValue.elementTexts : List JSValue → List (List Char)
  | [] => []
  | v :: rest =>
    (match v with
      | .null => []
      | w => JSValue.toText w) :: JSValue.elementTexts rest
end

/-- `Number(x)` for a JSON value or `undefined` (`none`): ToNumber. An array or
an object is converted through its ToString text. -/
def numberOfValue : Option JSValue → JSNumber
  | none => .nan
  | some .null => .dec 0 0
  | some (.bool true) => .dec 1 0
  | some (.bool false) => .dec 0 0
  | some (.num n) => n
  | some (.str s) => stringToNumber s
  | some (.arr items) => stringToNumber ⟨(JSValue.arr items).toText⟩
  | some (.obj members) => stringToNumber ⟨(JSValue.obj members).toText⟩

/-- `a ?? b` with a value or `undefined` on the left: `b` only when `a` is
`undefined` or `null`. -/
def nullishOr (a : Option JSValue) (b : JSValue) : JSValue :=
  match a with
  | none => b
  | some .null => b
  | some v => v

/-- An entry of `restaurants` as `setRestaurants` builds it (RestaurantPage.jsx,
lines 74-84). -/
structure RestaurantEntry where
  id : JSValue
  name : JSValue
  type : JSValue
  location : JSValue
  price : JSValue
  description : JSValue
  image : JSValue
  rating : JSValue
  reviewCount : JSValue

/-- An entry of `tourists` as `setTourists` builds it (TouristPage.jsx, lines 84-94). -/
structure TouristEntry where
  id : JSValue
  name : JSValue
  location : JSValue
  description : JSValue
  image : JSValue
  rating : JSValue
  reviewCount : JSValue
  price : JSValue
  parkingCount : JSValue

/-- The callback of `list.map` in RestaurantPage.jsx, lines 74-84, for the raw
record `r` at index `i`. Reading a property of `null` raises a TypeError. -/
def normalizeRestaurant (r : JSValue) (i : Nat) : Except JSError RestaurantEntry :=
  match r with
  | .null => .error .typeError
  | _ =>
    .ok {
      id := valueOr (r.getProp "id") (.str ⟨"r-".data ++ natToDigits i⟩)
      name := valueOr (r.getProp "name") (.str "(이름 없음)")
      type := valueOr (r.getProp "type") (.str "식당")
      location := valueOr (r.getProp "location") (.str "")
      price := valueOr (some (.num (numberOfValue (r.getProp "price")))) (.num (.dec 10000 0))
      description := valueOr (r.getProp "description") (.str "")
      image := valueOr (r.getProp "image")
        (.str "https://images.unsplash.com/photo-1517248135467-4c7edcad34c4?w=800")
      rating := nullishOr (r.getProp "rating") (.num (.dec 4 0))
      reviewCount := nullishOr (r.getProp "reviewCount") (.num (.dec 0 0)) }

/-- The callback of `list.map` in TouristPage.jsx, lines 84-94, for the raw
record `a` at index `i`. -/
def normalizeTourist (a : JSValue) (i : Nat) : Except JSError TouristEntry :=
  match a with
  | .null => .error .typeError
  | _ =>
    .ok {
      id := valueOr (a.getProp "id") (.str ⟨"t-".data ++ natToDigits i⟩)
      name := valueOr (a.getProp "name") (.str "(이름 없음)")
      location := valueOr (a.getProp "location") (.str "")
      description := valueOr (a.getProp "description") (.str "")
      image := valueOr (a.getProp "image")
        (.str "https://images.unsplash.com/photo-1507525428034-b723cf961d3e?w=800")
      rating := nullishOr (a.getProp "rating") (.num (.dec 4 0))
      reviewCount := nullishOr (a.getProp "reviewCount") (.num (.dec 0 0))
      price := nullishOr (some (.num (numberOfValue (a.getProp "price")))) (.num (.dec 0 0))
      parkingCount :=
        nullishOr (some (.num (numberOfValue (a.getProp "parkingCount")))) (.num (.dec 0 0)) }

/-- `list.map(...)` of RestaurantPage.jsx from the index `i` on. -/
def normalizeRestaurantsFrom (i : Nat) : List JSValue → Except JSError (List RestaurantEntry)
  | [] => .ok []
  | r :: rest =>
    match normalizeRestaurant r i with
    | .error e => .error e
    | .ok entry =>
      match normalizeRestaurantsFrom (i + 1) rest with
      | .error e => .error e
      | .ok entries => .ok (entry :: entries)

/-- `list.map(...)` of TouristPage.jsx from the index `i` on. -/
def normalizeTouristsFrom (i : Nat) : List JSValue → Except JSError (List TouristEntry)
  | [] => .ok []
  | a :: rest =>
    match normalizeTourist a i with
    | .error e => .error e
    | .ok entry =>
      match normalizeTouristsFrom (i + 1) rest with
      | .error e => .error e
      | .ok entries => .ok (entry :: entries)

/-- The value given to `setRestaurants` for the response body `data`
(RestaurantPage.jsx, lines 73-89): the normalised records of an array, the
empty list for any other body and when the normalisation raises. -/
def restaurantsOfResponse (data : JSValue) : List RestaurantEntry :=
  let list := match data with
    | .arr items => items
    | _ => []
  match normalizeRestaurantsFrom 0 list with
  | .ok entries => entries
  | .error _ => []

/-- The value given to `setTourists` for the response body `data`
(TouristPage.jsx, lines 82-100). -/
def touristsOfResponse (data : JSValue) : List TouristEntry :=
  let list := match data with
    | .arr items => items
    | _ => []
  match normalizeTouristsFrom 0 list with
  | .ok entries => entries
  | .error _ => []

namespace URLSearchParams

/-- `getAll(name)`: the values of the tuples named `name`, in order. -/
def getAll (ps : URLSearchParams) (name : String) : List String :=
  (ps.filter (fun t => t.1 == name)).map Prod.snd

end URLSearchParams

/-- The id `x` entered the selection with toggle number `k + 1` of `events` and
has been selected ever since: it is not selected after the first `k` toggles
and is selected after the first `j` toggles for every later `j`. Here `run`
gives the state after a sequence of toggles. -/
def selectedSince (run : List CatalogItem → SelectionState) (events : List CatalogItem)
    (x : String) (k : Nat) : Prop :=
  k < events.length ∧ x ∉ (run (events.take k)).selected ∧
    ∀ j, k < j → j ≤ events.length → x ∈ (run (events.take j)).selected

/-! ## Theorems -/

theorem handleTouristToggle_eq : handleTouristToggle = handleRestaurantToggle := rfl

theorem toggleTourist_eq : toggleTourist = toggleRestaurant := rfl

theorem runTouristToggles_eq : runTouristToggles = runRestaurantToggles := rfl

theorem canSelectTourist_eq : canSelectTourist = canSelectRestaurant := rfl

theorem setHas_iff (s : List String) (x : String) : setHas s x = true ↔ x ∈ s := by
  simp [setHas]

theorem setAdd_of_not_mem (s : List String) (x : String) (h : x ∉ s) :
    setAdd s x = s ++ [x] := by
  simp [setAdd, h]

theorem mem_setDelete (s : List String) (x y : String) :
    y ∈ setDelete s x ↔ y ∈ s ∧ y ≠ x := by
  simp [setDelete]

namespace F64

theorem scale_pos : 0 < scale := by unfold scale; positivity

theorem excessBits_le (fuel q k : Nat) (h : q < 2 ^ (53 + k)) : excessBits fuel q ≤ k := by
  induction fuel generalizing q k with
  | zero => simp [excessBits]
  | succ n ih =>
    unfold excessBits
    split_ifs with hq
    · omega
    · cases k with
      | zero => exact absurd h hq
      | succ k =>
        have : q / 2 < 2 ^ (53 + k) := by
          have : 2 ^ (53 + (k + 1)) = 2 * 2 ^ (53 + k) := by ring
          omega
        have := ih (q / 2) k this
        omega

/-- The fuel of `roundRat` is enough: what is left after the shift has at most
53 bits, whenever the number has at most `53 + fuel` bits, as every number has
with itself as fuel. -/
theorem excessBits_spec (fuel q : Nat) (h : q < 2 ^ (53 + fuel)) :
    q / 2 ^ excessBits fuel q < 2 ^ 53 := by
  induction fuel generalizing q with
  | zero => simpa [excessBits] using h
  | succ n ih =>
    unfold excessBits
    split_ifs with hq
    · simpa using hq
    · have h2 : q / 2 < 2 ^ (53 + n) := by
        have : 2 ^ (53 + (n + 1)) = 2 * 2 ^ (53 + n) := by ring
        omega
      have := ih (q / 2) h2
      rw [pow_succ, mul_comm, ← Nat.div_div_eq_div_mul]
      exact this

theorem excessBits_self (q : Nat) : q / 2 ^ excessBits q q < 2 ^ 53 := by
  apply excessBits_spec
  calc q < 2 ^ q := Nat.lt_two_pow q
    _ ≤ 2 ^ (53 + q) := Nat.pow_le_pow_right (by norm_num) (by omega)

/-- A whole number of units below `2^53` ones is a binary64 value: rounding
leaves it as it is. -/
theorem roundRat_exact (m : Nat) (h : m < 2 ^ 53) : roundRat (m * scale) 1 = m * scale := by
  unfold roundRat
  simp only [Nat.div_one, one_mul]
  have hlt : m * scale < 2 ^ (53 + 1074) := by
    rw [pow_add]
    have := Nat.mul_lt_mul_of_pos_right h scale_pos
    unfold scale at this ⊢
    exact this
  have hsh := excessBits_le (m * scale) (m * scale) 1074 hlt
  generalize excessBits (m * scale) (m * scale) = sh at hsh
  have hdvd : 2 ^ sh ∣ m * scale := by
    unfold scale
    exact Dvd.dvd.mul_left (pow_dvd_pow 2 hsh) m
  have hr : m * scale % 2 ^ sh = 0 := Nat.mod_eq_zero_of_dvd hdvd
  have hpos : 0 < 2 ^ sh := by positivity
  simp only [hr, Nat.mul_zero, hpos, if_true]
  exact Nat.div_mul_cancel hdvd

/-- A safe integer is a Number exactly. -/
theorem ofInt_safe (k : Int) (h : safeInteger k) : ofInt k = .fin (k * scale) := by
  unfold safeInteger at h
  have hk : k.natAbs < 2 ^ 53 := by norm_num; omega
  unfold ofInt ofUnits ofRat
  have habs : (k * (scale : Int)).natAbs = k.natAbs * scale := by
    rw [Int.natAbs_mul, Int.natAbs_ofNat]
  rw [habs, roundRat_exact _ hk]
  have hlim : ¬ limit ≤ k.natAbs * scale := by
    have h1 : k.natAbs * scale < 2 ^ 53 * scale := Nat.mul_lt_mul_of_pos_right hk scale_pos
    have h2 : 2 ^ 53 * scale ≤ limit := by
      unfold scale limit
      rw [← pow_add]
      exact Nat.pow_le_pow_right (by norm_num) (by norm_num)
    omega
  simp only [hlim, if_false]
  congr 1
  by_cases hneg : k < 0
  · have h1 : k * (scale : Int) < 0 :=
      Int.mul_neg_of_neg_of_pos hneg (by exact_mod_cast scale_pos)
    simp only [h1, decide_True, if_true]
    rw [← habs]
    omega
  · have h1 : ¬ k * (scale : Int) < 0 := by
      have : 0 ≤ k * (scale : Int) := Int.mul_nonneg (by omega) (by exact_mod_cast scale_pos.le)
      omega
    simp only [h1, decide_False]
    rw [← habs]
    simp
    omega

theorem ofInt_zero : ofInt 0 = .fin 0 := by
  rw [ofInt_safe 0 (by decide)]
  simp

theorem add_fin (x y : Int) : add (.fin x) (.fin y) = ofUnits (x + y) := rfl

/-- The sum of two safe integers is the Number of their sum (exact when the sum
is safe, rounded otherwise). -/
theorem add_ofInt (a b : Int) (ha : safeInteger a) (hb : safeInteger b) :
    add (ofInt a) (ofInt b) = ofInt (a + b) := by
  rw [ofInt_safe a ha, ofInt_safe b hb, add_fin]
  unfold ofInt
  rw [Int.add_mul]

theorem sub_ofInt (a b : Int) (ha : safeInteger a) (hb : safeInteger b) :
    sub (ofInt a) (ofInt b) = ofInt (a - b) := by
  rw [ofInt_safe a ha, ofInt_safe b hb]
  unfold sub neg
  rw [add_fin]
  unfold ofInt
  congr 1
  ring

theorem lt_ofInt (a b : Int) (ha : safeInteger a) (hb : safeInteger b) :
    lt (ofInt a) (ofInt b) = decide (a < b) := by
  rw [ofInt_safe a ha, ofInt_safe b hb]
  unfold lt
  have hs : (0 : Int) < scale := by exact_mod_cast scale_pos
  exact decide_eq_decide.2 (mul_lt_mul_right hs)

theorem gt_ofInt (a b : Int) (ha : safeInteger a) (hb : safeInteger b) :
    gt (ofInt a) (ofInt b) = decide (b < a) := lt_ofInt b a hb ha

theorem le_ofInt (a b : Int) (ha : safeInteger a) (hb : safeInteger b) :
    le (ofInt a) (ofInt b) = decide (a ≤ b) := by
  have h := lt_ofInt b a hb ha
  rw [ofInt_safe a ha, ofInt_safe b hb] at *
  simp only [le, h]
  by_cases hab : a ≤ b
  · have : ¬ b < a := by omega
    simp [hab, this]
  · have : b < a := by omega
    simp [hab, this]

theorem ofInt_injective (a b : Int) (ha : safeInteger a) (hb : safeInteger b)
    (h : ofInt a = ofInt b) : a = b := by
  rw [ofInt_safe a ha, ofInt_safe b hb] at h
  injection h with h
  have hs : (scale : Int) ≠ 0 := by exact_mod_cast scale_pos.ne'
  exact Int.eq_of_mul_eq_mul_right hs h

theorem ofInt_ne_nan (a : Int) : ofInt a ≠ .nan := by
  unfold ofInt ofUnits ofRat
  simp only
  split_ifs <;> simp

theorem toChars_ofInt (a : Int) (ha : safeInteger a) : toChars (ofInt a) = intToChars a := by
  rw [ofInt_safe a ha]
  have hs : (scale : Int) ≠ 0 := by exact_mod_cast scale_pos.ne'
  have h1 : a * (scale : Int) % scale = 0 := Int.mul_emod_left _ _
  have h2 : a * (scale : Int) / scale = a := Int.mul_ediv_cancel _ hs
  unfold safeInteger at ha
  have h3 : a.natAbs < 2 ^ 53 := by norm_num; omega
  simp only [toChars, h1, h2, h3, and_self, if_true]

theorem gt_eq_not_le (x c : F64) (hx : x ≠ .nan) (hc : c ≠ .nan) : gt x c = !le x c := by
  cases x <;> cases c <;> simp_all [gt, le]

theorem gt_eq_false_of_le (x c : F64) (h : le x c = true) : gt x c = false := by
  cases x <;> cases c <;> simp_all [gt, le]

theorem ne_nan_of_le (x c : F64) (h : le x c = true) : x ≠ .nan ∧ c ≠ .nan := by
  cases x <;> cases c <;> simp_all [le]

theorem le_of_gt_eq_false (x c : F64) (hx : x ≠ .nan) (hc : c ≠ .nan)
    (h : gt x c = false) : le x c = true := by
  rw [gt_eq_not_le x c hx hc] at h
  simpa using h

theorem le_fin_mono (a b : Int) (c : F64) (hab : a ≤ b) (h : le (.fin b) c = true) :
    le (.fin a) c = true := by
  cases c with
  | nan => simp [le] at h
  | inf n => simpa [le, lt] using h
  | fin u =>
    simp only [le, lt, Bool.not_eq_true', decide_eq_false_iff_not, not_lt] at h ⊢
    omega

theorem le_ofInt_mono (a b : Int) (c : F64) (ha : safeInteger a) (hb : safeInteger b)
    (hab : a ≤ b) (h : le (ofInt b) c = true) : le (ofInt a) c = true := by
  rw [ofInt_safe a ha]
  rw [ofInt_safe b hb] at h
  have hs : (0 : Int) ≤ scale := by exact_mod_cast scale_pos.le
  exact le_fin_mono _ _ c (Int.mul_le_mul_of_nonneg_right hab hs) h

theorem safeInteger_of_abs_le (k m : Int) (h : |k| ≤ m) (hm : m ≤ 9007199254740991) :
    safeInteger k := by
  have := abs_le.1 h
  unfold safeInteger
  omega

end F64

theorem handleRestaurantToggle_absent (c : F64) (st : SelectionState) (x : String) (p : F64)
    (h : x ∉ st.selected) :
    handleRestaurantToggle c st x p
      = if F64.gt (F64.add st.total p) c = true then st
        else { selected := st.selected ++ [x], total := F64.add st.total p } := by
  have h1 : setHas st.selected x = false := by
    cases hb : setHas st.selected x
    · rfl
    · exact absurd ((setHas_iff _ _).1 hb) h
  simp [handleRestaurantToggle, h1, setAdd_of_not_mem _ _ h]

theorem handleRestaurantToggle_present (c : F64) (st : SelectionState) (x : String) (p : F64)
    (h : x ∈ st.selected) :
    handleRestaurantToggle c st x p
      = { selected := setDelete st.selected x, total := F64.sub st.total p } := by
  have h1 : setHas st.selected x = true := (setHas_iff _ _).2 h
  simp [handleRestaurantToggle, h1]

/-- C1, as stated, fails where the sum is rounded and where a number is `NaN`.
With ceiling `2^53`, total `2^53` and price 1 both handlers admit the item and
leave the total at `2^53`, although `2^53 + 1 <= 2^53` is false: the sum that
the page computes is `2^53`. With a `NaN` price the item is admitted with the
total `NaN`, although `0 + NaN <= 30000` is false: the handlers test
`newTotal > budget`, which is false as well. -/
theorem C1_counterexample :
    handleRestaurantToggle (F64.ofInt 9007199254740992)
        { selected := [], total := F64.ofInt 9007199254740992 } "B" (F64.ofInt 1)
      = { selected := ["B"], total := F64.ofInt 9007199254740992 } ∧
    handleTouristToggle (F64.ofInt 9007199254740992)
        { selected := [], total := F64.ofInt 9007199254740992 } "B" (F64.ofInt 1)
      = { selected := ["B"], total := F64.ofInt 9007199254740992 } ∧
    ¬ ((9007199254740992 : Int) + 1 ≤ 9007199254740992) ∧
    handleRestaurantToggle (F64.ofInt 30000) SelectionState.initial "B" F64.nan
      = { selected := ["B"], total := F64.nan } ∧
    handleTouristToggle (F64.ofInt 30000) SelectionState.initial "B" F64.nan
      = { selected := ["B"], total := F64.nan } ∧
    F64.le (F64.add SelectionState.initial.total F64.nan) (F64.ofInt 30000) = false := by
  decide!

/-- C1, amended. For every state `(S, t)`, ceiling `c` and item `(id, p)` with
`id` not in `S`: when `t`, `p`, `c` and `t + p` are safe integers, both toggle
handlers admit the item iff `t + p <= c`; on admission the new state is
`(S with id added last, t + p)`, otherwise it is exactly `(S, t)`. For all
numbers such that neither the sum `t + p` that the page computes nor `c` is
`NaN`, the handlers admit iff that sum is `<= c`. The last conjunct is the trace
with ceiling 30000: A (20000) admitted, B (15000) rejected with the total still
20000, A removed giving 0, B admitted giving 15000. -/
theorem C1_toggle_admits_iff_within_budget (c t p : Int) (S : List String) (id : String)
    (hid : id ∉ S) (hc : F64.safeInteger c) (ht : F64.safeInteger t)
    (hp : F64.safeInteger p) (hs : F64.safeInteger (t + p)) :
    (t + p ≤ c →
      handleRestaurantToggle (F64.ofInt c) { selected := S, total := F64.ofInt t } id
          (F64.ofInt p) = { selected := S ++ [id], total := F64.ofInt (t + p) } ∧
      handleTouristToggle (F64.ofInt c) { selected := S, total := F64.ofInt t } id
          (F64.ofInt p) = { selected := S ++ [id], total := F64.ofInt (t + p) }) ∧
    (¬ t + p ≤ c →
      handleRestaurantToggle (F64.ofInt c) { selected := S, total := F64.ofInt t } id
          (F64.ofInt p) = { selected := S, total := F64.ofInt t } ∧
      handleTouristToggle (F64.ofInt c) { selected := S, total := F64.ofInt t } id
          (F64.ofInt p) = { selected := S, total := F64.ofInt t }) ∧
    ((id ∈ (handleRestaurantToggle (F64.ofInt c) { selected := S, total := F64.ofInt t } id
          (F64.ofInt p)).selected ↔ t + p ≤ c) ∧
     (id ∈ (handleTouristToggle (F64.ofInt c) { selected := S, total := F64.ofInt t } id
          (F64.ofInt p)).selected ↔ t + p ≤ c)) ∧
    (∀ (cc tt pp : F64), F64.add tt pp ≠ F64.nan → cc ≠ F64.nan →
      handleRestaurantToggle cc { selected := S, total := tt } id pp
        = (if F64.le (F64.add tt pp) cc = true
            then { selected := S ++ [id], total := F64.add tt pp }
            else { selected := S, total := tt }) ∧
      handleTouristToggle cc { selected := S, total := tt } id pp
        = (if F64.le (F64.add tt pp) cc = true
            then { selected := S ++ [id], total := F64.add tt pp }
            else { selected := S, total := tt })) ∧
    (let c0 := F64.ofInt 30000
     let s0 := SelectionState.initial
     let s1 := handleRestaurantToggle c0 s0 "A" (F64.ofInt 20000)
     let s2 := handleRestaurantToggle c0 s1 "B" (F64.ofInt 15000)
     let s3 := handleRestaurantToggle c0 s2 "A" (F64.ofInt 20000)
     let s4 := handleRestaurantToggle c0 s3 "B" (F64.ofInt 15000)
     s1 = { selected := ["A"], total := F64.ofInt 20000 } ∧ s2 = s1 ∧
     s3 = { selected := [], total := F64.ofInt 0 } ∧
     s4 = { selected := ["B"], total := F64.ofInt 15000 }) := by
  have key : handleRestaurantToggle (F64.ofInt c) { selected := S, total := F64.ofInt t } id
      (F64.ofInt p) = if t + p ≤ c then { selected := S ++ [id], total := F64.ofInt (t + p) }
        else { selected := S, total := F64.ofInt t } := by
    rw [handleRestaurantToggle_absent _ _ _ _ hid]
    simp only [F64.add_ofInt t p ht hp, F64.gt_ofInt (t + p) c hs hc, decide_eq_true_eq]
    by_cases hle : t + p ≤ c
    · have : ¬ c < t + p := by omega
      simp [hle, this]
    · have : c < t + p := by omega
      simp [hle, this]
  rw [handleTouristToggle_eq]
  refine ⟨?_, ?_, ?_, ?_, by decide!⟩
  · intro hle
    rw [key]
    simp [hle]
  · intro hle
    rw [key]
    simp [hle]
  · rw [key]
    by_cases hle : t + p ≤ c
    · simp [hle]
    · simp [hle, hid]
  · intro cc tt pp hsum hcc
    rw [handleRestaurantToggle_absent _ _ _ _ hid]
    simp only [F64.gt_eq_not_le _ _ hsum hcc]
    cases hle : F64.le (F64.add tt pp) cc <;> simp

/-- Witness for C1 (amended): ceiling 30000, A selected with total 20000, B
priced 15000 is rejected and the state stays as it is. -/
theorem C1_toggle_admits_iff_within_budget_witness :
    handleRestaurantToggle (F64.ofInt 30000) { selected := ["A"], total := F64.ofInt 20000 }
        "B" (F64.ofInt 15000) = { selected := ["A"], total := F64.ofInt 20000 } :=
  ((C1_toggle_admits_iff_within_budget 30000 20000 15000 ["A"] "B"
    (by decide) (by decide) (by decide) (by decide) (by decide)).2.1 (by decide)).1

theorem selectedPriceSum_congr (catalog : List CatalogItem) (s1 s2 : List String)
    (h : ∀ r ∈ catalog, setHas s1 r.id = setHas s2 r.id) :
    selectedPriceSum catalog s1 = selectedPriceSum catalog s2 := by
  unfold selectedPriceSum
  congr 2
  apply List.filter_congr
  intro r hr
  exact h r hr

/-- Selecting one more catalog item raises the selected sum by its price. -/
theorem selectedPriceSum_insert (catalog : List CatalogItem) (s1 s2 : List String)
    (r : CatalogItem) (hnd : (catalog.map CatalogItem.id).Nodup) (hr : r ∈ catalog)
    (h1 : setHas s1 r.id = false) (h2 : setHas s2 r.id = true)
    (hoth : ∀ x, x ≠ r.id → setHas s2 x = setHas s1 x) :
    selectedPriceSum catalog s2 = selectedPriceSum catalog s1 + r.price := by
  induction catalog with
  | nil => cases hr
  | cons a t ih =>
    simp only [List.map_cons, List.nodup_cons] at hnd
    obtain ⟨hat, hnt⟩ := hnd
    by_cases ha : a.id = r.id
    · have hra : r = a := by
        rcases List.mem_cons.1 hr with h | h
        · exact h
        · exact absurd (ha ▸ List.mem_map_of_mem CatalogItem.id h) hat
      subst hra
      have htail : selectedPriceSum t s2 = selectedPriceSum t s1 := by
        apply selectedPriceSum_congr
        intro q hq
        apply hoth
        intro hqe
        exact hat (hqe ▸ List.mem_map_of_mem CatalogItem.id hq)
      unfold selectedPriceSum at htail ⊢
      simp only [List.filter_cons, h1, h2, if_true, List.map_cons,
        List.sum_cons, htail]
      simp
      omega
    · have hrt : r ∈ t := by
        rcases List.mem_cons.1 hr with h | h
        · exact absurd (h ▸ rfl) ha
        · exact h
      have ih2 := ih hnt hrt
      have hah : setHas s2 a.id = setHas s1 a.id := hoth _ ha
      unfold selectedPriceSum at ih2 ⊢
      simp only [List.filter_cons, hah]
      cases hb : setHas s1 a.id
      · simpa using ih2
      · simp only [if_true, List.map_cons, List.sum_cons, ih2]
        omega

theorem setHas_append_single (s : List String) (x y : String) :
    setHas (s ++ [x]) y = (setHas s y || (y == x)) := by
  rw [Bool.eq_iff_iff]
  simp [setHas_iff]

theorem setHas_setDelete (s : List String) (x y : String) :
    setHas (setDelete s x) y = (setHas s y && (y != x)) := by
  rw [Bool.eq_iff_iff]
  simp [setHas_iff, mem_setDelete]

theorem selectedPriceSum_delete (catalog : List CatalogItem) (sel : List String)
    (r : CatalogItem) (hnd : (catalog.map CatalogItem.id).Nodup) (hr : r ∈ catalog)
    (hsel : r.id ∈ sel) :
    selectedPriceSum catalog sel = selectedPriceSum catalog (setDelete sel r.id) + r.price := by
  apply selectedPriceSum_insert catalog _ _ r hnd hr
  · simp [setHas_setDelete]
  · exact (setHas_iff _ _).2 hsel
  · intro x hx
    simp [setHas_setDelete, hx]

theorem selectedPriceSum_append (catalog : List CatalogItem) (sel : List String)
    (r : CatalogItem) (hnd : (catalog.map CatalogItem.id).Nodup) (hr : r ∈ catalog)
    (hsel : r.id ∉ sel) :
    selectedPriceSum catalog (sel ++ [r.id]) = selectedPriceSum catalog sel + r.price := by
  apply selectedPriceSum_insert catalog _ _ r hnd hr
  · cases hb : setHas sel r.id
    · rfl
    · exact absurd ((setHas_iff _ _).1 hb) hsel
  · simp [setHas_append_single]
  · intro x hx
    simp [setHas_append_single, hx]

theorem priceMagnitude_nonneg (catalog : List CatalogItem) : 0 ≤ priceMagnitude catalog := by
  induction catalog with
  | nil => simp [priceMagnitude]
  | cons a t ih =>
    unfold priceMagnitude at ih ⊢
    simp only [List.map_cons, List.sum_cons]
    exact add_nonneg (abs_nonneg _) ih

theorem abs_price_le (catalog : List CatalogItem) (r : CatalogItem) (hr : r ∈ catalog) :
    |r.price| ≤ priceMagnitude catalog := by
  induction catalog with
  | nil => cases hr
  | cons a t ih =>
    have hn := priceMagnitude_nonneg t
    unfold priceMagnitude at ih hn ⊢
    simp only [List.map_cons, List.sum_cons]
    rcases List.mem_cons.1 hr with h | h
    · subst h
      exact le_add_of_nonneg_right hn
    · exact le_trans (ih h) (le_add_of_nonneg_left (abs_nonneg _))

theorem abs_selectedPriceSum_le (catalog : List CatalogItem) (sel : List String) :
    |selectedPriceSum catalog sel| ≤ priceMagnitude catalog := by
  induction catalog with
  | nil => simp [selectedPriceSum, priceMagnitude]
  | cons a t ih =>
    unfold selectedPriceSum priceMagnitude at ih ⊢
    simp only [List.filter_cons, List.map_cons, List.sum_cons]
    cases hb : setHas sel a.id
    · simp only [Bool.false_eq_true, if_false]
      exact le_trans ih (le_add_of_nonneg_left (abs_nonneg _))
    · simp only [if_true, List.map_cons, List.sum_cons]
      exact le_trans (abs_add _ _) (add_le_add_left ih _)

/-- Over a catalog whose price magnitudes add up to a safe integer, a toggle of
a catalog item keeps the running total equal to the Number of the exact sum of
the selected prices, whatever the ceiling. -/
theorem toggle_total (c : F64) (catalog : List CatalogItem) (st : SelectionState)
    (r : CatalogItem) (hnd : (catalog.map CatalogItem.id).Nodup)
    (hsafe : priceMagnitude catalog ≤ 9007199254740991) (hr : r ∈ catalog)
    (h : st.total = F64.ofInt (selectedPriceSum catalog st.selected)) :
    (toggleRestaurant c st r).total
      = F64.ofInt (selectedPriceSum catalog (toggleRestaurant c st r).selected) := by
  have hs : F64.safeInteger (selectedPriceSum catalog st.selected) :=
    F64.safeInteger_of_abs_le _ _ (abs_selectedPriceSum_le _ _) hsafe
  have hp : F64.safeInteger r.price :=
    F64.safeInteger_of_abs_le _ _ (abs_price_le _ _ hr) hsafe
  unfold toggleRestaurant
  by_cases hsel : r.id ∈ st.selected
  · rw [handleRestaurantToggle_present c st r.id _ hsel]
    have hsum := selectedPriceSum_delete catalog st.selected r hnd hr hsel
    simp only
    rw [h, F64.sub_ofInt _ _ hs hp]
    congr 1
    omega
  · rw [handleRestaurantToggle_absent c st r.id _ hsel]
    cases hgt : F64.gt (F64.add st.total (F64.ofInt r.price)) c
    · simp only [Bool.false_eq_true, if_false]
      have hsum := selectedPriceSum_append catalog st.selected r hnd hr hsel
      rw [h, F64.add_ofInt _ _ hs hp]
      congr 1
      omega
    · simp only [if_true]
      exact h

theorem selectedPriceSum_nil (catalog : List CatalogItem) : selectedPriceSum catalog [] = 0 := by
  simp [selectedPriceSum, setHas]

theorem BudgetInv.initial (c : F64) (catalog : List CatalogItem)
    (hc : F64.le (F64.ofInt 0) c = true) :
    BudgetInv c catalog SelectionState.initial := by
  refine ⟨by simp [SelectionState.initial], by simp [SelectionState.initial], ?_, ?_⟩
  · show F64.fin 0 = F64.ofInt (selectedPriceSum catalog [])
    rw [selectedPriceSum_nil, F64.ofInt_zero]
  · rw [F64.ofInt_zero] at hc
    exact hc

theorem BudgetInv.toggle (c : F64) (catalog : List CatalogItem) (st : SelectionState)
    (r : CatalogItem) (hnd : (catalog.map CatalogItem.id).Nodup)
    (hp : ∀ q ∈ catalog, 0 ≤ q.price) (hsafe : priceMagnitude catalog ≤ 9007199254740991)
    (hr : r ∈ catalog) (h : BudgetInv c catalog st) :
    BudgetInv c catalog (toggleRestaurant c st r) := by
  have htot := toggle_total c catalog st r hnd hsafe hr h.total_eq
  have hsf : ∀ sel, F64.safeInteger (selectedPriceSum catalog sel) := fun sel =>
    F64.safeInteger_of_abs_le _ _ (abs_selectedPriceSum_le _ _) hsafe
  have hcn : c ≠ F64.nan := (F64.ne_nan_of_le _ _ h.within).2
  unfold toggleRestaurant at htot ⊢
  by_cases hsel : r.id ∈ st.selected
  · rw [handleRestaurantToggle_present c st r.id _ hsel] at htot ⊢
    have hsum := selectedPriceSum_delete catalog st.selected r hnd hr hsel
    refine ⟨?_, ?_, htot, ?_⟩
    · intro x hx
      exact h.ids x ((mem_setDelete _ _ _).1 hx).1
    · exact h.nodup.filter _
    · rw [htot]
      have hw := h.within
      rw [h.total_eq] at hw
      have := hp r hr
      exact F64.le_ofInt_mono _ _ c (hsf _) (hsf _) (by simp only; omega) hw
  · rw [handleRestaurantToggle_absent c st r.id _ hsel] at htot ⊢
    cases hgt : F64.gt (F64.add st.total (F64.ofInt r.price)) c with
    | true =>
      simp only [if_true]
      exact h
    | false =>
      simp only [hgt, Bool.false_eq_true, if_false] at htot ⊢
      refine ⟨?_, ?_, htot, ?_⟩
      · intro x hx
        rcases List.mem_append.1 hx with h1 | h1
        · exact h.ids x h1
        · exact ⟨r, hr, (List.mem_singleton.1 h1).symm⟩
      · exact List.Nodup.append h.nodup (List.nodup_singleton _)
          (by
            intro a ha hb
            rw [List.mem_singleton] at hb
            exact hsel (hb ▸ ha))
      · simp only at htot ⊢
        apply F64.le_of_gt_eq_false _ _ _ hcn hgt
        rw [htot]
        exact F64.ofInt_ne_nan _

theorem BudgetInv.foldl (c : F64) (catalog : List CatalogItem)
    (hnd : (catalog.map CatalogItem.id).Nodup) (hp : ∀ q ∈ catalog, 0 ≤ q.price)
    (hsafe : priceMagnitude catalog ≤ 9007199254740991)
    (events : List CatalogItem) (hev : ∀ e ∈ events, e ∈ catalog) (st : SelectionState)
    (h : BudgetInv c catalog st) :
    BudgetInv c catalog (events.foldl (toggleRestaurant c) st) := by
  induction events generalizing st with
  | nil => exact h
  | cons e t ih =>
    simp only [List.foldl_cons]
    apply ih (fun x hx => hev x (List.mem_cons_of_mem _ hx))
    exact BudgetInv.toggle c catalog st e hnd hp hsafe (hev e (List.mem_cons_self _ _)) h

theorem BudgetInv.run (c : F64) (catalog : List CatalogItem)
    (hc : F64.le (F64.ofInt 0) c = true)
    (hnd : (catalog.map CatalogItem.id).Nodup) (hp : ∀ q ∈ catalog, 0 ≤ q.price)
    (hsafe : priceMagnitude catalog ≤ 9007199254740991)
    (events : List CatalogItem) (hev : ∀ e ∈ events, e ∈ catalog) :
    BudgetInv c catalog (runRestaurantToggles c events) :=
  BudgetInv.foldl c catalog hnd hp hsafe events hev _ (BudgetInv.initial c catalog hc)

/-- C2, as stated, fails: with ceiling `2^53` and the catalog A (`2^53`) and
B (1), the toggles A, B select both items on both pages, because the page
computes `2^53 + 1` as `2^53`; the selected prices add up to `2^53 + 1`, which
is above the ceiling. -/
theorem C2_counterexample :
    runRestaurantToggles (F64.ofInt 9007199254740992)
        [⟨"A", "a", 9007199254740992⟩, ⟨"B", "b", 1⟩]
      = { selected := ["A", "B"], total := F64.ofInt 9007199254740992 } ∧
    runTouristToggles (F64.ofInt 9007199254740992)
        [⟨"A", "a", 9007199254740992⟩, ⟨"B", "b", 1⟩]
      = { selected := ["A", "B"], total := F64.ofInt 9007199254740992 } ∧
    selectedPriceSum [⟨"A", "a", 9007199254740992⟩, ⟨"B", "b", 1⟩] ["A", "B"]
      = 9007199254740993 ∧
    ¬ (selectedPriceSum [⟨"A", "a", 9007199254740992⟩, ⟨"B", "b", 1⟩] ["A", "B"]
      ≤ 9007199254740992) ∧
    F64.le (F64.ofInt 0) (F64.ofInt 9007199254740992) = true := by
  decide!

/-- C2, amended. For every ceiling `c >= 0` (a number), every catalog with
pairwise distinct ids and non-negative integer prices that add up to a safe
integer (at most `2^53 - 1`), and every sequence of toggles of catalog items
from the empty selection with total 0: after each toggle (after the first `k`
toggles, for every `k`) the sum of the prices of the selected items is at most
`c`, on RestaurantPage and on TouristPage; the running total is that sum, which
is a safe integer; and when `c` is the safe integer `ci`, the sum is at most
`ci` as integers. -/
theorem C2_budget_invariant (c : F64) (catalog events : List CatalogItem) (k : Nat)
    (hc : F64.le (F64.ofInt 0) c = true) (hnd : (catalog.map CatalogItem.id).Nodup)
    (hp : ∀ q ∈ catalog, 0 ≤ q.price) (hsafe : priceMagnitude catalog ≤ 9007199254740991)
    (hev : ∀ e ∈ events, e ∈ catalog) :
    F64.le (F64.ofInt (selectedPriceSum catalog
      (runRestaurantToggles c (events.take k)).selected)) c = true ∧
    F64.le (F64.ofInt (selectedPriceSum catalog
      (runTouristToggles c (events.take k)).selected)) c = true ∧
    (runRestaurantToggles c (events.take k)).total
      = F64.ofInt (selectedPriceSum catalog (runRestaurantToggles c (events.take k)).selected) ∧
    F64.safeInteger (selectedPriceSum catalog
      (runRestaurantToggles c (events.take k)).selected) ∧
    (∀ ci : Int, F64.safeInteger ci → c = F64.ofInt ci →
      selectedPriceSum catalog (runRestaurantToggles c (events.take k)).selected ≤ ci) := by
  have h := BudgetInv.run c catalog hc hnd hp hsafe (events.take k)
    (fun e he => hev e (List.mem_of_mem_take he))
  rw [runTouristToggles_eq]
  have h1 := h.total_eq
  have h2 := h.within
  rw [h1] at h2
  have hsf : F64.safeInteger (selectedPriceSum catalog
      (runRestaurantToggles c (events.take k)).selected) :=
    F64.safeInteger_of_abs_le _ _ (abs_selectedPriceSum_le _ _) hsafe
  refine ⟨h2, h2, h1, hsf, ?_⟩
  intro ci hci hcc
  subst hcc
  rw [F64.le_ofInt _ _ hsf hci] at h2
  simpa using h2

/-- Witness for C2: ceiling 30000, catalog A (20000) and B (15000), toggles A, B, A, B. -/
theorem C2_budget_invariant_witness :
    F64.le (F64.ofInt (selectedPriceSum [⟨"A", "a", 20000⟩, ⟨"B", "b", 15000⟩]
        (runRestaurantToggles (F64.ofInt 30000)
          ([⟨"A", "a", 20000⟩, ⟨"B", "b", 15000⟩, ⟨"A", "a", 20000⟩,
            ⟨"B", "b", 15000⟩].take 4)).selected)) (F64.ofInt 30000) = true :=
  (C2_budget_invariant (F64.ofInt 30000) [⟨"A", "a", 20000⟩, ⟨"B", "b", 15000⟩]
    [⟨"A", "a", 20000⟩, ⟨"B", "b", 15000⟩, ⟨"A", "a", 20000⟩, ⟨"B", "b", 15000⟩] 4
    (by decide!) (by decide) (by decide) (by decide) (by decide)).1

/-- C6, as stated, fails: with ceiling `2^54` and the catalog A (`2^53`) and
B (1), after the toggle of A the total is `2^53`; the first toggle of B is
admitted with the total still `2^53` (the page computes `2^53 + 1` as `2^53`),
and the second subtracts 1: the set is back to A alone but the total is
`2^53 - 1`. -/
theorem C6_counterexample :
    (let c := F64.ofInt 18014398509481984
     let st := runRestaurantToggles c [⟨"A", "a", 9007199254740992⟩]
     let st1 := handleRestaurantToggle c st "B" (F64.ofInt 1)
     let st2 := handleRestaurantToggle c st1 "B" (F64.ofInt 1)
     st = { selected := ["A"], total := F64.ofInt 9007199254740992 } ∧
     st1 = { selected := ["A", "B"], total := F64.ofInt 9007199254740992 } ∧
     st2 = { selected := ["A"], total := F64.ofInt 9007199254740991 } ∧
     st2.total ≠ st.total) ∧
    (let c := F64.ofInt 18014398509481984
     let st := runTouristToggles c [⟨"A", "a", 9007199254740992⟩]
     let st2 := handleTouristToggle c (handleTouristToggle c st "B" (F64.ofInt 1)) "B"
       (F64.ofInt 1)
     st2.total ≠ st.total) := by
  decide!

/-- C6, amended. From every state reached by toggles of catalog items from the
empty selection (ceiling `c >= 0`, distinct ids, non-negative integer prices
that add up to a safe integer, at most `2^53 - 1`), toggling the same catalog
item `(id, price)` twice in succession gives a state with the same set of
selected ids and the same running total, on both pages. -/
theorem C6_double_toggle_restores (c : F64) (catalog events : List CatalogItem)
    (r : CatalogItem) (hc : F64.le (F64.ofInt 0) c = true)
    (hnd : (catalog.map CatalogItem.id).Nodup)
    (hp : ∀ q ∈ catalog, 0 ≤ q.price) (hsafe : priceMagnitude catalog ≤ 9007199254740991)
    (hev : ∀ e ∈ events, e ∈ catalog) (hr : r ∈ catalog) :
    (let st := runRestaurantToggles c events
     let st2 := handleRestaurantToggle c
       (handleRestaurantToggle c st r.id (F64.ofInt r.price)) r.id (F64.ofInt r.price)
     (∀ x, x ∈ st2.selected ↔ x ∈ st.selected) ∧ st2.total = st.total) ∧
    (let st := runTouristToggles c events
     let st2 := handleTouristToggle c
       (handleTouristToggle c st r.id (F64.ofInt r.price)) r.id (F64.ofInt r.price)
     (∀ x, x ∈ st2.selected ↔ x ∈ st.selected) ∧ st2.total = st.total) := by
  rw [runTouristToggles_eq, handleTouristToggle_eq]
  have key : (let st := runRestaurantToggles c events
     let st2 := handleRestaurantToggle c
       (handleRestaurantToggle c st r.id (F64.ofInt r.price)) r.id (F64.ofInt r.price)
     (∀ x, x ∈ st2.selected ↔ x ∈ st.selected) ∧ st2.total = st.total) := by
    have hinv := BudgetInv.run c catalog hc hnd hp hsafe events hev
    generalize runRestaurantToggles c events = st at hinv
    have hw := hinv.within
    have ht := hinv.total_eq
    have hsf : ∀ sel, F64.safeInteger (selectedPriceSum catalog sel) := fun sel =>
      F64.safeInteger_of_abs_le _ _ (abs_selectedPriceSum_le _ _) hsafe
    have hps : F64.safeInteger r.price :=
      F64.safeInteger_of_abs_le _ _ (abs_price_le _ _ hr) hsafe
    intro st0 st2
    show (∀ x, x ∈ (handleRestaurantToggle c (handleRestaurantToggle c st r.id
        (F64.ofInt r.price)) r.id (F64.ofInt r.price)).selected ↔ x ∈ st.selected) ∧
      (handleRestaurantToggle c (handleRestaurantToggle c st r.id (F64.ofInt r.price))
        r.id (F64.ofInt r.price)).total = st.total
    by_cases hsel : r.id ∈ st.selected
    · rw [handleRestaurantToggle_present c st r.id _ hsel]
      have hnot : r.id ∉ setDelete st.selected r.id := by
        simp [mem_setDelete]
      rw [handleRestaurantToggle_absent c _ r.id _ hnot]
      have hsum := selectedPriceSum_delete catalog st.selected r hnd hr hsel
      have hback : F64.add (F64.sub st.total (F64.ofInt r.price)) (F64.ofInt r.price)
          = st.total := by
        rw [ht, F64.sub_ofInt _ _ (hsf _) hps, hsum]
        have e1 : selectedPriceSum catalog (setDelete st.selected r.id) + r.price - r.price
            = selectedPriceSum catalog (setDelete st.selected r.id) := by omega
        rw [e1, F64.add_ofInt _ _ (hsf _) hps]
      simp only [hback, F64.gt_eq_false_of_le _ _ hw, Bool.false_eq_true, if_false]
      refine ⟨?_, trivial⟩
      intro x
      simp only [List.mem_append, mem_setDelete, List.mem_singleton]
      constructor
      · rintro (⟨h1, _⟩ | h1)
        · exact h1
        · exact h1 ▸ hsel
      · intro h1
        by_cases hx : x = r.id
        · exact Or.inr hx
        · exact Or.inl ⟨h1, hx⟩
    · rw [handleRestaurantToggle_absent c st r.id _ hsel]
      cases hgt : F64.gt (F64.add st.total (F64.ofInt r.price)) c with
      | true =>
        simp only [if_true]
        rw [handleRestaurantToggle_absent c st r.id _ hsel]
        simp [hgt]
      | false =>
        simp only [Bool.false_eq_true, if_false]
        have hin : r.id ∈ st.selected ++ [r.id] := by simp
        rw [handleRestaurantToggle_present c _ r.id _ hin]
        have hsum := selectedPriceSum_append catalog st.selected r hnd hr hsel
        refine ⟨?_, ?_⟩
        · intro x
          simp only [mem_setDelete, List.mem_append, List.mem_singleton]
          constructor
          · rintro ⟨h1 | h1, h2⟩
            · exact h1
            · exact absurd h1 h2
          · intro h1
            exact ⟨Or.inl h1, fun hx => hsel (hx ▸ h1)⟩
        · simp only
          rw [ht, F64.add_ofInt _ _ (hsf _) hps, ← hsum, F64.sub_ofInt _ _ (hsf _) hps, hsum]
          congr 1
          omega
  exact ⟨key, key⟩

/-- Witness for C6: ceiling 30000, catalog A (20000) and B (5000); after the
toggle of A, the item B is toggled twice: admitted with total 25000, then
removed. -/
theorem C6_double_toggle_restores_witness :
    (let st := runRestaurantToggles (F64.ofInt 30000) [⟨"A", "a", 20000⟩]
     let st2 := handleRestaurantToggle (F64.ofInt 30000)
       (handleRestaurantToggle (F64.ofInt 30000) st "B" (F64.ofInt 5000)) "B" (F64.ofInt 5000)
     (∀ x, x ∈ st2.selected ↔ x ∈ st.selected) ∧ st2.total = st.total) :=
  (C6_double_toggle_restores (F64.ofInt 30000) [⟨"A", "a", 20000⟩, ⟨"B", "b", 5000⟩]
    [⟨"A", "a", 20000⟩] ⟨"B", "b", 5000⟩
    (by decide!) (by decide) (by decide) (by decide) (by decide) (by decide)).1

/-- C7, as stated, fails: A is admitted with price 20000 (total 20000) and then
toggled off by a call carrying the price 5000; the total becomes 15000, not
20000 - 20000 = 0, so the decrease is the price of the removing call and not
the price of the admission. -/
theorem C7_counterexample :
    handleRestaurantToggle (F64.ofInt 30000) SelectionState.initial "A" (F64.ofInt 20000)
        = { selected := ["A"], total := F64.ofInt 20000 } ∧
    handleRestaurantToggle (F64.ofInt 30000) { selected := ["A"], total := F64.ofInt 20000 }
        "A" (F64.ofInt 5000) = { selected := [], total := F64.ofInt 15000 } ∧
    handleTouristToggle (F64.ofInt 30000) { selected := ["A"], total := F64.ofInt 20000 }
        "A" (F64.ofInt 5000) = { selected := [], total := F64.ofInt 15000 } ∧
    (handleRestaurantToggle (F64.ofInt 30000) { selected := ["A"], total := F64.ofInt 20000 }
        "A" (F64.ofInt 5000)).total ≠ F64.ofInt (20000 - 20000) := by
  decide!

/-- C7, amended. In every state in which `id` is selected, a toggle of `id`
removes it whatever the ceiling, and sets the running total to `total - q` as
the page computes it, `q` being the price argument of the removing call. When
the total `t`, `q`, a price `p` (such as the price passed at admission) and the
differences `t - q` and `t - p` are safe integers, the new total is the integer
`t - q`: the total is lowered by exactly `q`, and it is `t - p` exactly when
`q = p`. -/
theorem C7_removal_subtracts_call_price (c : F64) (st : SelectionState) (id : String)
    (q : F64) (h : id ∈ st.selected) :
    handleRestaurantToggle c st id q
        = { selected := setDelete st.selected id, total := F64.sub st.total q } ∧
    handleTouristToggle c st id q
        = { selected := setDelete st.selected id, total := F64.sub st.total q } ∧
    id ∉ (handleRestaurantToggle c st id q).selected ∧
    (∀ x, x ≠ id → (x ∈ (handleRestaurantToggle c st id q).selected ↔ x ∈ st.selected)) ∧
    (∀ t qi p : Int, F64.safeInteger t → F64.safeInteger qi → F64.safeInteger p →
      F64.safeInteger (t - qi) → F64.safeInteger (t - p) →
      st.total = F64.ofInt t → q = F64.ofInt qi →
      (handleRestaurantToggle c st id q).total = F64.ofInt (t - qi) ∧
      ((handleRestaurantToggle c st id q).total = F64.ofInt (t - p) ↔ qi = p)) := by
  rw [handleTouristToggle_eq, handleRestaurantToggle_present c st id q h]
  refine ⟨rfl, rfl, ?_, ?_, ?_⟩
  · simp [mem_setDelete]
  · intro x hx
    simp [mem_setDelete, hx]
  · intro t qi p ht hq _ hd1 hd2 htot hqq
    simp only
    rw [htot, hqq, F64.sub_ofInt _ _ ht hq]
    refine ⟨rfl, ?_⟩
    constructor
    · intro he
      have := F64.ofInt_injective _ _ hd1 hd2 he
      omega
    · intro he
      rw [he]

/-- Witness for C7 (amended): A selected with total 20000, removed by a call
carrying 5000. -/
theorem C7_removal_subtracts_call_price_witness :
    handleRestaurantToggle (F64.ofInt 30000) { selected := ["A"], total := F64.ofInt 20000 }
        "A" (F64.ofInt 5000)
      = { selected := setDelete ["A"] "A",
          total := F64.sub (F64.ofInt 20000) (F64.ofInt 5000) } :=
  (C7_removal_subtracts_call_price (F64.ofInt 30000)
    { selected := ["A"], total := F64.ofInt 20000 } "A" (F64.ofInt 5000) (by decide)).1

/-- C8, as stated, fails. With `t = c = 2^53` and an unselected item of price 1
the flag is true (the page computes `2^53 + 1` as `2^53`) although
`c - t >= 1` is false. With `t = 0.3`, `c = 2.3` and an unselected item of
price 2 the flag is true (`0.3 + 2` is computed as `2.3`) although `c - t`,
computed as `1.9999999999999998`, is not `>= 2`. -/
theorem C8_counterexample :
    canSelectRestaurant (F64.ofInt 9007199254740992)
        { selected := [], total := F64.ofInt 9007199254740992 } ⟨"B", "b", 1⟩ = true ∧
    canSelectTourist (F64.ofInt 9007199254740992)
        { selected := [], total := F64.ofInt 9007199254740992 } ⟨"B", "b", 1⟩ = true ∧
    ¬ ((9007199254740992 : Int) - 9007199254740992 ≥ 1) ∧
    F64.le (F64.ofInt 1)
        (F64.sub (F64.ofInt 9007199254740992) (F64.ofInt 9007199254740992)) = false ∧
    canSelectRestaurant (F64.ofRat false (23 * F64.scale) 10)
        { selected := [], total := F64.ofRat false (3 * F64.scale) 10 } ⟨"B", "b", 2⟩ = true ∧
    F64.le (F64.ofInt 2)
        (F64.sub (F64.ofRat false (23 * F64.scale) 10) (F64.ofRat false (3 * F64.scale) 10))
      = false := by
  decide!

/-- C8, amended. For every state `(S, t)`, ceiling `c` and catalog item
`(id, p)`, the `canSelect` flag of the card equals `(t + p <= c) OR (id in S)`
with the sum as the page computes it, on both pages; when `t`, `p`, `c`, `t + p`
and `c - t` are safe integers this is `(c - t >= p) OR (id in S)`, also with
`c - t` as the page computes it. The flag is a value computed from the state:
`canSelectRestaurant` and `canSelectTourist` return the flag alone, and `S` and
`t` are what they were. -/
theorem C8_canSelect_eq (c t : Int) (S : List String) (r : CatalogItem)
    (hc : F64.safeInteger c) (ht : F64.safeInteger t) (hp : F64.safeInteger r.price)
    (hs : F64.safeInteger (t + r.price)) (hd : F64.safeInteger (c - t)) :
    (canSelectRestaurant (F64.ofInt c) { selected := S, total := F64.ofInt t } r
      = (decide (c - t ≥ r.price) || setHas S r.id)) ∧
    (canSelectTourist (F64.ofInt c) { selected := S, total := F64.ofInt t } r
      = (decide (c - t ≥ r.price) || setHas S r.id)) ∧
    (canSelectRestaurant (F64.ofInt c) { selected := S, total := F64.ofInt t } r = true
      ↔ (c - t ≥ r.price ∨ r.id ∈ S)) ∧
    (canSelectTourist (F64.ofInt c) { selected := S, total := F64.ofInt t } r = true
      ↔ (c - t ≥ r.price ∨ r.id ∈ S)) ∧
    F64.le (F64.ofInt r.price) (F64.sub (F64.ofInt c) (F64.ofInt t))
      = decide (c - t ≥ r.price) ∧
    (∀ (cc : F64) (st : SelectionState),
      canSelectRestaurant cc st r
        = (F64.le (F64.add st.total (F64.ofInt r.price)) cc || setHas st.selected r.id) ∧
      canSelectTourist cc st r
        = (F64.le (F64.add st.total (F64.ofInt r.price)) cc || setHas st.selected r.id)) := by
  have h : F64.le (F64.add (F64.ofInt t) (F64.ofInt r.price)) (F64.ofInt c)
      = decide (c - t ≥ r.price) := by
    rw [F64.add_ofInt _ _ ht hp, F64.le_ofInt _ _ hs hc]
    apply decide_eq_decide.2
    constructor <;> intro h <;> omega
  have h2 : F64.le (F64.ofInt r.price) (F64.sub (F64.ofInt c) (F64.ofInt t))
      = decide (c - t ≥ r.price) := by
    rw [F64.sub_ofInt _ _ hc ht, F64.le_ofInt _ _ hp hd]
  rw [canSelectTourist_eq]
  refine ⟨?_, ?_, ?_, ?_, h2, fun cc st => ⟨rfl, rfl⟩⟩
  · simp only [canSelectRestaurant, h]
  · simp only [canSelectRestaurant, h]
  · simp only [canSelectRestaurant, h, Bool.or_eq_true, decide_eq_true_eq, setHas_iff]
  · simp only [canSelectRestaurant, h, Bool.or_eq_true, decide_eq_true_eq, setHas_iff]

/-- Witness for C8 (amended): ceiling 30000, total 20000, an unselected item of
price 15000 cannot be selected. -/
theorem C8_canSelect_eq_witness :
    canSelectRestaurant (F64.ofInt 30000) { selected := ["A"], total := F64.ofInt 20000 }
        ⟨"B", "b", 15000⟩ = (decide ((30000 : Int) - 20000 ≥ 15000) || setHas ["A"] "B") :=
  (C8_canSelect_eq 30000 20000 ["A"] ⟨"B", "b", 15000⟩
    (by decide) (by decide) (by decide) (by decide) (by decide)).1

theorem selectedTouristData_eq : selectedTouristData = selectedRestaurantData := by
  funext catalog sel
  induction sel with
  | nil => rfl
  | cons x rest ih => simp only [selectedTouristData, selectedRestaurantData, ih]

/-- The ids of a selection reached by toggles are ids of the catalog, without repetition. -/
theorem run_ids_nodup (c : F64) (catalog events : List CatalogItem)
    (hev : ∀ e ∈ events, e ∈ catalog) :
    (∀ x ∈ (runRestaurantToggles c events).selected, ∃ r ∈ catalog, r.id = x) ∧
    (runRestaurantToggles c events).selected.Nodup := by
  unfold runRestaurantToggles
  have hgen : ∀ (st : SelectionState),
      ((∀ x ∈ st.selected, ∃ r ∈ catalog, r.id = x) ∧ st.selected.Nodup) →
      ((∀ x ∈ (events.foldl (toggleRestaurant c) st).selected, ∃ r ∈ catalog, r.id = x) ∧
        (events.foldl (toggleRestaurant c) st).selected.Nodup) := by
    induction events with
    | nil => intro st h; exact h
    | cons e t ih =>
      intro st h
      simp only [List.foldl_cons]
      apply ih (fun x hx => hev x (List.mem_cons_of_mem _ hx))
      have he : e ∈ catalog := hev e (List.mem_cons_self _ _)
      unfold toggleRestaurant
      by_cases hsel : e.id ∈ st.selected
      · rw [handleRestaurantToggle_present c st e.id _ hsel]
        exact ⟨fun x hx => h.1 x ((mem_setDelete _ _ _).1 hx).1, h.2.filter _⟩
      · rw [handleRestaurantToggle_absent c st e.id _ hsel]
        by_cases hle : ¬ F64.gt (F64.add st.total (F64.ofInt e.price)) c = true
        · simp only [hle, if_false]
          refine ⟨?_, ?_⟩
          · intro x hx
            rcases List.mem_append.1 hx with h1 | h1
            · exact h.1 x h1
            · exact ⟨e, he, (List.mem_singleton.1 h1).symm⟩
          · exact List.Nodup.append h.2 (List.nodup_singleton _)
              (by
                intro a ha hb
                rw [List.mem_singleton] at hb
                exact hsel (hb ▸ ha))
        · rw [not_not] at hle
          simp only [hle, if_true]
          exact h
  exact hgen _ ⟨by simp [SelectionState.initial], by simp [SelectionState.initial]⟩

/-- The records of a selection whose ids all occur in the catalog. -/
theorem selectedRestaurantData_ok (catalog : List CatalogItem) (sel : List String)
    (h : ∀ x ∈ sel, ∃ r ∈ catalog, r.id = x) :
    ∃ records, selectedRestaurantData catalog sel = .ok records ∧
      records.map SelectionRecord.id = sel ∧
      ∀ rec ∈ records, ∃ r ∈ catalog, rec = ⟨r.id, r.name, r.price⟩ := by
  induction sel with
  | nil => exact ⟨[], rfl, rfl, by simp⟩
  | cons x rest ih =>
    obtain ⟨records, hrec, hids, hfrom⟩ := ih (fun y hy => h y (List.mem_cons_of_mem _ hy))
    obtain ⟨r0, hr0, hr0id⟩ := h x (List.mem_cons_self _ _)
    cases hf : catalog.find? (fun r => r.id == x) with
    | none =>
      have := List.find?_eq_none.1 hf r0 hr0
      simp [hr0id] at this
    | some r =>
      have hrid : r.id = x := by
        have := List.find?_some hf
        simpa using this
      have hrmem : r ∈ catalog := List.mem_of_find?_eq_some hf
      refine ⟨⟨r.id, r.name, r.price⟩ :: records, ?_, ?_, ?_⟩
      · simp only [selectedRestaurantData, hf, hrec]
      · simp [hids, hrid]
      · intro rec hrec2
        rcases List.mem_cons.1 hrec2 with h1 | h1
        · exact ⟨r, hrmem, h1⟩
        · exact hfrom rec h1

theorem runRestaurantToggles_snoc (c : F64) (events : List CatalogItem) (e : CatalogItem) :
    runRestaurantToggles c (events ++ [e])
      = toggleRestaurant c (runRestaurantToggles c events) e := by
  simp [runRestaurantToggles, List.foldl_append]

theorem selectedSince_snoc_old (c : F64) (events : List CatalogItem) (e : CatalogItem)
    (x : String) (k : Nat) (h : selectedSince (runRestaurantToggles c) events x k)
    (hx : x ∈ (runRestaurantToggles c (events ++ [e])).selected) :
    selectedSince (runRestaurantToggles c) (events ++ [e]) x k := by
  obtain ⟨hk, hnot, hall⟩ := h
  refine ⟨by simp; omega, ?_, ?_⟩
  · rw [List.take_append_of_le_length (by omega)]
    exact hnot
  · intro j hkj hj
    simp only [List.length_append, List.length_singleton] at hj
    by_cases hje : j ≤ events.length
    · rw [List.take_append_of_le_length hje]
      exact hall j hkj hje
    · have : j = (events ++ [e]).length := by simp; omega
      rw [this, List.take_length]
      exact hx

theorem selectedSince_snoc_new (c : F64) (events : List CatalogItem) (e : CatalogItem)
    (x : String) (hnot : x ∉ (runRestaurantToggles c events).selected)
    (hx : x ∈ (runRestaurantToggles c (events ++ [e])).selected) :
    selectedSince (runRestaurantToggles c) (events ++ [e]) x events.length := by
  refine ⟨by simp, ?_, ?_⟩
  · rw [List.take_append_of_le_length (le_refl _), List.take_length]
    exact hnot
  · intro j hkj hj
    simp only [List.length_append, List.length_singleton] at hj
    have : j = (events ++ [e]).length := by simp; omega
    rw [this, List.take_length]
    exact hx

/-- The selection after a sequence of toggles, paired with the toggle that
selected each id: the toggle numbers increase along the selection. -/
theorem selection_times (c : F64) (events : List CatalogItem) :
    ∃ L : List (String × Nat),
      L.map Prod.fst = (runRestaurantToggles c events).selected ∧
      (L.map Prod.snd).Pairwise (· < ·) ∧
      ∀ p ∈ L, selectedSince (runRestaurantToggles c) events p.1 p.2 := by
  induction events using List.reverseRecOn with
  | nil => exact ⟨[], by simp [runRestaurantToggles, SelectionState.initial], by simp, by simp⟩
  | append_singleton events e ih =>
    obtain ⟨L, hfst, hpw, hsince⟩ := ih
    have hrun := runRestaurantToggles_snoc c events e
    by_cases hsel : e.id ∈ (runRestaurantToggles c events).selected
    · have hnew : (runRestaurantToggles c (events ++ [e])).selected
          = setDelete (runRestaurantToggles c events).selected e.id := by
        rw [hrun]
        unfold toggleRestaurant
        rw [handleRestaurantToggle_present c _ e.id _ hsel]
      refine ⟨L.filter (fun p => p.1 != e.id), ?_, ?_, ?_⟩
      · rw [hnew, ← hfst, setDelete, List.filter_map]
        rfl
      · exact hpw.sublist ((List.filter_sublist L).map Prod.snd)
      · intro p hp
        obtain ⟨hpL, hpne⟩ := List.mem_filter.1 hp
        apply selectedSince_snoc_old c events e p.1 p.2 (hsince p hpL)
        rw [hnew, mem_setDelete]
        refine ⟨?_, by simpa using hpne⟩
        rw [← hfst]
        exact List.mem_map_of_mem Prod.fst hpL
    · by_cases hle : ¬ F64.gt (F64.add (runRestaurantToggles c events).total
          (F64.ofInt e.price)) c = true
      · have hnew : (runRestaurantToggles c (events ++ [e])).selected
            = (runRestaurantToggles c events).selected ++ [e.id] := by
          rw [hrun]
          unfold toggleRestaurant
          rw [handleRestaurantToggle_absent c _ e.id _ hsel]
          simp [hle]
        refine ⟨L ++ [(e.id, events.length)], ?_, ?_, ?_⟩
        · rw [hnew, ← hfst]
          simp
        · rw [List.map_append, List.pairwise_append]
          refine ⟨hpw, by simp, ?_⟩
          intro a ha b hb
          simp only [List.map_cons, List.map_nil, List.mem_singleton] at hb
          obtain ⟨p, hpL, hpa⟩ := List.mem_map.1 ha
          have := (hsince p hpL).1
          omega
        · intro p hp
          rcases List.mem_append.1 hp with h1 | h1
          · apply selectedSince_snoc_old c events e p.1 p.2 (hsince p h1)
            rw [hnew]
            apply List.mem_append_left
            rw [← hfst]
            exact List.mem_map_of_mem Prod.fst h1
          · rw [List.mem_singleton] at h1
            subst h1
            apply selectedSince_snoc_new c events e e.id hsel
            rw [hnew]
            simp
      · have hnew : (runRestaurantToggles c (events ++ [e])).selected
            = (runRestaurantToggles c events).selected := by
          rw [hrun]
          unfold toggleRestaurant
          rw [handleRestaurantToggle_absent c _ e.id _ hsel]
          simp only [not_not.1 hle, if_true]
        refine ⟨L, by rw [hnew]; exact hfst, hpw, ?_⟩
        intro p hp
        apply selectedSince_snoc_old c events e p.1 p.2 (hsince p hp)
        rw [hnew, ← hfst]
        exact List.mem_map_of_mem Prod.fst hp

/-- C9. For every selection built by toggles of catalog items over a catalog
with pairwise distinct ids, the list emitted on completion exists (no TypeError),
its ids are exactly the selected ids, each once, every record is `{id, name,
price}` of the catalog item with that id, and the records are in the order in
which their ids were selected: there are increasing toggle numbers, one per
record, such that the id of the record entered the selection at that toggle and
stayed selected. -/
theorem C9_snapshot_in_selection_order (c : F64) (catalog events : List CatalogItem)
    (hnd : (catalog.map CatalogItem.id).Nodup) (hev : ∀ e ∈ events, e ∈ catalog) :
    ∃ records : List SelectionRecord,
      selectedRestaurantData catalog (runRestaurantToggles c events).selected = .ok records ∧
      selectedTouristData catalog (runTouristToggles c events).selected = .ok records ∧
      records.map SelectionRecord.id = (runRestaurantToggles c events).selected ∧
      (records.map SelectionRecord.id).Nodup ∧
      (∀ rec ∈ records, ∃ r ∈ catalog, rec = ⟨r.id, r.name, r.price⟩ ∧
        ∀ q ∈ catalog, q.id = rec.id → q = r) ∧
      ∃ times : List Nat, times.Pairwise (· < ·) ∧
        List.Forall₂ (fun rec k => selectedSince (runRestaurantToggles c) events rec.id k)
          records times := by
  obtain ⟨hids, hnodup⟩ := run_ids_nodup c catalog events hev
  obtain ⟨records, hok, hrid, hfrom⟩ := selectedRestaurantData_ok catalog _ hids
  obtain ⟨L, hfst, hpw, hsince⟩ := selection_times c events
  refine ⟨records, hok, ?_, hrid, hrid ▸ hnodup, ?_, L.map Prod.snd, hpw, ?_⟩
  · rw [selectedTouristData_eq, runTouristToggles_eq]
    exact hok
  · intro rec hrec
    obtain ⟨r, hr, hrr⟩ := hfrom rec hrec
    refine ⟨r, hr, hrr, ?_⟩
    intro q hq hqid
    have : q.id = r.id := by rw [hqid, hrr]
    exact List.inj_on_of_nodup_map hnd hq hr this
  · have h1 : List.Forall₂ (fun x k => selectedSince (runRestaurantToggles c) events x k)
        (L.map Prod.fst) (L.map Prod.snd) := by
      rw [List.forall₂_map_left_iff, List.forall₂_map_right_iff, List.forall₂_same]
      exact hsince
    rw [hfst, ← hrid, List.forall₂_map_left_iff] at h1
    exact h1

/-- Witness for C9: ceiling 30000, catalog A (20000) and B (15000), toggles A, B, A, B. -/
theorem C9_snapshot_in_selection_order_witness :
    ∃ records : List SelectionRecord,
      selectedRestaurantData [⟨"A", "a", 20000⟩, ⟨"B", "b", 15000⟩]
        (runRestaurantToggles (F64.ofInt 30000) [⟨"A", "a", 20000⟩, ⟨"B", "b", 15000⟩,
          ⟨"A", "a", 20000⟩, ⟨"B", "b", 15000⟩]).selected = .ok records ∧
      records.map SelectionRecord.id = ["B"] := by
  obtain ⟨records, h1, _, h3, _⟩ := C9_snapshot_in_selection_order (F64.ofInt 30000)
    [⟨"A", "a", 20000⟩, ⟨"B", "b", 15000⟩]
    [⟨"A", "a", 20000⟩, ⟨"B", "b", 15000⟩, ⟨"A", "a", 20000⟩, ⟨"B", "b", 15000⟩]
    (by decide) (by decide)
  exact ⟨records, h1, h3.trans (by decide!)⟩

theorem completeTourist_navigate (search : String) (catalog : List CatalogItem)
    (st : SelectionState) (records : List SelectionRecord) (hne : st.selected ≠ [])
    (h : selectedTouristData catalog st.selected = .ok records) :
    completeTourist search catalog st
      = .ok { alert := none,
              navigate := some ("/report?" ++ (touristQueryParams search records st.total).toString),
              state := st } := by
  have hlen : ¬ st.selected.length = 0 := by
    intro h0
    exact hne (List.length_eq_zero.1 h0)
  simp only [completeTourist, hlen, if_false, h]

theorem completeRestaurant_navigate (search : String) (catalog : List CatalogItem)
    (st : SelectionState) (records : List SelectionRecord) (hne : st.selected ≠ [])
    (h : selectedRestaurantData catalog st.selected = .ok records) :
    completeRestaurant search catalog st
      = .ok { alert := none,
              navigate :=
                some ("/tourist?" ++ (restaurantQueryParams search records st.total).toString),
              state := st } := by
  have hlen : ¬ st.selected.length = 0 := by
    intro h0
    exact hne (List.length_eq_zero.1 h0)
  simp only [completeRestaurant, hlen, if_false, h]

/-- When a selected id is the id of no catalog item, `find` returns `undefined`
and reading `.id` from it raises a TypeError. -/
theorem selectedRestaurantData_missing (catalog : List CatalogItem) (sel : List String)
    (h : ∃ x ∈ sel, ∀ r ∈ catalog, r.id ≠ x) :
    selectedRestaurantData catalog sel = .error .typeError := by
  induction sel with
  | nil =>
    obtain ⟨x, hx, _⟩ := h
    cases hx
  | cons y rest ih =>
    cases hf : catalog.find? (fun r => r.id == y) with
    | none => simp only [selectedRestaurantData, hf]
    | some r =>
      have hrid : r.id = y := by
        have := List.find?_some hf
        simpa using this
      have hrmem : r ∈ catalog := List.mem_of_find?_eq_some hf
      obtain ⟨x, hx, hno⟩ := h
      have hxr : x ∈ rest := by
        rcases List.mem_cons.1 hx with h1 | h1
        · exact absurd hrid (h1 ▸ hno r hrmem)
        · exact h1
      simp only [selectedRestaurantData, hf, ih ⟨x, hxr, hno⟩]

/-- C10, evaluated at a failing input, with what holds in the other states.
With the selection `{A}` and a catalog without an item A (every fetch replaces
the catalog and keeps the selection) the complete button of either page raises
a TypeError: `find` returns `undefined` and `.id` is read from it, so nothing is
handed to navigation although the selection is not empty. The same holds in
every state in which some selected id is the id of no catalog item. In every
state with an empty selection the handler alerts, hands nothing to navigation
and leaves the selection and the total as they were. In every state with a
non-empty selection whose ids all occur in the catalog the handler does not
raise, leaves the state as it was, and navigates to the incoming query with the
records of the selected items, one per selected id in order, and the running
total set. -/
theorem C10_completion_throws_on_missing_item :
    completeRestaurant "?region=y" [] { selected := ["A"], total := F64.ofInt 20000 }
      = .error .typeError ∧
    completeTourist "?region=y" [] { selected := ["A"], total := F64.ofInt 20000 }
      = .error .typeError ∧
    completeRestaurant "?region=y" [⟨"B", "b", 5000⟩]
        { selected := ["B", "A"], total := F64.ofInt 25000 } = .error .typeError ∧
    (∀ (search : String) (catalog : List CatalogItem) (st : SelectionState),
      (∃ x ∈ st.selected, ∀ r ∈ catalog, r.id ≠ x) →
      completeRestaurant search catalog st = .error .typeError ∧
      completeTourist search catalog st = .error .typeError) ∧
    (∀ (search : String) (catalog : List CatalogItem) (st : SelectionState),
      st.selected = [] →
      completeRestaurant search catalog st
        = .ok { alert := some "최소 1개 이상의 식당을 선택해주세요.", navigate := none,
                state := st } ∧
      completeTourist search catalog st
        = .ok { alert := some "최소 1개 이상의 관광지를 선택해주세요.", navigate := none,
                state := st }) ∧
    (∀ (search : String) (catalog : List CatalogItem) (st : SelectionState),
      st.selected ≠ [] → (∀ x ∈ st.selected, ∃ r ∈ catalog, r.id = x) →
      ∃ records : List SelectionRecord,
        selectedRestaurantData catalog st.selected = .ok records ∧
        selectedTouristData catalog st.selected = .ok records ∧
        records.map SelectionRecord.id = st.selected ∧
        completeRestaurant search catalog st
          = .ok { alert := none,
                  navigate := some ("/tourist?" ++
                    (restaurantQueryParams search records st.total).toString),
                  state := st } ∧
        completeTourist search catalog st
          = .ok { alert := none,
                  navigate := some ("/report?" ++
                    (touristQueryParams search records st.total).toString),
                  state := st }) := by
  refine ⟨rfl, rfl, rfl, ?_, ?_, ?_⟩
  · intro search catalog st h
    have hne : ¬ st.selected.length = 0 := by
      obtain ⟨x, hx, _⟩ := h
      intro h0
      rw [List.length_eq_zero.1 h0] at hx
      cases hx
    have hm := selectedRestaurantData_missing catalog st.selected h
    refine ⟨?_, ?_⟩
    · simp only [completeRestaurant, hne, if_false, hm]
    · simp only [completeTourist, hne, if_false, selectedTouristData_eq, hm]
  · intro search catalog st hemp
    refine ⟨?_, ?_⟩
    · simp [completeRestaurant, hemp]
    · simp [completeTourist, hemp]
  · intro search catalog st hemp hsel
    obtain ⟨records, hok, hids, _⟩ := selectedRestaurantData_ok catalog st.selected hsel
    have hok2 : selectedTouristData catalog st.selected = .ok records := by
      rw [selectedTouristData_eq]
      exact hok
    exact ⟨records, hok, hok2, hids,
      completeRestaurant_navigate search catalog st records hemp hok,
      completeTourist_navigate search catalog st records hemp hok2⟩

/-- C4, evaluated at a failing input. The query `?hotelName=100%25` carries the
hotel name `100%`; `searchParams.get` returns `100%`, and the second decoding by
`decodeURIComponent`, which no `try` encloses, raises a URIError on both pages.
The same happens for the bare `?hotelName=%25`. -/
theorem C4_hotelName_decode_throws :
    (URLSearchParams.ofString "?hotelName=100%25").get "hotelName" = some "100%" ∧
    decodeURIComponent "100%".data = .error .uriError ∧
    decodeRestaurantPage "?hotelName=100%25" = .error .uriError ∧
    decodeTouristPage "?hotelName=100%25" = .error .uriError ∧
    decodeRestaurantPage "?hotelName=%25" = .error .uriError ∧
    decodeTouristPage "?hotelName=%25" = .error .uriError := by
  refine ⟨by rfl, by rfl, by rfl, by rfl, by rfl, by rfl⟩

theorem URLSearchParams.get_delete_ne (ps : URLSearchParams) (k k2 : String) (h : k2 ≠ k) :
    (ps.delete k).get k2 = ps.get k2 := by
  induction ps with
  | nil => rfl
  | cons t rest ih =>
    by_cases ht : t.1 = k
    · have h2 : ¬ t.1 = k2 := fun h3 => h (h3.symm.trans ht)
      have hd : URLSearchParams.delete (t :: rest) k = URLSearchParams.delete rest k := by
        simp [URLSearchParams.delete, List.filter_cons, ht]
      rw [hd, ih]
      simp [URLSearchParams.get, h2]
    · have hd : URLSearchParams.delete (t :: rest) k = t :: URLSearchParams.delete rest k := by
        simp [URLSearchParams.delete, List.filter_cons, ht]
      rw [hd]
      simp only [URLSearchParams.get, ih]

theorem URLSearchParams.get_delete_self (ps : URLSearchParams) (k : String) :
    (ps.delete k).get k = none := by
  induction ps with
  | nil => rfl
  | cons t rest ih =>
    by_cases ht : t.1 = k
    · have hd : URLSearchParams.delete (t :: rest) k = URLSearchParams.delete rest k := by
        simp [URLSearchParams.delete, List.filter_cons, ht]
      rw [hd, ih]
    · have hd : URLSearchParams.delete (t :: rest) k = t :: URLSearchParams.delete rest k := by
        simp [URLSearchParams.delete, List.filter_cons, ht]
      rw [hd]
      simp only [URLSearchParams.get, ht, if_false, ih]

theorem parseOrEmptyObject_default : parseOrEmptyObject (strOr none "{}") = .obj [] := by rfl

theorem parseOrEmptyArray_default : parseOrEmptyArray (strOr none "[]") = .arr [] := by rfl

/-- What `budget` and `breakdown` decode to when the key is present. -/
theorem parseOrEmptyObject_some (v : String) :
    parseOrEmptyObject (strOr (some v) "{}")
      = match JSON.parse v with
        | .ok x => if x.truthy then x else .obj []
        | .error _ => .obj [] := by
  by_cases hv : v = ""
  · subst hv
    rfl
  · simp only [strOr, hv, if_false, parseOrEmptyObject]

/-- What `selectedRestaurants` decodes to when the key is present. -/
theorem parseOrEmptyArray_some (v : String) :
    parseOrEmptyArray (strOr (some v) "[]")
      = match JSON.parse v with
        | .ok x => x
        | .error _ => .arr [] := by
  by_cases hv : v = ""
  · subst hv
    rfl
  · simp only [strOr, hv, if_false, parseOrEmptyArray]

theorem getProp_of_not_object (x : JSValue) (k : String) (h : x.isObject = false) :
    x.getProp k = none := by
  cases x <;> simp_all [JSValue.getProp, JSValue.isObject]

/-- A `budget` or `breakdown` value that is not a JSON object has no member. -/
theorem parseOrEmptyObject_getProp (v k : String)
    (h : (∃ e, JSON.parse v = .error e) ∨ ∃ x, JSON.parse v = .ok x ∧ x.isObject = false) :
    (parseOrEmptyObject (strOr (some v) "{}")).getProp k = none := by
  rw [parseOrEmptyObject_some]
  rcases h with ⟨e, h⟩ | ⟨x, h, hx⟩
  · rw [h]
    rfl
  · rw [h]
    simp only
    split_ifs
    · exact getProp_of_not_object x k hx
    · rfl

theorem decodeRestaurantParams_frame_budget (ps : URLSearchParams) (v : String)
    (hget : ps.get "budget" = some v)
    (h : (∃ e, JSON.parse v = .error e) ∨ ∃ x, JSON.parse v = .ok x ∧ x.isObject = false) :
    decodeRestaurantParams (ps.delete "budget")
      = (decodeRestaurantParams ps).map (fun q => { q with budget := .obj [] }) := by
  have hp := parseOrEmptyObject_getProp v "식비" h
  simp only [decodeRestaurantParams, totalAmountOf,
      URLSearchParams.get_delete_ne ps "budget" "region" (by decide),
      URLSearchParams.get_delete_ne ps "budget" "regionIds" (by decide),
      URLSearchParams.get_delete_ne ps "budget" "period" (by decide),
      URLSearchParams.get_delete_ne ps "budget" "totalAmount" (by decide),
      URLSearchParams.get_delete_ne ps "budget" "hotelId" (by decide),
      URLSearchParams.get_delete_ne ps "budget" "hotelName" (by decide),
      URLSearchParams.get_delete_ne ps "budget" "breakdown" (by decide),
      URLSearchParams.get_delete_self, hget, parseOrEmptyObject_default, hp]
  cases decodeURIComponent (strOr (ps.get "hotelName") "").data with
  | error e => rfl
  | ok hn => rfl

theorem decodeRestaurantParams_frame_breakdown (ps : URLSearchParams) (v : String)
    (hget : ps.get "breakdown" = some v)
    (h : (∃ e, JSON.parse v = .error e) ∨ ∃ x, JSON.parse v = .ok x ∧ x.isObject = false) :
    decodeRestaurantParams (ps.delete "breakdown")
      = (decodeRestaurantParams ps).map (fun q => { q with breakdown := .obj [] }) := by
  have hp := parseOrEmptyObject_getProp v "식비" h
  simp only [decodeRestaurantParams, totalAmountOf,
      URLSearchParams.get_delete_ne ps "breakdown" "region" (by decide),
      URLSearchParams.get_delete_ne ps "breakdown" "regionIds" (by decide),
      URLSearchParams.get_delete_ne ps "breakdown" "period" (by decide),
      URLSearchParams.get_delete_ne ps "breakdown" "totalAmount" (by decide),
      URLSearchParams.get_delete_ne ps "breakdown" "hotelId" (by decide),
      URLSearchParams.get_delete_ne ps "breakdown" "hotelName" (by decide),
      URLSearchParams.get_delete_ne ps "breakdown" "budget" (by decide),
      URLSearchParams.get_delete_self, hget, parseOrEmptyObject_default, hp]
  cases decodeURIComponent (strOr (ps.get "hotelName") "").data with
  | error e => rfl
  | ok hn => rfl

/-- RestaurantPage does not read `selectedRestaurants`. -/
theorem decodeRestaurantParams_frame_selected (ps : URLSearchParams) :
    decodeRestaurantParams (ps.delete "selectedRestaurants") = decodeRestaurantParams ps := by
  simp only [decodeRestaurantParams, totalAmountOf,
      URLSearchParams.get_delete_ne ps "selectedRestaurants" "region" (by decide),
      URLSearchParams.get_delete_ne ps "selectedRestaurants" "regionIds" (by decide),
      URLSearchParams.get_delete_ne ps "selectedRestaurants" "period" (by decide),
      URLSearchParams.get_delete_ne ps "selectedRestaurants" "totalAmount" (by decide),
      URLSearchParams.get_delete_ne ps "selectedRestaurants" "hotelId" (by decide),
      URLSearchParams.get_delete_ne ps "selectedRestaurants" "hotelName" (by decide),
      URLSearchParams.get_delete_ne ps "selectedRestaurants" "budget" (by decide),
      URLSearchParams.get_delete_ne ps "selectedRestaurants" "breakdown" (by decide)]

theorem decodeTouristParams_frame_budget (ps : URLSearchParams) (v : String)
    (hget : ps.get "budget" = some v)
    (h : (∃ e, JSON.parse v = .error e) ∨ ∃ x, JSON.parse v = .ok x ∧ x.isObject = false) :
    decodeTouristParams (ps.delete "budget")
      = (decodeTouristParams ps).map (fun q => { q with budget := .obj [] }) := by
  have hp := parseOrEmptyObject_getProp v "관광" h
  simp only [decodeTouristParams, totalAmountOf,
      URLSearchParams.get_delete_ne ps "budget" "region" (by decide),
      URLSearchParams.get_delete_ne ps "budget" "regionIds" (by decide),
      URLSearchParams.get_delete_ne ps "budget" "period" (by decide),
      URLSearchParams.get_delete_ne ps "budget" "totalAmount" (by decide),
      URLSearchParams.get_delete_ne ps "budget" "hotelId" (by decide),
      URLSearchParams.get_delete_ne ps "budget" "hotelName" (by decide),
      URLSearchParams.get_delete_ne ps "budget" "breakdown" (by decide),
      URLSearchParams.get_delete_ne ps "budget" "selectedRestaurants" (by decide),
      URLSearchParams.get_delete_self, hget, parseOrEmptyObject_default, hp]
  cases decodeURIComponent (strOr (ps.get "hotelName") "").data with
  | error e => rfl
  | ok hn => rfl

theorem decodeTouristParams_frame_breakdown (ps : URLSearchParams) (v : String)
    (hget : ps.get "breakdown" = some v)
    (h : (∃ e, JSON.parse v = .error e) ∨ ∃ x, JSON.parse v = .ok x ∧ x.isObject = false) :
    decodeTouristParams (ps.delete "breakdown")
      = (decodeTouristParams ps).map (fun q => { q with breakdown := .obj [] }) := by
  have hp := parseOrEmptyObject_getProp v "관광" h
  simp only [decodeTouristParams, totalAmountOf,
      URLSearchParams.get_delete_ne ps "breakdown" "region" (by decide),
      URLSearchParams.get_delete_ne ps "breakdown" "regionIds" (by decide),
      URLSearchParams.get_delete_ne ps "breakdown" "period" (by decide),
      URLSearchParams.get_delete_ne ps "breakdown" "totalAmount" (by decide),
      URLSearchParams.get_delete_ne ps "breakdown" "hotelId" (by decide),
      URLSearchParams.get_delete_ne ps "breakdown" "hotelName" (by decide),
      URLSearchParams.get_delete_ne ps "breakdown" "budget" (by decide),
      URLSearchParams.get_delete_ne ps "breakdown" "selectedRestaurants" (by decide),
      URLSearchParams.get_delete_self, hget, parseOrEmptyObject_default, hp]
  cases decodeURIComponent (strOr (ps.get "hotelName") "").data with
  | error e => rfl
  | ok hn => rfl

/-- No other constant of TouristPage is computed from `selectedRestaurants`. -/
theorem decodeTouristParams_frame_selected (ps : URLSearchParams) :
    decodeTouristParams (ps.delete "selectedRestaurants")
      = (decodeTouristParams ps).map (fun q => { q with selectedRestaurants := .arr [] }) := by
  simp only [decodeTouristParams, totalAmountOf,
      URLSearchParams.get_delete_ne ps "selectedRestaurants" "region" (by decide),
      URLSearchParams.get_delete_ne ps "selectedRestaurants" "regionIds" (by decide),
      URLSearchParams.get_delete_ne ps "selectedRestaurants" "period" (by decide),
      URLSearchParams.get_delete_ne ps "selectedRestaurants" "totalAmount" (by decide),
      URLSearchParams.get_delete_ne ps "selectedRestaurants" "hotelId" (by decide),
      URLSearchParams.get_delete_ne ps "selectedRestaurants" "hotelName" (by decide),
      URLSearchParams.get_delete_ne ps "selectedRestaurants" "budget" (by decide),
      URLSearchParams.get_delete_ne ps "selectedRestaurants" "breakdown" (by decide),
      URLSearchParams.get_delete_self, parseOrEmptyArray_default]
  cases decodeURIComponent (strOr (ps.get "hotelName") "").data with
  | error e => rfl
  | ok hn => rfl

theorem decodeRestaurantParams_fields (ps : URLSearchParams) (q : RestaurantPageQuery)
    (h : decodeRestaurantParams ps = .ok q) :
    q.budget = parseOrEmptyObject (strOr (ps.get "budget") "{}") ∧
    q.breakdown = parseOrEmptyObject (strOr (ps.get "breakdown") "{}") := by
  unfold decodeRestaurantParams at h
  split at h
  · cases h
  · simp only [Except.ok.injEq] at h
    subst h
    exact ⟨rfl, rfl⟩

theorem decodeTouristParams_fields (ps : URLSearchParams) (q : TouristPageQuery)
    (h : decodeTouristParams ps = .ok q) :
    q.budget = parseOrEmptyObject (strOr (ps.get "budget") "{}") ∧
    q.breakdown = parseOrEmptyObject (strOr (ps.get "breakdown") "{}") ∧
    q.selectedRestaurants
      = parseOrEmptyArray (strOr (ps.get "selectedRestaurants") "[]") := by
  unfold decodeTouristParams at h
  split at h
  · cases h
  · simp only [Except.ok.injEq] at h
    subst h
    exact ⟨rfl, rfl, rfl⟩

/-- C5, as stated, fails: `5` is valid JSON of another shape than an object or
an array, and with the query `?budget=5` the field `budget` decodes to the
number 5, not to the empty mapping; likewise `breakdown`, and
`selectedRestaurants` on TouristPage. -/
theorem C5_counterexample :
    JSON.parse "5" = .ok (.num (.dec 5 0)) ∧
    (decodeRestaurantPage "?budget=5").map (fun q => q.budget) = .ok (.num (.dec 5 0)) ∧
    (decodeTouristPage "?breakdown=5").map (fun q => q.breakdown) = .ok (.num (.dec 5 0)) ∧
    (decodeTouristPage "?selectedRestaurants=5").map (fun q => q.selectedRestaurants)
      = .ok (.num (.dec 5 0)) ∧
    JSValue.num (.dec 5 0) ≠ .obj [] ∧ JSValue.num (.dec 5 0) ≠ .arr [] := by
  refine ⟨by rfl, by rfl, by rfl, by rfl, ?_, ?_⟩ <;> intro h <;> cases h

/-- C5, amended. When the value `v` of `budget`, `breakdown` or
`selectedRestaurants` is present and is not its expected form (it is not
parseable as JSON, or it parses to a value that is not an object, for `budget`
and `breakdown`, or not an array, for `selectedRestaurants`), the decode of
either page without that key equals the decode with it, the field apart: every
other field is what it would be with the key absent, and the decode raises with
the key exactly when it raises without it. The field itself has its default
(the empty object, the empty array) when `v` is not parseable, and for `budget`
and `breakdown` also when `v` parses to a falsy value (`null`, `false`, `0`,
the empty string); it is the parsed value when that is truthy. -/
theorem C5_unexpected_form_frame (search key v : String)
    (hkey : key = "budget" ∨ key = "breakdown" ∨ key = "selectedRestaurants")
    (hget : (URLSearchParams.ofString search).get key = some v)
    (hform : (∃ e, JSON.parse v = .error e) ∨
      ∃ x, JSON.parse v = .ok x ∧
        (if key = "selectedRestaurants" then x.isArray else x.isObject) = false) :
    (key = "budget" →
      decodeRestaurantParams ((URLSearchParams.ofString search).delete key)
        = (decodeRestaurantPage search).map (fun q => { q with budget := .obj [] }) ∧
      decodeTouristParams ((URLSearchParams.ofString search).delete key)
        = (decodeTouristPage search).map (fun q => { q with budget := .obj [] })) ∧
    (key = "breakdown" →
      decodeRestaurantParams ((URLSearchParams.ofString search).delete key)
        = (decodeRestaurantPage search).map (fun q => { q with breakdown := .obj [] }) ∧
      decodeTouristParams ((URLSearchParams.ofString search).delete key)
        = (decodeTouristPage search).map (fun q => { q with breakdown := .obj [] })) ∧
    (key = "selectedRestaurants" →
      decodeRestaurantParams ((URLSearchParams.ofString search).delete key)
        = decodeRestaurantPage search ∧
      decodeTouristParams ((URLSearchParams.ofString search).delete key)
        = (decodeTouristPage search).map (fun q => { q with selectedRestaurants := .arr [] })) ∧
    (∀ q, decodeRestaurantPage search = .ok q →
      ((∃ e, JSON.parse v = .error e) →
        (key = "budget" → q.budget = .obj []) ∧ (key = "breakdown" → q.breakdown = .obj [])) ∧
      (∀ x, JSON.parse v = .ok x → x.truthy = false →
        (key = "budget" → q.budget = .obj []) ∧ (key = "breakdown" → q.breakdown = .obj [])) ∧
      (∀ x, JSON.parse v = .ok x → x.truthy = true →
        (key = "budget" → q.budget = x) ∧ (key = "breakdown" → q.breakdown = x))) ∧
    (∀ q, decodeTouristPage search = .ok q →
      ((∃ e, JSON.parse v = .error e) →
        (key = "budget" → q.budget = .obj []) ∧ (key = "breakdown" → q.breakdown = .obj []) ∧
        (key = "selectedRestaurants" → q.selectedRestaurants = .arr [])) ∧
      (∀ x, JSON.parse v = .ok x → x.truthy = false →
        (key = "budget" → q.budget = .obj []) ∧ (key = "breakdown" → q.breakdown = .obj [])) ∧
      (∀ x, JSON.parse v = .ok x → x.truthy = true →
        (key = "budget" → q.budget = x) ∧ (key = "breakdown" → q.breakdown = x) ∧
        (key = "selectedRestaurants" → q.selectedRestaurants = x))) := by
  have hobj : key ≠ "selectedRestaurants" →
      ((∃ e, JSON.parse v = .error e) ∨ ∃ x, JSON.parse v = .ok x ∧ x.isObject = false) := by
    intro hk
    rcases hform with h | ⟨x, h, hx⟩
    · exact Or.inl h
    · exact Or.inr ⟨x, h, by simpa [hk] using hx⟩
  have hfo : ∀ (w : JSValue),
      w = parseOrEmptyObject (strOr (some v) "{}") →
      ((∃ e, JSON.parse v = .error e) → w = .obj []) ∧
      (∀ x, JSON.parse v = .ok x → x.truthy = false → w = .obj []) ∧
      (∀ x, JSON.parse v = .ok x → x.truthy = true → w = x) := by
    intro w hw
    rw [parseOrEmptyObject_some] at hw
    refine ⟨?_, ?_, ?_⟩
    · rintro ⟨e, he⟩
      rw [hw, he]
    · intro x hx ht
      rw [hw, hx]
      simp [ht]
    · intro x hx ht
      rw [hw, hx]
      simp [ht]
  have hfa : ∀ (w : JSValue),
      w = parseOrEmptyArray (strOr (some v) "[]") →
      ((∃ e, JSON.parse v = .error e) → w = .arr []) ∧
      (∀ x, JSON.parse v = .ok x → w = x) := by
    intro w hw
    rw [parseOrEmptyArray_some] at hw
    refine ⟨?_, ?_⟩
    · rintro ⟨e, he⟩
      rw [hw, he]
    · intro x hx
      rw [hw, hx]
  refine ⟨?_, ?_, ?_, ?_, ?_⟩
  · intro hk
    subst hk
    exact ⟨decodeRestaurantParams_frame_budget _ v hget (hobj (by decide)),
      decodeTouristParams_frame_budget _ v hget (hobj (by decide))⟩
  · intro hk
    subst hk
    exact ⟨decodeRestaurantParams_frame_breakdown _ v hget (hobj (by decide)),
      decodeTouristParams_frame_breakdown _ v hget (hobj (by decide))⟩
  · intro hk
    subst hk
    exact ⟨decodeRestaurantParams_frame_selected _, decodeTouristParams_frame_selected _⟩
  · intro q hq
    obtain ⟨h1, h2⟩ := decodeRestaurantParams_fields _ q hq
    refine ⟨fun he => ⟨?_, ?_⟩, fun x hx ht => ⟨?_, ?_⟩, fun x hx ht => ⟨?_, ?_⟩⟩
    · intro hk
      subst hk
      rw [hget] at h1
      exact (hfo _ h1).1 he
    · intro hk
      subst hk
      rw [hget] at h2
      exact (hfo _ h2).1 he
    · intro hk
      subst hk
      rw [hget] at h1
      exact (hfo _ h1).2.1 x hx ht
    · intro hk
      subst hk
      rw [hget] at h2
      exact (hfo _ h2).2.1 x hx ht
    · intro hk
      subst hk
      rw [hget] at h1
      exact (hfo _ h1).2.2 x hx ht
    · intro hk
      subst hk
      rw [hget] at h2
      exact (hfo _ h2).2.2 x hx ht
  · intro q hq
    obtain ⟨h1, h2, h3⟩ := decodeTouristParams_fields _ q hq
    refine ⟨fun he => ⟨?_, ?_, ?_⟩, fun x hx ht => ⟨?_, ?_⟩, fun x hx ht => ⟨?_, ?_, ?_⟩⟩
    · intro hk
      subst hk
      rw [hget] at h1
      exact (hfo _ h1).1 he
    · intro hk
      subst hk
      rw [hget] at h2
      exact (hfo _ h2).1 he
    · intro hk
      subst hk
      rw [hget] at h3
      exact (hfa _ h3).1 he
    · intro hk
      subst hk
      rw [hget] at h1
      exact (hfo _ h1).2.1 x hx ht
    · intro hk
      subst hk
      rw [hget] at h2
      exact (hfo _ h2).2.1 x hx ht
    · intro hk
      subst hk
      rw [hget] at h1
      exact (hfo _ h1).2.2 x hx ht
    · intro hk
      subst hk
      rw [hget] at h2
      exact (hfo _ h2).2.2 x hx ht
    · intro hk
      subst hk
      rw [hget] at h3
      exact (hfa _ h3).2 x hx

/-- Witness for C5 (amended): the query `?region=x&budget=5`, whose `budget`
value parses to the number 5, which is not an object: the decode without the
key is the decode with it, the field `budget` apart. -/
theorem C5_unexpected_form_frame_witness :
    decodeRestaurantParams ((URLSearchParams.ofString "?region=x&budget=5").delete "budget")
      = (decodeRestaurantPage "?region=x&budget=5").map
          (fun q => { q with budget := .obj [] }) :=
  ((C5_unexpected_form_frame "?region=x&budget=5" "budget" "5"
    (Or.inl rfl) (by rfl) (Or.inr ⟨.num (.dec 5 0), by rfl, by rfl⟩)).1 rfl).1

theorem char_toNat_valid (c : Char) :
    c.toNat < 0xD800 ∨ (0xDFFF < c.toNat ∧ c.toNat < 0x110000) := by
  have h := c.valid
  simp only [UInt32.isValidChar, Nat.isValidChar] at h
  exact h

theorem char_toNat_ofNat_lt (n : Nat) (h : n < 0xD800) : (Char.ofNat n).toNat = n := by
  have hv : n.isValidChar := Or.inl h
  simp only [Char.ofNat, hv, dif_pos]
  rfl

namespace Utf8

theorem decodeFrom_pending_ok (p : Pending) (b : Nat) (bs : List Nat)
    (h1 : p.lower ≤ b) (h2 : b ≤ p.upper) :
    decodeFrom (some p) (b :: bs)
      = if p.needed ≤ 1 then Char.ofNat (p.cp * 0x40 + b % 0x40) :: decodeFrom none bs
        else decodeFrom (some ⟨p.cp * 0x40 + b % 0x40, p.needed - 1, 0x80, 0xBF⟩) bs := by
  simp only [decodeFrom, h1, h2, and_self, if_true]

theorem decodeFrom_lead_more (b cp needed lower upper : Nat) (bs : List Nat)
    (h : lead b = .more cp needed lower upper) :
    decodeFrom none (b :: bs) = decodeFrom (some ⟨cp, needed, lower, upper⟩) bs := by
  simp only [decodeFrom, h]

theorem decodeFrom_lead_emit (b : Nat) (c : Char) (bs : List Nat) (h : lead b = .emit c) :
    decodeFrom none (b :: bs) = c :: decodeFrom none bs := by
  simp only [decodeFrom, h]

/-- The decoder reads the encoding of a scalar value back as that value. -/
theorem decodeFrom_encodeChar (c : Char) (rest : List Nat) :
    decodeFrom none (encodeChar c ++ rest) = c :: decodeFrom none rest := by
  have hv := char_toNat_valid c
  have hc : Char.ofNat c.toNat = c := Char.ofNat_toNat c
  generalize hn : c.toNat = n at hv hc
  unfold encodeChar
  simp only [hn]
  by_cases h1 : n < 0x80
  · simp only [h1, if_true, List.singleton_append]
    apply decodeFrom_lead_emit
    have : n ≤ 0x7F := by omega
    simp only [lead, this, if_true, hc]
  · by_cases h2 : n < 0x800
    · simp only [h1, h2, if_true, if_false, List.cons_append, List.nil_append]
      have hl : lead (0xC0 + n / 0x40) = .more (n / 0x40) 1 0x80 0xBF := by
        have a1 : ¬ (0xC0 + n / 0x40 ≤ 0x7F) := by omega
        have a2 : 0xC2 ≤ 0xC0 + n / 0x40 ∧ 0xC0 + n / 0x40 ≤ 0xDF := by omega
        have a3 : (0xC0 + n / 0x40) % 0x20 = n / 0x40 := by omega
        simp only [lead, a1, a2, a3, if_true, if_false, and_self]
      rw [decodeFrom_lead_more _ _ _ _ _ _ hl,
        decodeFrom_pending_ok _ _ _ (by show 0x80 ≤ 0x80 + n % 0x40; omega)
          (by show 0x80 + n % 0x40 ≤ 0xBF; omega)]
      have a4 : n / 0x40 * 0x40 + (0x80 + n % 0x40) % 0x40 = n := by omega
      simp only [le_refl, if_true, a4, hc]
    · by_cases h3 : n < 0x10000
      · simp only [h1, h2, h3, if_true, if_false, List.cons_append, List.nil_append]
        have hl : lead (0xE0 + n / 0x1000)
            = .more (n / 0x1000) 2 (if 0xE0 + n / 0x1000 = 0xE0 then 0xA0 else 0x80)
                (if 0xE0 + n / 0x1000 = 0xED then 0x9F else 0xBF) := by
          have a1 : ¬ (0xE0 + n / 0x1000 ≤ 0x7F) := by omega
          have a2 : ¬ (0xC2 ≤ 0xE0 + n / 0x1000 ∧ 0xE0 + n / 0x1000 ≤ 0xDF) := by omega
          have a3 : 0xE0 ≤ 0xE0 + n / 0x1000 ∧ 0xE0 + n / 0x1000 ≤ 0xEF := by omega
          have a4 : (0xE0 + n / 0x1000) % 0x10 = n / 0x1000 := by omega
          simp only [lead, a1, a2, a3, a4, if_true, if_false, and_self]
        rw [decodeFrom_lead_more _ _ _ _ _ _ hl,
          decodeFrom_pending_ok _ _ _
            (by
              show (if 0xE0 + n / 0x1000 = 0xE0 then 0xA0 else 0x80) ≤ 0x80 + n / 0x40 % 0x40
              split_ifs <;> omega)
            (by
              show 0x80 + n / 0x40 % 0x40 ≤ (if 0xE0 + n / 0x1000 = 0xED then 0x9F else 0xBF)
              split_ifs <;> omega)]
        have b1 : ¬ (2 ≤ 1) := by omega
        simp only [b1, if_false]
        rw [decodeFrom_pending_ok _ _ _ (by show 0x80 ≤ 0x80 + n % 0x40; omega)
          (by show 0x80 + n % 0x40 ≤ 0xBF; omega)]
        have a5 : (n / 0x1000 * 0x40 + (0x80 + n / 0x40 % 0x40) % 0x40) * 0x40
            + (0x80 + n % 0x40) % 0x40 = n := by omega
        have b2 : 2 - 1 ≤ 1 := by omega
        simp only [b2, if_true, a5, hc]
      · simp only [h1, h2, h3, if_false, List.cons_append, List.nil_append]
        have hl : lead (0xF0 + n / 0x40000)
            = .more (n / 0x40000) 3 (if 0xF0 + n / 0x40000 = 0xF0 then 0x90 else 0x80)
                (if 0xF0 + n / 0x40000 = 0xF4 then 0x8F else 0xBF) := by
          have a1 : ¬ (0xF0 + n / 0x40000 ≤ 0x7F) := by omega
          have a2 : ¬ (0xC2 ≤ 0xF0 + n / 0x40000 ∧ 0xF0 + n / 0x40000 ≤ 0xDF) := by omega
          have a3 : ¬ (0xE0 ≤ 0xF0 + n / 0x40000 ∧ 0xF0 + n / 0x40000 ≤ 0xEF) := by omega
          have a4 : 0xF0 ≤ 0xF0 + n / 0x40000 ∧ 0xF0 + n / 0x40000 ≤ 0xF4 := by omega
          have a5 : (0xF0 + n / 0x40000) % 0x08 = n / 0x40000 := by omega
          simp only [lead, a1, a2, a3, a4, a5, if_true, if_false, and_self]
        rw [decodeFrom_lead_more _ _ _ _ _ _ hl,
          decodeFrom_pending_ok _ _ _
            (by
              show (if 0xF0 + n / 0x40000 = 0xF0 then 0x90 else 0x80)
                ≤ 0x80 + n / 0x1000 % 0x40
              split_ifs <;> omega)
            (by
              show 0x80 + n / 0x1000 % 0x40
                ≤ (if 0xF0 + n / 0x40000 = 0xF4 then 0x8F else 0xBF)
              split_ifs <;> omega)]
        have b1 : ¬ (3 ≤ 1) := by omega
        simp only [b1, if_false]
        rw [decodeFrom_pending_ok _ _ _ (by show 0x80 ≤ 0x80 + n / 0x40 % 0x40; omega)
          (by show 0x80 + n / 0x40 % 0x40 ≤ 0xBF; omega)]
        have b2 : ¬ (3 - 1 ≤ 1) := by omega
        simp only [b2, if_false]
        rw [decodeFrom_pending_ok _ _ _ (by show 0x80 ≤ 0x80 + n % 0x40; omega)
          (by show 0x80 + n % 0x40 ≤ 0xBF; omega)]
        have a6 : ((n / 0x40000 * 0x40 + (0x80 + n / 0x1000 % 0x40) % 0x40) * 0x40
            + (0x80 + n / 0x40 % 0x40) % 0x40) * 0x40 + (0x80 + n % 0x40) % 0x40 = n := by
          omega
        have b3 : 3 - 1 - 1 ≤ 1 := by omega
        simp only [b3, if_true, a6, hc]

/-- Decoding an encoded string gives the string back. -/
theorem decode_encode (s : List Char) : decode (encode s) = s := by
  unfold decode
  induction s with
  | nil => rfl
  | cons c cs ih => rw [encode, decodeFrom_encodeChar, ih]

theorem encodeChar_lt (c : Char) : ∀ b ∈ encodeChar c, b < 256 := by
  have hv := char_toNat_valid c
  intro b hb
  unfold encodeChar at hb
  simp only at hb
  split_ifs at hb <;> simp only [List.mem_cons, List.mem_singleton, List.not_mem_nil,
    or_false] at hb <;> omega

theorem encode_lt (s : List Char) : ∀ b ∈ encode s, b < 256 := by
  induction s with
  | nil => intro b hb; cases hb
  | cons c cs ih =>
    intro b hb
    rw [encode, List.mem_append] at hb
    rcases hb with h | h
    · exact encodeChar_lt c b h
    · exact ih b h

/-- The encoding of ASCII text is the text. -/
theorem encode_ascii (bs : List Nat) (h : ∀ b ∈ bs, b < 0x80) :
    encode (bs.map Char.ofNat) = bs := by
  induction bs with
  | nil => rfl
  | cons b rest ih =>
    have hb : b < 0x80 := h b (List.mem_cons_self _ _)
    have ht : (Char.ofNat b).toNat = b := char_toNat_ofNat_lt b (by omega)
    simp only [List.map_cons, encode, encodeChar, ht, hb, if_true, List.singleton_append]
    rw [ih (fun x hx => h x (List.mem_cons_of_mem _ hx))]

end Utf8

theorem hexDigitUpper_toNat (d : Nat) (h : d < 16) :
    (hexDigitUpper d).toNat = if d < 10 then 48 + d else 55 + d := by
  unfold hexDigitUpper
  split_ifs
  · exact char_toNat_ofNat_lt _ (by omega)
  · exact char_toNat_ofNat_lt _ (by omega)

theorem hexVal_hexDigitUpper (d : Nat) (h : d < 16) : hexVal (hexDigitUpper d) = some d := by
  have ht := hexDigitUpper_toNat d h
  unfold hexVal
  simp only [ht]
  by_cases h10 : d < 10
  · have a1 : 48 ≤ 48 + d ∧ 48 + d ≤ 57 := by omega
    simp only [h10, if_true, a1, and_self]
    congr 1
    omega
  · have a1 : ¬ (48 ≤ 55 + d ∧ 55 + d ≤ 57) := by omega
    have a2 : 65 ≤ 55 + d ∧ 55 + d ≤ 70 := by omega
    simp only [h10, if_false, a1, a2, and_self, if_true]
    congr 1
    omega

theorem hexOctet_upper (b : Nat) (h : b < 256) :
    hexOctet (hexDigitUpper (b / 16)) (hexDigitUpper (b % 16)) = some b := by
  unfold hexOctet
  rw [hexVal_hexDigitUpper _ (by omega), hexVal_hexDigitUpper _ (by omega)]
  simp only
  congr 1
  omega

theorem percentDecode_cons_ne (b : Nat) (rest : List Nat) (h : b ≠ 0x25) :
    percentDecode (b :: rest) = b :: percentDecode rest := by
  match rest with
  | [] => simp [percentDecode]
  | [x] => simp [percentDecode]
  | x :: y :: r => simp [percentDecode, h]

theorem percentDecode_escape (hi lo v : Nat) (rest : List Nat)
    (h : hexOctet (Char.ofNat hi) (Char.ofNat lo) = some v) :
    percentDecode (0x25 :: hi :: lo :: rest) = v :: percentDecode rest := by
  simp [percentDecode, h]

theorem formSafeByte_range (b : Nat) (h : formSafeByte b = true) :
    (0x30 ≤ b ∧ b ≤ 0x39) ∨ (0x41 ≤ b ∧ b ≤ 0x5A) ∨ (0x61 ≤ b ∧ b ≤ 0x7A) ∨
      b = 0x2A ∨ b = 0x2D ∨ b = 0x2E ∨ b = 0x5F := by
  simp only [formSafeByte, Bool.or_eq_true, Bool.and_eq_true, decide_eq_true_eq,
    beq_iff_eq] at h
  omega

theorem formEncodeByte_chars (b : Nat) (hb : b < 256) : ∀ x ∈ formEncodeByte b, formChar x := by
  intro x hx
  unfold formEncodeByte at hx
  have h1 := hexDigitUpper_toNat (b / 16) (by omega)
  have h2 := hexDigitUpper_toNat (b % 16) (by omega)
  unfold formChar
  split_ifs at hx with ha hs
  · simp only [List.mem_singleton] at hx
    omega
  · simp only [List.mem_singleton] at hx
    have := formSafeByte_range b hs
    omega
  · simp only [List.mem_cons, List.mem_singleton, List.not_mem_nil, or_false] at hx
    rcases hx with h | h | h
    · omega
    · rw [h, h1]; split_ifs <;> omega
    · rw [h, h2]; split_ifs <;> omega

theorem formEncodeBytes_chars (bs : List Nat) (hbs : ∀ b ∈ bs, b < 256) :
    ∀ x ∈ formEncodeBytes bs, formChar x := by
  induction bs with
  | nil => intro x hx; cases hx
  | cons b rest ih =>
    intro x hx
    rw [formEncodeBytes, List.mem_append] at hx
    rcases hx with h | h
    · exact formEncodeByte_chars b (hbs b (List.mem_cons_self _ _)) x h
    · exact ih (fun y hy => hbs y (List.mem_cons_of_mem _ hy)) x h

theorem formEncodeComponent_chars (s : String) : ∀ x ∈ formEncodeComponent s, formChar x :=
  formEncodeBytes_chars _ (Utf8.encode_lt s.data)

/-- Plus to space and percent-decode undo the percent-encoding of a component. -/
theorem percentDecode_formEncodeBytes (bs : List Nat) (hbs : ∀ b ∈ bs, b < 256) :
    percentDecode ((formEncodeBytes bs).map (fun b => if b = 0x2B then 0x20 else b)) = bs := by
  induction bs with
  | nil => rfl
  | cons b rest ih =>
    have hb : b < 256 := hbs b (List.mem_cons_self _ _)
    have ih2 := ih (fun y hy => hbs y (List.mem_cons_of_mem _ hy))
    rw [formEncodeBytes, List.map_append]
    unfold formEncodeByte
    split_ifs with ha hs
    · simp only [List.map_cons, List.map_nil, if_true, List.singleton_append]
      rw [percentDecode_cons_ne _ _ (by omega), ih2, ha]
    · have hr := formSafeByte_range b hs
      have hne : ¬ b = 0x2B := by omega
      simp only [List.map_cons, List.map_nil, hne, if_false, List.singleton_append]
      rw [percentDecode_cons_ne _ _ (by omega), ih2]
    · have h1 := hexDigitUpper_toNat (b / 16) (by omega)
      have h2 := hexDigitUpper_toNat (b % 16) (by omega)
      have n0 : ¬ (0x25 = 0x2B) := by omega
      have n1 : ¬ ((hexDigitUpper (b / 16)).toNat = 0x2B) := by
        rw [h1]; split_ifs <;> omega
      have n2 : ¬ ((hexDigitUpper (b % 16)).toNat = 0x2B) := by
        rw [h2]; split_ifs <;> omega
      simp only [List.map_cons, List.map_nil, n0, n1, n2, if_false, List.cons_append,
        List.nil_append]
      rw [percentDecode_escape _ _ b _ (by
        rw [Char.ofNat_toNat, Char.ofNat_toNat]
        exact hexOctet_upper b hb), ih2]

/-- Parsing a serialized component gives the component back. -/
theorem formDecodeComponent_encode (s : String) :
    formDecodeComponent (formEncodeComponent s) = s := by
  unfold formDecodeComponent formEncodeComponent
  rw [percentDecode_formEncodeBytes _ (Utf8.encode_lt s.data), Utf8.decode_encode]

theorem takeWhile_append_stop {α : Type} (p : α → Bool) (l r : List α) (a : α)
    (hl : ∀ x ∈ l, p x = true) (ha : p a = false) :
    (l ++ a :: r).takeWhile p = l ∧ (l ++ a :: r).dropWhile p = a :: r := by
  induction l with
  | nil => simp [List.takeWhile, List.dropWhile, ha]
  | cons x xs ih =>
    have hx : p x = true := hl x (List.mem_cons_self _ _)
    have ih2 := ih (fun y hy => hl y (List.mem_cons_of_mem _ hy))
    simp only [List.cons_append, List.takeWhile_cons, List.dropWhile_cons, hx, if_true, ih2.1,
      ih2.2, and_self]

/-- The parser reads one serialized tuple back. -/
theorem formParseSequence_serialize (t : String × String) :
    formParseSequence (formSerializeTuple t) = some t := by
  unfold formParseSequence formSerializeTuple
  have hne : (formEncodeComponent t.1 ++ 0x3D :: formEncodeComponent t.2).isEmpty = false := by
    cases formEncodeComponent t.1 <;> rfl
  have hsplit := takeWhile_append_stop (fun b : Nat => b != 0x3D) (formEncodeComponent t.1)
    (formEncodeComponent t.2) 0x3D
    (by
      intro x hx
      have := (formEncodeComponent_chars t.1 x hx).2.2.1
      simpa using this)
    (by simp)
  simp only [hne, Bool.false_eq_true, if_false, hsplit.1, hsplit.2, List.drop_one, List.tail_cons,
    formDecodeComponent_encode]

theorem formSerializeBytes_nil : formSerializeBytes [] = [] := by
  simp [formSerializeBytes, List.intercalate]

theorem formSerializeBytes_single (t : String × String) :
    formSerializeBytes [t] = formSerializeTuple t := by
  simp [formSerializeBytes, List.intercalate]

theorem formSerializeBytes_cons_cons (t u : String × String) (r : List (String × String)) :
    formSerializeBytes (t :: u :: r)
      = formSerializeTuple t ++ 0x26 :: formSerializeBytes (u :: r) := by
  simp [formSerializeBytes, List.intercalate]

theorem formSerializeTuple_chars (t : String × String) :
    ∀ b ∈ formSerializeTuple t, b < 0x80 ∧ b ≠ 0x26 ∧ b ≠ 0x3F := by
  intro b h
  unfold formSerializeTuple at h
  rcases List.mem_append.1 h with h1 | h1
  · have := formEncodeComponent_chars t.1 _ h1
    exact ⟨this.1, this.2.1, this.2.2.2⟩
  · rcases List.mem_cons.1 h1 with h2 | h2
    · omega
    · have := formEncodeComponent_chars t.2 _ h2
      exact ⟨this.1, this.2.1, this.2.2.2⟩

/-- The parser reads what the serializer wrote. -/
theorem formParseBytes_serialize (ps : List (String × String)) :
    formParseBytes (formSerializeBytes ps) = ps := by
  by_cases hps : ps = []
  · subst hps
    rw [formSerializeBytes_nil]
    rfl
  · unfold formParseBytes formSerializeBytes
    rw [List.splitOn_intercalate]
    · rw [List.filterMap_map]
      have : ∀ qs : List (String × String),
          List.filterMap (formParseSequence ∘ formSerializeTuple) qs = qs := by
        intro qs
        induction qs with
        | nil => rfl
        | cons t rest ih =>
          rw [List.filterMap_cons]
          simp only [Function.comp_apply, formParseSequence_serialize, ih]
      exact this ps
    · intro l hl
      obtain ⟨t, _, rfl⟩ := List.mem_map.1 hl
      intro h
      exact (formSerializeTuple_chars t _ h).2.1 rfl
    · intro h
      exact hps (List.map_eq_nil_iff.1 h)

theorem formSerializeBytes_ascii (ps : List (String × String)) :
    ∀ b ∈ formSerializeBytes ps, b < 0x80 ∧ b ≠ 0x3F := by
  induction ps with
  | nil => intro b hb; rw [formSerializeBytes_nil] at hb; cases hb
  | cons t rest ih =>
    intro b hb
    cases rest with
    | nil =>
      rw [formSerializeBytes_single] at hb
      have := formSerializeTuple_chars t b hb
      exact ⟨this.1, this.2.2⟩
    | cons u r =>
      rw [formSerializeBytes_cons_cons, List.mem_append] at hb
      rcases hb with h | h
      · have := formSerializeTuple_chars t b h
        exact ⟨this.1, this.2.2⟩
      · rcases List.mem_cons.1 h with h2 | h2
        · omega
        · exact ih b h2

namespace URLSearchParams

theorem ofString_question (cs : List Char) :
    ofString ⟨'?' :: cs⟩ = formParseBytes (Utf8.encode cs) := by
  simp [ofString]

theorem ofString_plain (cs : List Char) (h : ∀ c ∈ cs.head?, c ≠ '?') :
    ofString ⟨cs⟩ = formParseBytes (Utf8.encode cs) := by
  unfold ofString
  split
  · rename_i rest heq
    simp only at heq
    subst heq
    exact absurd rfl (h '?' (by simp))
  · rename_i heq
    rfl

/-- Parsing the serialization of a list of tuples gives the list back, with or
without a `?` in front. -/
theorem ofString_toString (ps : URLSearchParams) :
    ofString (toString ps) = ps ∧ ofString ("?" ++ toString ps) = ps := by
  have hasc := formSerializeBytes_ascii ps
  have henc : Utf8.encode ((formSerializeBytes ps).map Char.ofNat) = formSerializeBytes ps :=
    Utf8.encode_ascii _ (fun b hb => (hasc b hb).1)
  constructor
  · unfold toString
    rw [ofString_plain, henc, formParseBytes_serialize]
    intro c hc
    cases hbs : formSerializeBytes ps with
    | nil => rw [hbs] at hc; simp at hc
    | cons b rest =>
      rw [hbs] at hc
      simp only [List.map_cons, List.head?_cons, Option.mem_def, Option.some.injEq] at hc
      have hb := hasc b (by rw [hbs]; exact List.mem_cons_self _ _)
      intro hq
      have : (Char.ofNat b).toNat = b := char_toNat_ofNat_lt b (by omega)
      rw [hc, hq] at this
      have h63 : ('?' : Char).toNat = 0x3F := by rfl
      omega
  · have : ("?" ++ toString ps) = ⟨'?' :: (formSerializeBytes ps).map Char.ofNat⟩ := by
      rfl
    rw [this, ofString_question, henc, formParseBytes_serialize]

theorem get_append_ne (ps : URLSearchParams) (k k2 v : String) (h : k2 ≠ k) :
    get (ps ++ [(k, v)]) k2 = get ps k2 := by
  induction ps with
  | nil => simp [get, Ne.symm h]
  | cons t rest ih =>
    show get (t :: (rest ++ [(k, v)])) k2 = get (t :: rest) k2
    simp only [get, ih]

theorem get_append_self (ps : URLSearchParams) (k v : String)
    (h : ps.any (fun t => t.1 == k) = false) :
    get (ps ++ [(k, v)]) k = some v := by
  induction ps with
  | nil => simp [get]
  | cons t rest ih =>
    simp only [List.any_cons, Bool.or_eq_false_iff, beq_eq_false_iff_ne, ne_eq] at h
    show get (t :: (rest ++ [(k, v)])) k = some v
    simp only [get, h.1, if_false, ih h.2]

theorem get_replaceFirst_self (ps : URLSearchParams) (k v : String)
    (h : ps.any (fun t => t.1 == k) = true) :
    get (replaceFirst k v ps) k = some v := by
  induction ps with
  | nil => simp at h
  | cons t rest ih =>
    by_cases ht : t.1 = k
    · simp [replaceFirst, ht, get]
    · simp only [List.any_cons, Bool.or_eq_true, beq_iff_eq, ht, false_or] at h
      simp only [replaceFirst, ht, if_false, get, ih h]

theorem get_replaceFirst_ne (ps : URLSearchParams) (k k2 v : String) (h : k2 ≠ k) :
    get (replaceFirst k v ps) k2 = get ps k2 := by
  induction ps with
  | nil => rfl
  | cons t rest ih =>
    by_cases ht : t.1 = k
    · have h2 : ¬ t.1 = k2 := fun h3 => h (h3.symm.trans ht)
      simp only [replaceFirst, ht, if_true, get, Ne.symm h, if_false]
      have := get_delete_ne rest k k2 h
      unfold URLSearchParams.delete at this
      rw [this]
    · simp only [replaceFirst, ht, if_false, get, ih]

/-- `get` after `set` of the same name returns the value set. -/
theorem get_set_self (ps : URLSearchParams) (k v : String) : (ps.set k v).get k = some v := by
  unfold set
  cases h : ps.any (fun t => t.1 == k)
  · simp only [Bool.false_eq_true, if_false]
    exact get_append_self ps k v h
  · simp only [if_true]
    exact get_replaceFirst_self ps k v h

/-- `set` does not change what `get` returns for another name. -/
theorem get_set_ne (ps : URLSearchParams) (k k2 v : String) (h : k2 ≠ k) :
    (ps.set k v).get k2 = ps.get k2 := by
  unfold set
  cases ps.any (fun t => t.1 == k)
  · simp only [Bool.false_eq_true, if_false]
    exact get_append_ne ps k k2 v h
  · simp only [if_true]
    exact get_replaceFirst_ne ps k k2 v h

end URLSearchParams

theorem hexDigitLower_toNat (d : Nat) (h : d < 16) :
    (hexDigitLower d).toNat = if d < 10 then 48 + d else 87 + d := by
  unfold hexDigitLower
  split_ifs
  · exact char_toNat_ofNat_lt _ (by omega)
  · exact char_toNat_ofNat_lt _ (by omega)

theorem hexVal_hexDigitLower (d : Nat) (h : d < 16) : hexVal (hexDigitLower d) = some d := by
  have ht := hexDigitLower_toNat d h
  unfold hexVal
  simp only [ht]
  by_cases h10 : d < 10
  · have a1 : 48 ≤ 48 + d ∧ 48 + d ≤ 57 := by omega
    simp only [h10, if_true, a1, and_self]
    congr 1
    omega
  · have a1 : ¬ (48 ≤ 87 + d ∧ 87 + d ≤ 57) := by omega
    have a2 : ¬ (65 ≤ 87 + d ∧ 87 + d ≤ 70) := by omega
    have a3 : 97 ≤ 87 + d ∧ 87 + d ≤ 102 := by omega
    simp only [h10, if_false, a1, a2, a3, and_self, if_true]
    congr 1
    omega

namespace JSON

theorem parseStringBody_close (rest : List Char) :
    parseStringBody ('"' :: rest) = some ([], rest) := by
  rw [parseStringBody.eq_def]
  simp only [if_true]

theorem parseStringBody_simple (e : Char) (u : Nat) (tail after : List Char) (out : List Nat)
    (he : simpleEscape e = some u) (hu : e ≠ 'u')
    (ht : parseStringBody tail = some (out, after)) :
    parseStringBody ('\\' :: e :: tail) = some (u :: out, after) := by
  rw [parseStringBody.eq_def]
  have h1 : ¬ ('\\' = '"') := by decide
  simp only [h1, if_false, if_true, hu, he, ht]

theorem parseStringBody_unicode (a b c d : Char) (u : Nat) (tail after : List Char)
    (out : List Nat) (he : hex4 a b c d = some u)
    (ht : parseStringBody tail = some (out, after)) :
    parseStringBody ('\\' :: 'u' :: a :: b :: c :: d :: tail) = some (u :: out, after) := by
  rw [parseStringBody.eq_def]
  have h1 : ¬ ('\\' = '"') := by decide
  simp only [h1, if_false, if_true, he, ht]

theorem parseStringBody_literal (c : Char) (tail after : List Char) (out : List Nat)
    (h1 : c ≠ '"') (h2 : c ≠ '\\') (h3 : ¬ c.toNat < 0x20)
    (ht : parseStringBody tail = some (out, after)) :
    parseStringBody (c :: tail) = some (c.toNat :: out, after) := by
  rw [parseStringBody.eq_def]
  simp only [h1, h2, h3, if_false, ht]
/-- The parser reads a quoted string body back, as its code units. -/
theorem parseStringBody_quoteBody (s rest : List Char) :
    parseStringBody (quoteBody s ++ '"' :: rest) = some (s.map Char.toNat, rest) := by
  induction s with
  | nil => exact parseStringBody_close rest
  | cons c cs ih =>
    rw [quoteBody, List.append_assoc, List.map_cons]
    unfold quoteChar
    by_cases h1 : c = '"'
    · subst h1
      simp only [if_true, List.cons_append, List.nil_append]
      exact parseStringBody_simple _ _ _ _ _ (by rfl) (by decide) ih
    · by_cases h2 : c = '\\'
      · subst h2
        simp only [if_true, if_false, h1, List.cons_append, List.nil_append]
        exact parseStringBody_simple _ _ _ _ _ (by rfl) (by decide) ih
      · simp only [h1, h2, if_false]
        by_cases h3 : c.toNat = 0x08
        · simp only [h3, if_true, List.cons_append, List.nil_append]
          exact parseStringBody_simple _ _ _ _ _ (by rfl) (by decide) ih
        · by_cases h4 : c.toNat = 0x0C
          · simp only [h4, h3, if_true, if_false, List.cons_append, List.nil_append]
            simp only [show ¬ ((0x0C : Nat) = 0x08) by decide, if_false]
            exact parseStringBody_simple _ _ _ _ _ (by rfl) (by decide) ih
          · by_cases h5 : c.toNat = 0x0A
            · simp only [h5, if_true, List.cons_append, List.nil_append]
              simp only [show ¬ ((0x0A : Nat) = 0x08) by decide,
                show ¬ ((0x0A : Nat) = 0x0C) by decide, if_false]
              exact parseStringBody_simple _ _ _ _ _ (by rfl) (by decide) ih
            · by_cases h6 : c.toNat = 0x0D
              · simp only [h6, if_true, List.cons_append, List.nil_append]
                simp only [show ¬ ((0x0D : Nat) = 0x08) by decide,
                  show ¬ ((0x0D : Nat) = 0x0C) by decide,
                  show ¬ ((0x0D : Nat) = 0x0A) by decide, if_false]
                exact parseStringBody_simple _ _ _ _ _ (by rfl) (by decide) ih
              · by_cases h7 : c.toNat = 0x09
                · simp only [h7, if_true, List.cons_append, List.nil_append]
                  simp only [show ¬ ((0x09 : Nat) = 0x08) by decide,
                    show ¬ ((0x09 : Nat) = 0x0C) by decide,
                    show ¬ ((0x09 : Nat) = 0x0A) by decide,
                    show ¬ ((0x09 : Nat) = 0x0D) by decide, if_false]
                  exact parseStringBody_simple _ _ _ _ _ (by rfl) (by decide) ih
                · simp only [h3, h4, h5, h6, h7, if_false]
                  by_cases h8 : c.toNat < 0x20
                  · simp only [h8, if_true, List.cons_append, List.nil_append]
                    apply parseStringBody_unicode _ _ _ _ _ _ _ _ _ ih
                    unfold hex4
                    rw [hexVal_hexDigitLower _ (by omega), hexVal_hexDigitLower _ (by omega)]
                    have h0 : hexVal '0' = some 0 := by rfl
                    simp only [h0]
                    congr 1
                    omega
                  · simp only [h8, if_false, List.singleton_append]
                    exact parseStringBody_literal c _ _ _ h1 h2 h8 ih

theorem isSurrogate_toNat (c : Char) : isSurrogate c.toNat = false := by
  have := char_toNat_valid c
  unfold isSurrogate
  rw [Bool.and_eq_false_iff]
  simp only [decide_eq_false_iff_not]
  omega

/-- The code units of a string of scalar values are its characters. -/
theorem fromCodeUnits_toNat (s : List Char) : fromCodeUnits (s.map Char.toNat) = s := by
  induction s with
  | nil => rfl
  | cons c cs ih =>
    cases cs with
    | nil =>
      simp only [List.map_cons, List.map_nil, fromCodeUnits, isSurrogate_toNat,
        Bool.false_eq_true, if_false, Char.ofNat_toNat]
    | cons d ds =>
      have hv := char_toNat_valid c
      have hn : ¬ (0xD800 ≤ c.toNat ∧ c.toNat ≤ 0xDBFF ∧ 0xDC00 ≤ d.toNat ∧ d.toNat ≤ 0xDFFF) := by
        omega
      simp only [List.map_cons] at ih ⊢
      simp only [fromCodeUnits, hn, if_false, isSurrogate_toNat, Bool.false_eq_true,
        Char.ofNat_toNat, ih]

/-- The parser reads a quoted string back. -/
theorem parseString_quote (s : String) (rest : List Char) :
    parseString (quoteBody s.data ++ '"' :: rest) = some (s, rest) := by
  unfold parseString
  rw [parseStringBody_quoteBody]
  simp only [fromCodeUnits_toNat]

end JSON

theorem digitChar_facts (k : Nat) (h : k < 10) :
    (Nat.digitChar k).isDigit = true ∧ (Nat.digitChar k).toNat - 48 = k ∧
      (Nat.digitChar k = '0' → k = 0) ∧ Nat.digitChar k ≠ '-' := by
  interval_cases k <;> decide

theorem digitsToNat_append (ds : List Char) (d : Char) :
    digitsToNat (ds ++ [d]) = 10 * digitsToNat ds + (d.toNat - 48) := by
  simp [digitsToNat, List.foldl_append]

/-- The digits that `Nat.toDigitsCore` puts in front of the accumulator. -/
theorem toDigitsCore_spec (fuel : Nat) :
    ∀ (n : Nat) (acc : List Char), n < fuel →
      ∃ ds : List Char, Nat.toDigitsCore 10 fuel n acc = ds ++ acc ∧
        (∀ d ∈ ds, d.isDigit = true) ∧ digitsToNat ds = n ∧
        (∃ d tl, ds = d :: tl ∧ d ≠ '-' ∧ (d = '0' → n = 0 ∧ tl = [])) := by
  induction fuel with
  | zero => intro n acc h; omega
  | succ f ih =>
    intro n acc hn
    have hd := digitChar_facts (n % 10) (Nat.mod_lt _ (by decide))
    by_cases h0 : n / 10 = 0
    · refine ⟨[Nat.digitChar (n % 10)], ?_, ?_, ?_, ?_⟩
      · simp [Nat.toDigitsCore, h0]
      · intro d hd2
        rw [List.mem_singleton] at hd2
        rw [hd2]
        exact hd.1
      · simp only [digitsToNat, List.foldl_cons, List.foldl_nil, hd.2.1]
        omega
      · refine ⟨_, [], rfl, hd.2.2.2, ?_⟩
        intro hz
        have := hd.2.2.1 hz
        exact ⟨by omega, rfl⟩
    · obtain ⟨ds, hds, hdig, hval, d, tl, hcons, hminus, hzero⟩ :=
        ih (n / 10) (Nat.digitChar (n % 10) :: acc) (by omega)
      refine ⟨ds ++ [Nat.digitChar (n % 10)], ?_, ?_, ?_, ?_⟩
      · simp [Nat.toDigitsCore, h0, hds]
      · intro x hx
        rcases List.mem_append.1 hx with h1 | h1
        · exact hdig x h1
        · rw [List.mem_singleton] at h1
          rw [h1]
          exact hd.1
      · rw [digitsToNat_append, hval, hd.2.1]
        omega
      · refine ⟨d, tl ++ [Nat.digitChar (n % 10)], by rw [hcons]; rfl, hminus, ?_⟩
        intro hz
        exact absurd (hzero hz).1 h0

/-- The decimal digits of a natural number: digits only, with the value of the
number, and without a leading zero except for zero itself. -/
theorem natToDigits_spec (n : Nat) :
    (∀ d ∈ natToDigits n, d.isDigit = true) ∧ digitsToNat (natToDigits n) = n ∧
      ∃ d tl, natToDigits n = d :: tl ∧ d ≠ '-' ∧ (d = '0' → tl = []) := by
  obtain ⟨ds, hds, hdig, hval, d, tl, hcons, hminus, hzero⟩ :=
    toDigitsCore_spec (n + 1) n [] (by omega)
  have : natToDigits n = ds := by
    unfold natToDigits Nat.toDigits
    rw [hds, List.append_nil]
  rw [this]
  exact ⟨hdig, hval, d, tl, hcons, hminus, fun h => (hzero h).2⟩

namespace JSON

theorem spanDigits_stop (ds rest : List Char) (c : Char)
    (hds : ∀ d ∈ ds, d.isDigit = true) (hc : c.isDigit = false) :
    spanDigits (ds ++ c :: rest) = (ds, c :: rest) := by
  unfold spanDigits
  have := takeWhile_append_stop Char.isDigit ds rest c hds hc
  rw [this.1, this.2]

/-- The parser reads the digits of a natural number back. -/
theorem parseUnsigned_natToDigits (n : Nat) (c : Char) (rest : List Char) (hc : endsNumber c) :
    parseUnsigned (natToDigits n ++ c :: rest) = some ((n, 0), c :: rest) := by
  obtain ⟨hdig, hval, d, tl, hcons, _, hzero⟩ := natToDigits_spec n
  have hint : parseIntPart (natToDigits n ++ c :: rest) = some (natToDigits n, c :: rest) := by
    rw [hcons, List.cons_append]
    unfold parseIntPart
    by_cases hd0 : d = '0'
    · have := hzero hd0
      subst this
      simp only [hd0, if_true, List.nil_append]
    · have hdd : d.isDigit = true := hdig d (by rw [hcons]; exact List.mem_cons_self _ _)
      have htl : ∀ x ∈ tl, x.isDigit = true := fun x hx =>
        hdig x (by rw [hcons]; exact List.mem_cons_of_mem _ hx)
      simp only [hd0, if_false, hdd, if_true, spanDigits_stop tl rest c htl hc.1]
  have hfrac : parseFraction (c :: rest) = some ([], c :: rest) := by
    simp only [parseFraction, hc.2.1, if_false]
  have hexp : parseExponent (c :: rest) = some (0, c :: rest) := by
    rw [parseExponent.eq_def]
    have : ¬ (c = 'e' ∨ c = 'E') := fun h => h.elim hc.2.2.1 hc.2.2.2
    simp only [this, if_false]
  unfold parseUnsigned
  simp only [hint, hfrac, hexp, List.append_nil, hval, List.length_nil, Nat.cast_zero, sub_zero]

/-- The parser reads the decimal text of an integer back. -/
theorem parseNumber_intToChars (z : Int) (c : Char) (rest : List Char) (hc : endsNumber c) :
    parseNumber (intToChars z ++ c :: rest) = some (.dec z 0, c :: rest) := by
  unfold intToChars
  by_cases hz : z < 0
  · simp only [hz, if_true, List.cons_append]
    rw [parseNumber.eq_def]
    simp only [if_true, parseUnsigned_natToDigits _ c rest hc]
    have : -(z.natAbs : Int) = z := by omega
    rw [this]
  · obtain ⟨_, _, d, tl, hcons, hminus, _⟩ := natToDigits_spec z.natAbs
    have hu := parseUnsigned_natToDigits z.natAbs c rest hc
    simp only [hz, if_false]
    rw [hcons, List.cons_append] at hu ⊢
    rw [parseNumber.eq_def]
    simp only [hminus, if_false, hu]
    have : (z.natAbs : Int) = z := by omega
    rw [this]

end JSON

theorem JSNumber.toChars_int (m : Int) : (JSNumber.dec m 0).toChars = intToChars m := by
  simp [JSNumber.toChars]

/-- The first character of the text of an integer is a digit or the minus sign. -/
theorem intToChars_head (z : Int) :
    ∃ d tl, intToChars z = d :: tl ∧ (d = '-' ∨ d.isDigit = true) := by
  unfold intToChars
  obtain ⟨hdig, _, d, tl, hcons, _, _⟩ := natToDigits_spec z.natAbs
  by_cases hz : z < 0
  · exact ⟨'-', natToDigits z.natAbs, by simp only [hz, if_true], Or.inl rfl⟩
  · refine ⟨d, tl, by simp only [hz, if_false, hcons], Or.inr ?_⟩
    exact hdig d (by rw [hcons]; exact List.mem_cons_self _ _)

namespace JSON

theorem skipWs_cons (c : Char) (cs : List Char) (h : isWs c = false) :
    skipWs (c :: cs) = c :: cs := by
  simp [skipWs, List.dropWhile, h]

theorem quote_append (s : String) (rest : List Char) :
    quote s ++ rest = '"' :: (quoteBody s.data ++ '"' :: rest) := by
  simp [quote]

/-- A string value is read back. -/
theorem parseAux_str (f : Nat) (s : String) (rest : List Char) :
    parseAux (f + 1) .value (quote s ++ rest) = some (.str s, rest) := by
  rw [quote_append, parseAux, skipWs_cons _ _ (by decide)]
  have h1 : ¬ ('"' = '[') := by decide
  have h2 : ¬ ('"' = '{') := by decide
  simp only [h1, h2, if_false, if_true, parseString_quote]

/-- An integer value is read back. -/
theorem parseAux_int (f : Nat) (z : Int) (c : Char) (rest : List Char) (hc : endsNumber c) :
    parseAux (f + 1) .value (intToChars z ++ c :: rest) = some (.num (.dec z 0), c :: rest) := by
  have hnum := parseNumber_intToChars z c rest hc
  obtain ⟨d, tl, hcons, hd⟩ := intToChars_head z
  rw [hcons, List.cons_append] at hnum ⊢
  have hfacts : isWs d = false ∧ d ≠ '[' ∧ d ≠ '{' ∧ d ≠ '"' ∧ d ≠ 'n' ∧ d ≠ 't' ∧ d ≠ 'f' := by
    rcases hd with h | h
    · subst h
      decide
    · refine ⟨?_, ?_, ?_, ?_, ?_, ?_, ?_⟩
      · cases hw : isWs d
        · rfl
        · simp only [isWs, Bool.or_eq_true, beq_iff_eq] at hw
          rcases hw with ((h1 | h1) | h1) | h1 <;> subst h1 <;> exact absurd h (by decide)
      all_goals
        intro h1
        subst h1
        exact absurd h (by decide)
  obtain ⟨hw, h1, h2, h3, h4, h5, h6⟩ := hfacts
  rw [parseAux, skipWs_cons _ _ hw]
  simp only [h1, h2, h3, h4, h5, h6, if_false, hnum]

/-- One member of an object, followed by a comma or the closing brace. -/
theorem parseAux_member (f : Nat) (acc : List (String × JSValue)) (k : String)
    (vtext : List Char) (v : JSValue) (c3 : Char) (rest3 : List Char)
    (hv : parseAux f .value (vtext ++ c3 :: rest3) = some (v, c3 :: rest3))
    (hc3 : isWs c3 = false) :
    parseAux (f + 1) (.members acc) (quote k ++ ':' :: (vtext ++ c3 :: rest3))
      = if c3 = ',' then parseAux f (.members (acc ++ [(k, v)])) rest3
        else if c3 = '}' then some (.obj (acc ++ [(k, v)]), rest3)
        else none := by
  rw [quote_append, parseAux, skipWs_cons _ _ (by decide)]
  simp only [if_true, parseString_quote, skipWs_cons _ _ (show isWs ':' = false by decide), hv,
    skipWs_cons _ _ hc3]

end JSON

/-- The text of a selection record. -/
theorem stringify_record (r : SelectionRecord) (rest : List Char) :
    JSON.stringify r.toJSValue ++ rest
      = '{' :: (JSON.quote "id" ++ ':' :: (JSON.quote r.id ++ ',' ::
          (JSON.quote "name" ++ ':' :: (JSON.quote r.name ++ ',' ::
            (JSON.quote "price" ++ ':' :: (intToChars r.price ++ '}' :: rest)))))) := by
  simp [SelectionRecord.toJSValue, JSON.stringify, JSON.stringifyMembers, JSON.joinComma,
    JSNumber.toChars_int]

namespace JSON

/-- A selection record is read back, with any fuel from 5 up. -/
theorem parseAux_record (f : Nat) (r : SelectionRecord) (rest : List Char) :
    parseAux (f + 5) .value (stringify r.toJSValue ++ rest) = some (r.toJSValue, rest) := by
  rw [stringify_record, parseAux, skipWs_cons _ _ (by decide)]
  have h1 : ¬ ('{' = '[') := by decide
  simp only [h1, if_false, if_true]
  rw [quote_append, skipWs_cons _ _ (by decide)]
  have h2 : ¬ ('"' = '}') := by decide
  simp only [h2, if_false]
  rw [← quote_append]
  rw [parseAux_member (f + 3) [] "id" (quote r.id) (.str r.id) ',' _
    (parseAux_str (f + 2) r.id _) (by decide)]
  simp only [if_true, List.nil_append]
  rw [parseAux_member (f + 2) _ "name" (quote r.name) (.str r.name) ',' _
    (parseAux_str (f + 1) r.name _) (by decide)]
  simp only [if_true]
  rw [parseAux_member (f + 1) _ "price" (intToChars r.price) (.num (.dec r.price 0)) '}' rest
    (parseAux_int f r.price '}' rest (by unfold endsNumber; decide)) (by decide)]
  have h3 : ¬ ('}' = ',') := by decide
  simp only [h3, if_false, if_true]
  rfl

end JSON

namespace JSON

theorem stringifyItems_records (records : List SelectionRecord) :
    stringifyItems (records.map SelectionRecord.toJSValue)
      = records.map (fun r => stringify r.toJSValue) := by
  induction records with
  | nil => rfl
  | cons r rest ih => simp only [List.map_cons, stringifyItems, ih]

theorem stringify_record_head (r : SelectionRecord) :
    ∃ tl, stringify r.toJSValue = '{' :: tl := by
  have := stringify_record r []
  rw [List.append_nil] at this
  exact ⟨_, this⟩

/-- The elements of an array of selection records are read back, when the fuel
is at least the number of records plus 5. -/
theorem parseAux_elements (records : List SelectionRecord) :
    ∀ (r : SelectionRecord) (acc : List JSValue) (fuel : Nat) (rest : List Char),
      records.length + 6 ≤ fuel →
      parseAux fuel (.elements acc)
          (joinComma ((r :: records).map (fun x => stringify x.toJSValue)) ++ ']' :: rest)
        = some (.arr (acc ++ (r :: records).map SelectionRecord.toJSValue), rest) := by
  induction records with
  | nil =>
    intro r acc fuel rest hf
    obtain ⟨f, rfl⟩ : ∃ f, fuel = f + 6 := ⟨fuel - 6, by simp at hf; omega⟩
    simp only [List.map_cons, List.map_nil, joinComma]
    rw [parseAux, parseAux_record f r]
    have h1 : ¬ (']' = ',') := by decide
    simp only [skipWs_cons _ _ (show isWs ']' = false by decide), h1, if_false, if_true]
  | cons r2 rest2 ih =>
    intro r acc fuel rest hf
    obtain ⟨f, rfl⟩ : ∃ f, fuel = f + 6 := ⟨fuel - 6, by simp at hf; omega⟩
    simp only [List.length_cons] at hf
    simp only [List.map_cons, joinComma, List.append_assoc, List.cons_append]
    rw [parseAux, parseAux_record f r]
    simp only [skipWs_cons _ _ (show isWs ',' = false by decide), if_true]
    have := ih r2 (acc ++ [r.toJSValue]) (f + 5) rest (by omega)
    simp only [List.map_cons] at this
    rw [this, List.append_assoc]
    rfl

/-- The text of an array of selection records is read back, when the fuel is at
least the number of records plus 6. -/
theorem parseAux_records (records : List SelectionRecord) (fuel : Nat) (rest : List Char)
    (hf : records.length + 6 ≤ fuel) :
    parseAux fuel .value (stringify (.arr (records.map SelectionRecord.toJSValue)) ++ rest)
      = some (.arr (records.map SelectionRecord.toJSValue), rest) := by
  obtain ⟨f, rfl⟩ : ∃ f, fuel = f + 1 := ⟨fuel - 1, by omega⟩
  rw [stringify, stringifyItems_records]
  cases records with
  | nil =>
    simp only [List.map_nil, joinComma, List.nil_append, List.cons_append]
    rw [parseAux, skipWs_cons _ _ (by decide)]
    simp only [if_true, skipWs_cons _ _ (show isWs ']' = false by decide)]
  | cons r rest2 =>
    have hel := parseAux_elements rest2 r [] f rest (by simp at hf; omega)
    obtain ⟨tl, htl⟩ := stringify_record_head r
    simp only [List.cons_append, List.append_assoc, List.singleton_append]
    rw [parseAux, skipWs_cons _ _ (by decide)]
    simp only [if_true]
    have hjoin : ∃ tl2, joinComma ((r :: rest2).map (fun x => stringify x.toJSValue))
        ++ ']' :: rest = '{' :: tl2 := by
      cases rest2 with
      | nil =>
        refine ⟨tl ++ ']' :: rest, ?_⟩
        simp only [List.map_cons, List.map_nil, joinComma, htl, List.cons_append]
      | cons r3 rest3 =>
        refine ⟨tl ++ ',' :: joinComma ((r3 :: rest3).map (fun x => stringify x.toJSValue))
          ++ ']' :: rest, ?_⟩
        simp only [List.map_cons, joinComma, htl, List.cons_append, List.append_assoc]
    obtain ⟨tl2, htl2⟩ := hjoin
    rw [List.nil_append, htl2]
    rw [htl2] at hel
    rw [skipWs_cons _ _ (by decide)]
    have h1 : ¬ ('{' = ']') := by decide
    simp only [h1, if_false, hel, List.nil_append]

theorem joinComma_length (xs : List (List Char)) (h : ∀ x ∈ xs, 1 ≤ x.length) :
    xs.length ≤ (joinComma xs).length := by
  induction xs with
  | nil => simp [joinComma]
  | cons x rest ih =>
    have hx := h x (List.mem_cons_self _ _)
    have ih2 := ih (fun y hy => h y (List.mem_cons_of_mem _ hy))
    cases rest with
    | nil => simpa [joinComma] using hx
    | cons y r =>
      simp only [joinComma, List.length_append, List.length_cons] at ih2 ⊢
      omega

/-- `JSON.parse` of `JSON.stringify` of an array of selection records is the array. -/
theorem parse_stringify_records (records : List SelectionRecord) :
    parse ⟨stringify (.arr (records.map SelectionRecord.toJSValue))⟩
      = .ok (.arr (records.map SelectionRecord.toJSValue)) := by
  unfold parse
  have hlen : records.length + 2
      ≤ (stringify (.arr (records.map SelectionRecord.toJSValue))).length := by
    rw [stringify, stringifyItems_records]
    have := joinComma_length (records.map (fun r => stringify r.toJSValue)) (by
      intro x hx
      obtain ⟨r, _, rfl⟩ := List.mem_map.1 hx
      obtain ⟨tl, htl⟩ := stringify_record_head r
      rw [htl]
      simp)
    simp only [List.length_map] at this
    simp only [List.length_cons, List.length_append, List.length_nil]
    omega
  have := parseAux_records records
    (2 * (stringify (.arr (records.map SelectionRecord.toJSValue))).length + 2) [] (by omega)
  rw [List.append_nil] at this
  simp only [this]
  rfl

end JSON

theorem SelectionRecord.toJSValue_injective :
    Function.Injective SelectionRecord.toJSValue := by
  intro a b h
  cases a
  cases b
  simp only [SelectionRecord.toJSValue, JSValue.obj.injEq, List.cons.injEq, Prod.mk.injEq,
    JSValue.str.injEq, JSValue.num.injEq, JSNumber.dec.injEq, true_and, and_true] at h
  obtain ⟨h1, h2, h3⟩ := h
  subst h1 h2 h3
  rfl

theorem restaurantQueryParams_get (search : String) (records : List SelectionRecord)
    (total : F64) :
    (restaurantQueryParams search records total).get "selectedRestaurants"
      = some ⟨JSON.stringify (.arr (records.map SelectionRecord.toJSValue))⟩ := by
  unfold restaurantQueryParams
  simp only
  rw [URLSearchParams.get_set_ne _ _ _ _ (by decide), URLSearchParams.get_set_self]

theorem parseOrEmptyArray_records (records : List SelectionRecord) :
    parseOrEmptyArray
        (strOr (some ⟨JSON.stringify (.arr (records.map SelectionRecord.toJSValue))⟩) "[]")
      = .arr (records.map SelectionRecord.toJSValue) := by
  have hne : (⟨JSON.stringify (.arr (records.map SelectionRecord.toJSValue))⟩ : String) ≠ "" := by
    intro h
    have := congrArg String.data h
    simp [JSON.stringify] at this
  simp only [strOr, hne, if_false, parseOrEmptyArray, JSON.parse_stringify_records]

/-- C3. For every sequence of selection records `{id, name, price}` (any strings,
reserved characters included, and any integer price), every incoming query and
every total: the query string that the complete button of RestaurantPage builds
(`JSON.stringify`, `set("selectedRestaurants", ...)`, `toString`), decoded as
TouristPage does (`new URLSearchParams`, `get("selectedRestaurants")`,
`JSON.parse`), with or without the leading `?`, is the array of the same
records in the same order; distinct record sequences give distinct arrays. -/
theorem C3_selection_round_trip (search : String) (records : List SelectionRecord)
    (total : F64) :
    parseOrEmptyArray (strOr ((URLSearchParams.ofString
        (restaurantQueryParams search records total).toString).get "selectedRestaurants") "[]")
      = .arr (records.map SelectionRecord.toJSValue) ∧
    parseOrEmptyArray (strOr ((URLSearchParams.ofString
        ("?" ++ (restaurantQueryParams search records total).toString)).get
          "selectedRestaurants") "[]")
      = .arr (records.map SelectionRecord.toJSValue) ∧
    (∀ q, decodeTouristPage ("?" ++ (restaurantQueryParams search records total).toString)
        = .ok q → q.selectedRestaurants = .arr (records.map SelectionRecord.toJSValue)) ∧
    (∀ other : List SelectionRecord,
      JSValue.arr (other.map SelectionRecord.toJSValue)
        = .arr (records.map SelectionRecord.toJSValue) → other = records) := by
  obtain ⟨h1, h2⟩ := URLSearchParams.ofString_toString (restaurantQueryParams search records total)
  refine ⟨?_, ?_, ?_, ?_⟩
  · rw [h1, restaurantQueryParams_get, parseOrEmptyArray_records]
  · rw [h2, restaurantQueryParams_get, parseOrEmptyArray_records]
  · intro q hq
    obtain ⟨_, _, h3⟩ := decodeTouristParams_fields _ q hq
    rw [h3, h2, restaurantQueryParams_get, parseOrEmptyArray_records]
  · intro other h
    simp only [JSValue.arr.injEq] at h
    exact List.map_injective_iff.2 SelectionRecord.toJSValue_injective h

set_option maxRecDepth 100000 in
/-- The round trip evaluated on two records with reserved characters. -/
theorem selection_round_trip_example :
    (decodeTouristPage ("?" ++ (restaurantQueryParams "?region=a b"
        [⟨"r&1=", "Kim\"s \\ caf\n #1 +%", 12000⟩, ⟨"한", "", 0⟩]
        (F64.ofInt 12000)).toString)).map
          (fun q => q.selectedRestaurants)
      = .ok (.arr [.obj [("id", .str "r&1="), ("name", .str "Kim\"s \\ caf\n #1 +%"),
          ("price", .num (.dec 12000 0))],
          .obj [("id", .str "한"), ("name", .str ""), ("price", .num (.dec 0 0))]]) := by
  simp only [restaurantQueryParams, F64.toChars_ofInt 12000 (by decide)]
  rfl

namespace JSON

theorem parseAux_succ (f : Nat) (m : Mode) (cs : List Char) :
    parseAux (f + 1) m cs = parseStep (parseAux f) m cs := by
  cases m <;> rfl


theorem skipWs_length (cs : List Char) : (skipWs cs).length ≤ cs.length :=
  (List.dropWhile_sublist _).length_le

theorem skipWs_cons_length (cs rest : List Char) (c : Char) (h : skipWs cs = c :: rest) :
    rest.length < cs.length := by
  have := skipWs_length cs
  rw [h] at this
  simp only [List.length_cons] at this
  omega

theorem escape_pair_some (x : Option Nat) (y : Option (List Nat × List Char))
    (out : List Nat) (after : List Char)
    (h : (match x, y with
      | some u, some (o, a) => some (u :: o, a)
      | _, _ => none) = some (out, after)) :
    ∃ o, y = some (o, after) := by
  cases x with
  | none => cases h
  | some u =>
    cases y with
    | none => cases h
    | some r =>
      obtain ⟨o, a⟩ := r
      simp only [Option.some.injEq, Prod.mk.injEq] at h
      exact ⟨o, by rw [h.2]⟩

theorem parseStringBody_length (n : Nat) :
    ∀ (cs : List Char) (out : List Nat) (after : List Char), cs.length ≤ n →
      parseStringBody cs = some (out, after) → after.length < cs.length := by
  induction n with
  | zero =>
    intro cs out after hn h
    have : cs = [] := List.length_eq_zero.1 (by omega)
    subst this
    rw [parseStringBody.eq_def] at h
    cases h
  | succ n ih =>
    intro cs out after hn h
    rw [parseStringBody.eq_def] at h
    cases cs with
    | nil => cases h
    | cons c tl =>
      simp only [List.length_cons] at hn ⊢
      by_cases h1 : c = '"'
      · simp only [h1, if_true, Option.some.injEq, Prod.mk.injEq] at h
        rw [← h.2]
        omega
      · by_cases h2 : c = '\\'
        · subst h2
          simp only [h1, if_true, if_false] at h
          cases tl with
          | nil => cases h
          | cons e rest =>
            simp only [List.length_cons] at hn ⊢
            by_cases h4 : e = 'u'
            · simp only [h4, if_true] at h
              match rest, h with
              | a :: b :: c2 :: d :: rest2, h =>
                simp only [List.length_cons] at hn ⊢
                obtain ⟨o, hy⟩ := escape_pair_some _ _ _ _ h
                have := ih rest2 _ _ (by omega) hy
                omega
            · simp only [h4, if_false] at h
              obtain ⟨o, hy⟩ := escape_pair_some _ _ _ _ h
              have := ih rest _ _ (by omega) hy
              omega
        · by_cases h3 : c.toNat < 0x20
          · simp only [h1, h2, h3, if_true, if_false] at h
            cases h
          · simp only [h1, h2, h3, if_false] at h
            cases hp : parseStringBody tl with
            | none =>
              rw [hp] at h
              cases h
            | some r =>
              obtain ⟨out2, after2⟩ := r
              have := ih tl _ _ (by omega) hp
              rw [hp] at h
              simp only [Option.some.injEq, Prod.mk.injEq] at h
              rw [← h.2]
              omega

theorem parseString_length (cs : List Char) (s : String) (after : List Char)
    (h : parseString cs = some (s, after)) : after.length < cs.length := by
  unfold parseString at h
  split at h
  · rename_i units after2 hp
    cases h
    exact parseStringBody_length cs.length cs _ _ (le_refl _) hp
  · cases h

theorem spanDigits_length (cs : List Char) : (spanDigits cs).2.length ≤ cs.length :=
  (List.dropWhile_sublist _).length_le

theorem parseIntPart_length (cs ds after : List Char)
    (h : parseIntPart cs = some (ds, after)) : after.length < cs.length := by
  unfold parseIntPart at h
  cases cs with
  | nil => cases h
  | cons d rest =>
    have := spanDigits_length rest
    simp only [List.length_cons]
    by_cases h1 : d = '0'
    · simp only [h1, if_true, Option.some.injEq, Prod.mk.injEq] at h
      rw [← h.2]
      omega
    · by_cases h2 : d.isDigit = true
      · simp only [h1, h2, if_true, if_false, Option.some.injEq, Prod.mk.injEq] at h
        rw [← h.2]
        omega
      · simp only [h1, h2, if_false] at h
        cases h

theorem parseFraction_length (cs ds after : List Char)
    (h : parseFraction cs = some (ds, after)) : after.length ≤ cs.length := by
  unfold parseFraction at h
  cases cs with
  | nil =>
    simp only [Option.some.injEq, Prod.mk.injEq] at h
    rw [← h.2]
  | cons c rest =>
    have := spanDigits_length rest
    simp only [List.length_cons]
    by_cases h1 : c = '.'
    · simp only [h1, if_true] at h
      cases h2 : (spanDigits rest).1.isEmpty
      · simp only [h2, Bool.false_eq_true, if_false, Option.some.injEq] at h
        rw [h] at this
        simp only at this
        omega
      · simp only [h2, if_true] at h
        cases h
    · simp only [h1, if_false, Option.some.injEq, Prod.mk.injEq] at h
      rw [← h.2]
      simp

theorem parseExponent_length (cs : List Char) (e : Int) (after : List Char)
    (h : parseExponent cs = some (e, after)) : after.length ≤ cs.length := by
  rw [parseExponent.eq_def] at h
  cases cs with
  | nil =>
    simp only [Option.some.injEq, Prod.mk.injEq] at h
    rw [← h.2]
  | cons c rest =>
    have h1 := spanDigits_length rest
    simp only [List.length_cons]
    by_cases hc : c = 'e' ∨ c = 'E'
    · simp only [hc, if_true] at h
      cases rest with
      | nil => cases h
      | cons s rest2 =>
        have h2 := spanDigits_length rest2
        simp only [List.length_cons] at h1 ⊢
        by_cases hm : s = '-'
        · simp only [hm, if_true] at h
          cases he : (spanDigits rest2).1.isEmpty
          · simp only [he, Bool.false_eq_true, if_false, Option.some.injEq, Prod.mk.injEq] at h
            rw [← h.2]
            omega
          · simp only [he, if_true] at h
            cases h
        · by_cases hp : s = '+'
          · subst hp
            simp only [hm, if_true, if_false] at h
            cases he : (spanDigits rest2).1.isEmpty
            · simp only [he, Bool.false_eq_true, if_false, Option.some.injEq, Prod.mk.injEq] at h
              rw [← h.2]
              omega
            · simp only [he, if_true] at h
              cases h
          · simp only [hm, hp, if_false] at h
            cases he : (spanDigits (s :: rest2)).1.isEmpty
            · simp only [he, Bool.false_eq_true, if_false, Option.some.injEq, Prod.mk.injEq] at h
              rw [← h.2]
              omega
            · simp only [he, if_true] at h
              cases h
    · simp only [hc, if_false, Option.some.injEq, Prod.mk.injEq] at h
      rw [← h.2]
      simp

theorem parseUnsigned_length (cs : List Char) (r : Nat × Int) (after : List Char)
    (h : parseUnsigned cs = some (r, after)) : after.length < cs.length := by
  unfold parseUnsigned at h
  split at h
  · cases h
  · rename_i whole cs1 h1
    split at h
    · cases h
    · rename_i frac cs2 h2
      split at h
      · cases h
      · rename_i e cs3 h3
        cases h
        have := parseIntPart_length _ _ _ h1
        have := parseFraction_length _ _ _ h2
        have := parseExponent_length _ _ _ h3
        omega

theorem parseNumber_length (cs : List Char) (n : JSNumber) (after : List Char)
    (h : parseNumber cs = some (n, after)) : after.length < cs.length := by
  rw [parseNumber.eq_def] at h
  split at h
  · cases h
  · rename_i c rest
    split_ifs at h
    · split at h
      · rename_i m e after2 hp
        cases h
        have := parseUnsigned_length _ _ _ hp
        simp only [List.length_cons]
        omega
      · cases h
    · split at h
      · rename_i m e after2 hp
        cases h
        exact parseUnsigned_length _ _ _ hp
      · cases h

theorem stripKeyword_length (kw cs after : List Char)
    (h : stripKeyword kw cs = some after) : after.length ≤ cs.length := by
  unfold stripKeyword at h
  split_ifs at h
  cases h
  simp


theorem keyword_some (kw rest : List Char) (w v : JSValue) (after : List Char)
    (h : (stripKeyword kw rest).map (fun a => (w, a)) = some (v, after)) :
    after.length ≤ rest.length := by
  cases hk : stripKeyword kw rest with
  | none => rw [hk] at h; cases h
  | some a =>
    rw [hk] at h
    simp only [Option.map_some', Option.some.injEq, Prod.mk.injEq] at h
    rw [← h.2]
    exact stripKeyword_length _ _ _ hk

/-- A step of the parser that returns a value has read at least one character,
when the calls it makes have. -/
theorem parseStep_consumes (again : Mode → List Char → Option (JSValue × List Char))
    (hag : ∀ m cs v after, again m cs = some (v, after) → after.length < cs.length) :
    ∀ m cs v after, parseStep again m cs = some (v, after) → after.length < cs.length := by
  intro m cs v after h
  cases m with
  | value =>
    simp only [parseStep] at h
    cases hs : skipWs cs with
    | nil => rw [hs] at h; cases h
    | cons c rest =>
      rw [hs] at h
      have hl := skipWs_cons_length cs rest c hs
      simp only at h
      by_cases h1 : c = '['
      · simp only [h1, if_true] at h
        cases hs2 : skipWs rest with
        | nil => rw [hs2] at h; cases h
        | cons c2 rest2 =>
          rw [hs2] at h
          have hl2 := skipWs_cons_length rest rest2 c2 hs2
          simp only at h
          by_cases h2 : c2 = ']'
          · simp only [h2, if_true, Option.some.injEq, Prod.mk.injEq] at h
            rw [← h.2]
            omega
          · simp only [h2, if_false] at h
            have := hag _ _ _ _ h
            simp only [List.length_cons] at this
            omega
      · by_cases h3 : c = '{'
        · subst h3
          simp only [h1, if_true, if_false] at h
          cases hs2 : skipWs rest with
          | nil => rw [hs2] at h; cases h
          | cons c2 rest2 =>
            rw [hs2] at h
            have hl2 := skipWs_cons_length rest rest2 c2 hs2
            simp only at h
            by_cases h2 : c2 = '}'
            · simp only [h2, if_true, Option.some.injEq, Prod.mk.injEq] at h
              rw [← h.2]
              omega
            · simp only [h2, if_false] at h
              have := hag _ _ _ _ h
              simp only [List.length_cons] at this
              omega
        · by_cases h4 : c = '"'
          · subst h4
            simp only [h1, h3, if_true, if_false] at h
            cases hp : parseString rest with
            | none => rw [hp] at h; cases h
            | some r =>
              obtain ⟨s2, a2⟩ := r
              rw [hp] at h
              simp only [Option.some.injEq, Prod.mk.injEq] at h
              have := parseString_length _ _ _ hp
              rw [← h.2]
              omega
          · by_cases h5 : c = 'n'
            · subst h5
              simp only [h1, h3, h4, if_true, if_false] at h
              have := keyword_some _ _ _ _ _ h
              omega
            · by_cases h6 : c = 't'
              · subst h6
                simp only [h1, h3, h4, h5, if_true, if_false] at h
                have := keyword_some _ _ _ _ _ h
                omega
              · by_cases h7 : c = 'f'
                · subst h7
                  simp only [h1, h3, h4, h5, h6, if_true, if_false] at h
                  have := keyword_some _ _ _ _ _ h
                  omega
                · simp only [h1, h3, h4, h5, h6, h7, if_false] at h
                  cases hp : parseNumber (c :: rest) with
                  | none => rw [hp] at h; cases h
                  | some r =>
                    obtain ⟨n2, a2⟩ := r
                    rw [hp] at h
                    simp only [Option.some.injEq, Prod.mk.injEq] at h
                    have := parseNumber_length _ _ _ hp
                    simp only [List.length_cons] at this
                    rw [← h.2]
                    omega
  | elements acc =>
    simp only [parseStep] at h
    cases hv : again .value cs with
    | none => rw [hv] at h; cases h
    | some r =>
      obtain ⟨v1, a1⟩ := r
      rw [hv] at h
      have hl := hag _ _ _ _ hv
      simp only at h
      cases hs : skipWs a1 with
      | nil => rw [hs] at h; cases h
      | cons c rest =>
        rw [hs] at h
        have hl2 := skipWs_cons_length a1 rest c hs
        simp only at h
        by_cases h1 : c = ','
        · simp only [h1, if_true] at h
          have := hag _ _ _ _ h
          omega
        · by_cases h2 : c = ']'
          · subst h2
            simp only [h1, if_true, if_false, Option.some.injEq, Prod.mk.injEq] at h
            rw [← h.2]
            omega
          · simp only [h1, h2, if_false] at h
            cases h
  | members acc =>
    simp only [parseStep] at h
    cases hs : skipWs cs with
    | nil => rw [hs] at h; cases h
    | cons q rest =>
      rw [hs] at h
      have hl := skipWs_cons_length cs rest q hs
      simp only at h
      by_cases hq : q = '"'
      · simp only [hq, if_true] at h
        cases hp : parseString rest with
        | none => rw [hp] at h; cases h
        | some r =>
          obtain ⟨k, a1⟩ := r
          rw [hp] at h
          have hl1 := parseString_length _ _ _ hp
          simp only at h
          cases hs2 : skipWs a1 with
          | nil => rw [hs2] at h; cases h
          | cons c rest2 =>
            rw [hs2] at h
            have hl2 := skipWs_cons_length a1 rest2 c hs2
            simp only at h
            by_cases hc : c = ':'
            · simp only [hc, if_true] at h
              cases hv : again .value rest2 with
              | none => rw [hv] at h; cases h
              | some r2 =>
                obtain ⟨v1, a2⟩ := r2
                rw [hv] at h
                have hl3 := hag _ _ _ _ hv
                simp only at h
                cases hs3 : skipWs a2 with
                | nil => rw [hs3] at h; cases h
                | cons c3 rest3 =>
                  rw [hs3] at h
                  have hl4 := skipWs_cons_length a2 rest3 c3 hs3
                  simp only at h
                  by_cases h1 : c3 = ','
                  · simp only [h1, if_true] at h
                    have := hag _ _ _ _ h
                    omega
                  · by_cases h2 : c3 = '}'
                    · subst h2
                      simp only [h1, if_true, if_false, Option.some.injEq,
                        Prod.mk.injEq] at h
                      rw [← h.2]
                      omega
                    · simp only [h1, h2, if_false] at h
                      cases h
            · simp only [hc, if_false] at h
              cases h
      · simp only [hq, if_false] at h
        cases h

/-- A call of `parseAux` that returns a value has read at least one character. -/
theorem parseAux_consumes (f : Nat) :
    ∀ m cs v after, parseAux f m cs = some (v, after) → after.length < cs.length := by
  induction f with
  | zero =>
    intro m cs v after h
    simp only [parseAux] at h
    cases h
  | succ f ih =>
    intro m cs v after h
    rw [parseAux_succ] at h
    exact parseStep_consumes _ ih m cs v after h


/-- A step of the parser depends on the calls of smaller rank only. -/
theorem parseStep_congr (a1 a2 : Mode → List Char → Option (JSValue × List Char))
    (hcons : ∀ m cs v after, a1 m cs = some (v, after) → after.length < cs.length)
    (m : Mode) (cs : List Char)
    (hagree : ∀ m2 cs2, Mode.rank m2 cs2 < Mode.rank m cs → a1 m2 cs2 = a2 m2 cs2) :
    parseStep a1 m cs = parseStep a2 m cs := by
  cases m with
  | value =>
    simp only [parseStep]
    cases hs : skipWs cs with
    | nil => rfl
    | cons c rest =>
      have hl := skipWs_cons_length cs rest c hs
      simp only
      by_cases h1 : c = '['
      · simp only [h1, if_true]
        cases hs2 : skipWs rest with
        | nil => rfl
        | cons c2 rest2 =>
          have hl2 := skipWs_cons_length rest rest2 c2 hs2
          simp only
          by_cases h2 : c2 = ']'
          · simp only [h2, if_true]
          · simp only [h2, if_false]
            apply hagree
            simp only [Mode.rank, List.length_cons]
            omega
      · by_cases h3 : c = '{'
        · subst h3
          simp only [h1, if_true, if_false]
          cases hs2 : skipWs rest with
          | nil => rfl
          | cons c2 rest2 =>
            have hl2 := skipWs_cons_length rest rest2 c2 hs2
            simp only
            by_cases h2 : c2 = '}'
            · simp only [h2, if_true]
            · simp only [h2, if_false]
              apply hagree
              simp only [Mode.rank, List.length_cons]
              omega
        · simp only [h1, h3, if_false]
  | elements acc =>
    simp only [parseStep]
    have hval : a1 .value cs = a2 .value cs := by
      apply hagree
      simp only [Mode.rank]
      omega
    rw [← hval]
    cases hv : a1 .value cs with
    | none => rfl
    | some r =>
      obtain ⟨v1, after1⟩ := r
      have hl := hcons _ _ _ _ hv
      simp only
      cases hs : skipWs after1 with
      | nil => rfl
      | cons c rest =>
        have hl2 := skipWs_cons_length after1 rest c hs
        simp only
        by_cases h1 : c = ','
        · simp only [h1, if_true]
          apply hagree
          simp only [Mode.rank]
          omega
        · simp only [h1, if_false]
  | members acc =>
    simp only [parseStep]
    cases hs : skipWs cs with
    | nil => rfl
    | cons q rest =>
      have hl := skipWs_cons_length cs rest q hs
      simp only
      by_cases hq : q = '"'
      · simp only [hq, if_true]
        cases hp : parseString rest with
        | none => rfl
        | some r =>
          obtain ⟨k, after1⟩ := r
          have hl1 := parseString_length _ _ _ hp
          simp only
          cases hs2 : skipWs after1 with
          | nil => rfl
          | cons c rest2 =>
            have hl2 := skipWs_cons_length after1 rest2 c hs2
            simp only
            by_cases hc : c = ':'
            · simp only [hc, if_true]
              have hval : a1 .value rest2 = a2 .value rest2 := by
                apply hagree
                simp only [Mode.rank]
                omega
              rw [← hval]
              cases hv : a1 .value rest2 with
              | none => rfl
              | some r2 =>
                obtain ⟨v1, after2⟩ := r2
                have hl3 := hcons _ _ _ _ hv
                simp only
                cases hs3 : skipWs after2 with
                | nil => rfl
                | cons c3 rest3 =>
                  have hl4 := skipWs_cons_length after2 rest3 c3 hs3
                  simp only
                  by_cases h1 : c3 = ','
                  · simp only [h1, if_true]
                    apply hagree
                    simp only [Mode.rank]
                    omega
                  · simp only [h1, if_false]
            · simp only [hc, if_false]
      · simp only [hq, if_false]

/-- Above the rank of a call the fuel does not matter. -/
theorem parseAux_fuel (f : Nat) :
    ∀ (g : Nat) (m : Mode) (cs : List Char), Mode.rank m cs < f → Mode.rank m cs < g →
      parseAux f m cs = parseAux g m cs := by
  induction f with
  | zero => intro g m cs hf; omega
  | succ f ih =>
    intro g m cs hf hg
    cases g with
    | zero => omega
    | succ g =>
      rw [parseAux_succ, parseAux_succ]
      apply parseStep_congr _ _ (parseAux_consumes f) m cs
      intro m2 cs2 hr
      exact ih g m2 cs2 (by omega) (by omega)

/-- The fuel that `JSON.parse` gives to `parseAux` is enough for every text:
more fuel gives the same result. -/
theorem parse_fuel_enough (text : List Char) (fuel : Nat) (h : 2 * text.length + 2 ≤ fuel) :
    parseAux fuel .value text = parseAux (2 * text.length + 2) .value text :=
  parseAux_fuel fuel (2 * text.length + 2) .value text
    (by simp only [Mode.rank]; omega) (by simp only [Mode.rank]; omega)

end JSON

/-- C12, evaluated at failing inputs. An attraction record without a `price`
field, or with the non-numeric price `"abc"`, is normalised by TouristPage to
the price `NaN`: `Number(a.price) ?? 0` keeps the `NaN`, since `??` replaces
only `null` and `undefined`. RestaurantPage, which writes `||`, gives the same
records the fallback 10000, and never gives any record the price `NaN`. -/
theorem C12_tourist_price_is_NaN :
    (normalizeTourist (.obj [("id", .str "t1"), ("name", .str "x")]) 0).map
        (fun e => e.price) = .ok (.num .nan) ∧
    (normalizeTourist (.obj [("id", .str "t1"), ("price", .str "abc")]) 0).map
        (fun e => e.price) = .ok (.num .nan) ∧
    (touristsOfResponse (.arr [.obj [("id", .str "t1"), ("name", .str "x")]])).map
        (fun e => e.price) = [.num .nan] ∧
    (normalizeRestaurant (.obj [("id", .str "t1"), ("name", .str "x")]) 0).map
        (fun e => e.price) = .ok (.num (.dec 10000 0)) ∧
    (normalizeRestaurant (.obj [("id", .str "t1"), ("price", .str "abc")]) 0).map
        (fun e => e.price) = .ok (.num (.dec 10000 0)) ∧
    (∀ (r : JSValue) (i : Nat) (e : RestaurantEntry), normalizeRestaurant r i = .ok e →
      ∃ n, e.price = .num n ∧ n ≠ .nan ∧
        (numberOfValue (r.getProp "price") = .nan → e.price = .num (.dec 10000 0))) := by
  refine ⟨by rfl, by rfl, by rfl, by rfl, by rfl, ?_⟩
  intro r i e h
  have hp : e.price
      = valueOr (some (.num (numberOfValue (r.getProp "price")))) (.num (.dec 10000 0)) := by
    unfold normalizeRestaurant at h
    split at h
    · cases h
    · simp only [Except.ok.injEq] at h
      rw [← h]
  rw [hp]
  cases hn : numberOfValue (r.getProp "price") with
  | nan =>
    exact ⟨.dec 10000 0, rfl, (fun h2 => by cases h2), fun _ => rfl⟩
  | inf b =>
    exact ⟨.inf b, rfl, (fun h2 => by cases h2), (fun h2 => by cases h2)⟩
  | dec m x =>
    cases ht : (JSNumber.dec m x).truthy with
    | false =>
      refine ⟨.dec 10000 0, ?_, (fun h2 => by cases h2), (fun h2 => by cases h2)⟩
      simp [valueOr, JSValue.truthy, ht]
    | true =>
      refine ⟨.dec m x, ?_, (fun h2 => by cases h2), (fun h2 => by cases h2)⟩
      simp [valueOr, JSValue.truthy, ht]

/-- C13, as stated, fails: with the empty query string the region decodes to
the default `강릉` of both pages, not to the empty string. -/
theorem C13_counterexample :
    (decodeRestaurantPage "").map (fun q => q.region) = .ok "강릉" ∧
    (decodeTouristPage "").map (fun q => q.region) = .ok "강릉" ∧
    ("강릉" : String) ≠ "" := by
  refine ⟨by rfl, by rfl, by decide⟩

/-- C13, amended. Decoding the empty query string does not throw on either
page and gives `budget` and `breakdown` the empty object, `selectedRestaurants`
the empty array and `region` the default `강릉`; the other constants are the
period `1박2일`, the total amount 0, an empty hotel id and name, and a ceiling
of 0. -/
theorem C13_empty_query_defaults :
    decodeRestaurantPage ""
      = .ok { region := "강릉", period := "1박2일", totalAmount := .dec 0 0, hotelId := "",
              hotelName := "", budget := .obj [], breakdown := .obj [],
              foodBudget := .num (.dec 0 0) } ∧
    decodeTouristPage ""
      = .ok { region := "강릉", period := "1박2일", totalAmount := .dec 0 0, hotelId := "",
              hotelName := "", budget := .obj [], breakdown := .obj [],
              selectedRestaurants := .arr [], tourismBudget := .num (.dec 0 0) } := by
  refine ⟨by rfl, by rfl⟩

namespace URLSearchParams

theorem getAll_append_ne (ps : URLSearchParams) (k k2 v : String) (h : k2 ≠ k) :
    getAll (ps ++ [(k, v)]) k2 = getAll ps k2 := by
  have : ((k, v).1 == k2) = false := by simpa using Ne.symm h
  simp [getAll, List.filter_append, List.filter_cons, this]

theorem getAll_replaceFirst_ne (ps : URLSearchParams) (k k2 v : String) (h : k2 ≠ k) :
    getAll (replaceFirst k v ps) k2 = getAll ps k2 := by
  induction ps with
  | nil => rfl
  | cons t rest ih =>
    by_cases ht : t.1 = k
    · have h2 : (t.1 == k2) = false := by
        rw [beq_eq_false_iff_ne]
        intro h3
        exact h (h3.symm.trans ht)
      have h3 : (k == k2) = false := by simpa using Ne.symm h
      have hf : (rest.filter (fun u => u.1 != k)).filter (fun u => u.1 == k2)
          = rest.filter (fun u => u.1 == k2) := by
        rw [List.filter_filter]
        apply List.filter_congr
        intro u _
        by_cases hu : u.1 = k2
        · simp [hu, h]
        · simp [hu]
      simp only [replaceFirst, ht, if_true, getAll, List.filter_cons, h2, h3,
        Bool.false_eq_true, if_false, hf]
    · unfold getAll at ih ⊢
      simp only [replaceFirst, ht, if_false, List.filter_cons]
      split_ifs
      · simp only [List.map_cons, ih]
      · exact ih

/-- `set` does not change what `getAll` returns for another name. -/
theorem getAll_set_ne (ps : URLSearchParams) (k k2 v : String) (h : k2 ≠ k) :
    (ps.set k v).getAll k2 = ps.getAll k2 := by
  unfold set
  cases ps.any (fun t => t.1 == k)
  · simp only [Bool.false_eq_true, if_false]
    exact getAll_append_ne ps k k2 v h
  · simp only [if_true]
    exact getAll_replaceFirst_ne ps k k2 v h

end URLSearchParams

theorem completeRestaurant_url (search : String) (catalog : List CatalogItem)
    (st : SelectionState) (o : CompletionOutcome) (url : String)
    (h : completeRestaurant search catalog st = .ok o) (hu : o.navigate = some url) :
    st.selected ≠ [] ∧ ∃ records, selectedRestaurantData catalog st.selected = .ok records ∧
      url = "/tourist?" ++ (restaurantQueryParams search records st.total).toString := by
  unfold completeRestaurant at h
  split_ifs at h with h0
  · simp only [Except.ok.injEq] at h
    rw [← h] at hu
    cases hu
  · refine ⟨fun hs => h0 (by rw [hs]; rfl), ?_⟩
    split at h
    · cases h
    · rename_i records hrec
      simp only [Except.ok.injEq] at h
      rw [← h] at hu
      simp only [Option.some.injEq] at hu
      exact ⟨records, hrec, hu.symm⟩

theorem completeTourist_url (search : String) (catalog : List CatalogItem)
    (st : SelectionState) (o : CompletionOutcome) (url : String)
    (h : completeTourist search catalog st = .ok o) (hu : o.navigate = some url) :
    st.selected ≠ [] ∧ ∃ records, selectedTouristData catalog st.selected = .ok records ∧
      url = "/report?" ++ (touristQueryParams search records st.total).toString := by
  unfold completeTourist at h
  split_ifs at h with h0
  · simp only [Except.ok.injEq] at h
    rw [← h] at hu
    cases hu
  · refine ⟨fun hs => h0 (by rw [hs]; rfl), ?_⟩
    split at h
    · cases h
    · rename_i records hrec
      simp only [Except.ok.injEq] at h
      rw [← h] at hu
      simp only [Option.some.injEq] at hu
      exact ⟨records, hrec, hu.symm⟩

theorem decodeRestaurantParams_region (ps : URLSearchParams) (q : RestaurantPageQuery)
    (h : decodeRestaurantParams ps = .ok q) :
    q.region = strOr (ps.get "region") (strOr (ps.get "regionIds") "강릉") := by
  unfold decodeRestaurantParams at h
  split at h
  · cases h
  · simp only [Except.ok.injEq] at h
    subst h
    rfl

theorem decodeTouristParams_region (ps : URLSearchParams) (q : TouristPageQuery)
    (h : decodeTouristParams ps = .ok q) :
    q.region = strOr (ps.get "region") (strOr (ps.get "regionIds") "강릉") := by
  unfold decodeTouristParams at h
  split at h
  · cases h
  · simp only [Except.ok.injEq] at h
    subst h
    rfl

/-- The tuples of other names that the query built by RestaurantPage holds. -/
theorem restaurantQueryParams_other (search : String) (records : List SelectionRecord)
    (total : F64) (key : String) (h1 : key ≠ "selectedRestaurants")
    (h2 : key ≠ "restaurantTotalPrice") :
    (restaurantQueryParams search records total).get key
        = (URLSearchParams.ofString search).get key ∧
    (restaurantQueryParams search records total).getAll key
        = (URLSearchParams.ofString search).getAll key := by
  unfold restaurantQueryParams
  simp only
  rw [URLSearchParams.get_set_ne _ _ _ _ h2, URLSearchParams.get_set_ne _ _ _ _ h1,
    URLSearchParams.getAll_set_ne _ _ _ _ h2, URLSearchParams.getAll_set_ne _ _ _ _ h1]
  exact ⟨rfl, rfl⟩

/-- The tuples of other names that the query built by TouristPage holds. -/
theorem touristQueryParams_other (search : String) (records : List SelectionRecord)
    (total : F64) (key : String) (h1 : key ≠ "selectedTourists")
    (h2 : key ≠ "touristTotalPrice") :
    (touristQueryParams search records total).get key
        = (URLSearchParams.ofString search).get key ∧
    (touristQueryParams search records total).getAll key
        = (URLSearchParams.ofString search).getAll key := by
  unfold touristQueryParams
  simp only
  rw [URLSearchParams.get_set_ne _ _ _ _ h2, URLSearchParams.get_set_ne _ _ _ _ h1,
    URLSearchParams.getAll_set_ne _ _ _ _ h2, URLSearchParams.getAll_set_ne _ _ _ _ h1]
  exact ⟨rfl, rfl⟩

/-- C11. For every incoming query string `search` and every state in which the
complete button navigates (a non-empty selection), the outgoing URL is the
route followed by `?` and a query string in which every key other than the two
keys of the step has the same first value (`get`) and the same list of values
(`getAll`) as in `search`; in particular `budget` and `breakdown` decode to the
same values before and after the step, on RestaurantPage and on TouristPage. -/
theorem C11_other_keys_preserved (search : String) (catalog : List CatalogItem)
    (st : SelectionState) :
    (∀ o url, completeRestaurant search catalog st = .ok o → o.navigate = some url →
      ∃ payload : String, url = "/tourist?" ++ payload ∧
        (∀ key, key ≠ "selectedRestaurants" → key ≠ "restaurantTotalPrice" →
          (URLSearchParams.ofString ("?" ++ payload)).get key
              = (URLSearchParams.ofString search).get key ∧
          (URLSearchParams.ofString ("?" ++ payload)).getAll key
              = (URLSearchParams.ofString search).getAll key) ∧
        (∀ q1 q2, decodeRestaurantPage search = .ok q1 →
          decodeTouristPage ("?" ++ payload) = .ok q2 →
          q2.budget = q1.budget ∧ q2.breakdown = q1.breakdown ∧ q2.region = q1.region)) ∧
    (∀ o url, completeTourist search catalog st = .ok o → o.navigate = some url →
      ∃ payload : String, url = "/report?" ++ payload ∧
        (∀ key, key ≠ "selectedTourists" → key ≠ "touristTotalPrice" →
          (URLSearchParams.ofString ("?" ++ payload)).get key
              = (URLSearchParams.ofString search).get key ∧
          (URLSearchParams.ofString ("?" ++ payload)).getAll key
              = (URLSearchParams.ofString search).getAll key) ∧
        (∀ q1, decodeTouristPage search = .ok q1 →
          parseOrEmptyObject (strOr ((URLSearchParams.ofString ("?" ++ payload)).get "budget")
            "{}") = q1.budget ∧
          parseOrEmptyObject (strOr ((URLSearchParams.ofString ("?" ++ payload)).get
            "breakdown") "{}") = q1.breakdown)) := by
  constructor
  · intro o url h hu
    obtain ⟨_, records, _, hurl⟩ := completeRestaurant_url search catalog st o url h hu
    refine ⟨(restaurantQueryParams search records st.total).toString, hurl, ?_, ?_⟩
    · intro key h1 h2
      rw [(URLSearchParams.ofString_toString _).2]
      exact restaurantQueryParams_other search records st.total key h1 h2
    · intro q1 q2 hq1 hq2
      obtain ⟨hb1, hd1⟩ := decodeRestaurantParams_fields _ q1 hq1
      obtain ⟨hb2, hd2, _⟩ := decodeTouristParams_fields _ q2 hq2
      rw [(URLSearchParams.ofString_toString _).2] at hb2 hd2
      rw [(restaurantQueryParams_other search records st.total "budget" (by decide)
        (by decide)).1] at hb2
      rw [(restaurantQueryParams_other search records st.total "breakdown" (by decide)
        (by decide)).1] at hd2
      refine ⟨hb2.trans hb1.symm, hd2.trans hd1.symm, ?_⟩
      have hr1 := decodeRestaurantParams_region _ q1 hq1
      have hr2 := decodeTouristParams_region _ q2 hq2
      rw [(URLSearchParams.ofString_toString _).2] at hr2
      rw [(restaurantQueryParams_other search records st.total "region" (by decide)
        (by decide)).1] at hr2
      rw [(restaurantQueryParams_other search records st.total "regionIds" (by decide)
        (by decide)).1] at hr2
      exact hr2.trans hr1.symm
  · intro o url h hu
    obtain ⟨_, records, _, hurl⟩ := completeTourist_url search catalog st o url h hu
    refine ⟨(touristQueryParams search records st.total).toString, hurl, ?_, ?_⟩
    · intro key h1 h2
      rw [(URLSearchParams.ofString_toString _).2]
      exact touristQueryParams_other search records st.total key h1 h2
    · intro q1 hq1
      obtain ⟨hb1, hd1, _⟩ := decodeTouristParams_fields _ q1 hq1
      rw [(URLSearchParams.ofString_toString _).2]
      rw [(touristQueryParams_other search records st.total "budget" (by decide)
        (by decide)).1]
      rw [(touristQueryParams_other search records st.total "breakdown" (by decide)
        (by decide)).1]
      exact ⟨hb1.symm, hd1.symm⟩

/-- Witness for C11: incoming query `?region=x`, catalog B (5), selection B. -/
theorem C11_other_keys_preserved_witness :
    ∃ payload : String,
      "/tourist?region=x&selectedRestaurants=%5B%7B%22id%22%3A%22B%22%2C%22name%22%3A%22b%22%2C%22price%22%3A5%7D%5D&restaurantTotalPrice=5"
        = "/tourist?" ++ payload ∧
      (URLSearchParams.ofString ("?" ++ payload)).get "region" = some "x" := by
  have hc : completeRestaurant "?region=x" [⟨"B", "b", 5⟩] ⟨["B"], F64.ofInt 5⟩
      = .ok ⟨none, some "/tourist?region=x&selectedRestaurants=%5B%7B%22id%22%3A%22B%22%2C%22name%22%3A%22b%22%2C%22price%22%3A5%7D%5D&restaurantTotalPrice=5",
        ⟨["B"], F64.ofInt 5⟩⟩ := by
    rw [completeRestaurant_navigate "?region=x" [⟨"B", "b", 5⟩] ⟨["B"], F64.ofInt 5⟩
      [⟨"B", "b", 5⟩] (by decide) rfl]
    simp only [restaurantQueryParams, F64.toChars_ofInt 5 (by decide)]
    rfl
  obtain ⟨payload, h1, h2, _⟩ :=
    (C11_other_keys_preserved "?region=x" [⟨"B", "b", 5⟩] ⟨["B"], F64.ofInt 5⟩).1
      ⟨none, some "/tourist?region=x&selectedRestaurants=%5B%7B%22id%22%3A%22B%22%2C%22name%22%3A%22b%22%2C%22price%22%3A5%7D%5D&restaurantTotalPrice=5",
        ⟨["B"], F64.ofInt 5⟩⟩ _ hc rfl
  exact ⟨payload, h1, (h2 "region" (by decide) (by decide)).1.trans (by rfl)⟩

/-- Over a catalog whose price magnitudes add up to a safe integer, the running
total after toggles of catalog items is the Number of the sum of the prices of
the selected catalog items, whatever the ceiling and the signs of the prices. -/
theorem run_total_eq (c : F64) (catalog events : List CatalogItem)
    (hnd : (catalog.map CatalogItem.id).Nodup)
    (hsafe : priceMagnitude catalog ≤ 9007199254740991)
    (hev : ∀ e ∈ events, e ∈ catalog) :
    (runRestaurantToggles c events).total
      = F64.ofInt (selectedPriceSum catalog (runRestaurantToggles c events).selected) := by
  unfold runRestaurantToggles
  have hgen : ∀ (st : SelectionState),
      st.total = F64.ofInt (selectedPriceSum catalog st.selected) →
      (events.foldl (toggleRestaurant c) st).total
        = F64.ofInt (selectedPriceSum catalog (events.foldl (toggleRestaurant c) st).selected) := by
    induction events with
    | nil => intro st h; exact h
    | cons e t ih =>
      intro st h
      simp only [List.foldl_cons]
      apply ih (fun x hx => hev x (List.mem_cons_of_mem _ hx))
      exact toggle_total c catalog st e hnd hsafe (hev e (List.mem_cons_self _ _)) h
  apply hgen
  show F64.fin 0 = F64.ofInt (selectedPriceSum catalog [])
  rw [selectedPriceSum_nil, F64.ofInt_zero]

/-- The prices of the emitted records add up to the sum of the prices of the
selected catalog items. -/
theorem records_price_sum (catalog : List CatalogItem)
    (hnd : (catalog.map CatalogItem.id).Nodup) (sel : List String) :
    sel.Nodup → ∀ records, selectedRestaurantData catalog sel = .ok records →
      (records.map SelectionRecord.price).sum = selectedPriceSum catalog sel := by
  induction sel with
  | nil =>
    intro _ records h
    simp only [selectedRestaurantData, Except.ok.injEq] at h
    subst h
    simp [selectedPriceSum, setHas]
  | cons x rest ih =>
    intro hn records h
    simp only [List.nodup_cons] at hn
    rw [selectedRestaurantData] at h
    cases hf : catalog.find? (fun r => r.id == x) with
    | none => rw [hf] at h; cases h
    | some r =>
      rw [hf] at h
      simp only at h
      cases hrest : selectedRestaurantData catalog rest with
      | error e => rw [hrest] at h; cases h
      | ok recs =>
        rw [hrest] at h
        simp only [Except.ok.injEq] at h
        subst h
        have hrid : r.id = x := by
          have := List.find?_some hf
          simpa using this
        have hrmem : r ∈ catalog := List.mem_of_find?_eq_some hf
        have hsum : selectedPriceSum catalog (x :: rest)
            = selectedPriceSum catalog rest + r.price := by
          apply selectedPriceSum_insert catalog _ _ r hnd hrmem
          · cases hb : setHas rest r.id
            · rfl
            · exact absurd (hrid ▸ (setHas_iff _ _).1 hb) hn.1
          · rw [setHas_iff, hrid]
            exact List.mem_cons_self _ _
          · intro y hy
            rw [Bool.eq_iff_iff]
            simp only [setHas_iff, List.mem_cons]
            constructor
            · rintro (h1 | h1)
              · exact absurd (h1.trans hrid.symm) hy
              · exact h1
            · exact Or.inr
        simp only [List.map_cons, List.sum_cons, ih hn.2 recs hrest, hsum]
        omega

theorem restaurantQueryParams_total (search : String) (records : List SelectionRecord)
    (total : F64) :
    (URLSearchParams.ofString ("?" ++ (restaurantQueryParams search records total).toString)).get
        "restaurantTotalPrice" = some ⟨total.toChars⟩ := by
  rw [(URLSearchParams.ofString_toString _).2]
  unfold restaurantQueryParams
  simp only
  rw [URLSearchParams.get_set_self]

theorem touristQueryParams_total (search : String) (records : List SelectionRecord)
    (total : F64) :
    (URLSearchParams.ofString ("?" ++ (touristQueryParams search records total).toString)).get
        "touristTotalPrice" = some ⟨total.toChars⟩ := by
  rw [(URLSearchParams.ofString_toString _).2]
  unfold touristQueryParams
  simp only
  rw [URLSearchParams.get_set_self]

/-- C14, as stated, fails: with ceiling `10^17` and the catalog A (`2^53`) and
B (1), the toggles A, B, A leave B selected with the running total 0 on both
pages: B was admitted with the total still `2^53` (the page computes `2^53 + 1`
as `2^53`), and the removal of A subtracted `2^53`. The emitted total is `0`,
and the emitted record of B has the price 1. -/
theorem C14_counterexample :
    runRestaurantToggles (F64.ofInt 100000000000000000)
        [⟨"A", "a", 9007199254740992⟩, ⟨"B", "b", 1⟩, ⟨"A", "a", 9007199254740992⟩]
      = { selected := ["B"], total := F64.ofInt 0 } ∧
    runTouristToggles (F64.ofInt 100000000000000000)
        [⟨"A", "a", 9007199254740992⟩, ⟨"B", "b", 1⟩, ⟨"A", "a", 9007199254740992⟩]
      = { selected := ["B"], total := F64.ofInt 0 } ∧
    selectedRestaurantData [⟨"A", "a", 9007199254740992⟩, ⟨"B", "b", 1⟩] ["B"]
      = .ok [⟨"B", "b", 1⟩] ∧
    selectedTouristData [⟨"A", "a", 9007199254740992⟩, ⟨"B", "b", 1⟩] ["B"]
      = .ok [⟨"B", "b", 1⟩] ∧
    F64.toChars (F64.ofInt 0) = ['0'] ∧
    (([⟨"B", "b", 1⟩] : List SelectionRecord).map SelectionRecord.price).sum = 1 ∧
    F64.ofInt 0 ≠ F64.ofInt 1 := by
  refine ⟨by decide!, by decide!, rfl, rfl, by decide!, by decide, by decide!⟩

/-- C14, amended. For every catalog with pairwise distinct ids and integer
prices whose magnitudes add up to a safe integer (at most `2^53 - 1`), every
ceiling, and every state reached by toggles of catalog items from the empty
selection with total 0, the records emitted on completion exist and the running
total is the sum of their `price` fields, a safe integer. When the selection is
not empty, the complete button of either page navigates to the query built from
those records and that sum, and the parameter `restaurantTotalPrice`
(`touristTotalPrice`) of the outgoing query is the decimal text of the sum. -/
theorem C14_emitted_total_is_record_sum (c : F64) (catalog events : List CatalogItem)
    (search : String) (hnd : (catalog.map CatalogItem.id).Nodup)
    (hsafe : priceMagnitude catalog ≤ 9007199254740991)
    (hev : ∀ e ∈ events, e ∈ catalog) :
    ∃ records : List SelectionRecord,
      selectedRestaurantData catalog (runRestaurantToggles c events).selected = .ok records ∧
      selectedTouristData catalog (runTouristToggles c events).selected = .ok records ∧
      (runRestaurantToggles c events).total
        = F64.ofInt (records.map SelectionRecord.price).sum ∧
      (runTouristToggles c events).total
        = F64.ofInt (records.map SelectionRecord.price).sum ∧
      F64.safeInteger (records.map SelectionRecord.price).sum ∧
      ((runRestaurantToggles c events).selected ≠ [] →
        completeRestaurant search catalog (runRestaurantToggles c events)
          = .ok { alert := none,
                  navigate := some ("/tourist?" ++ (restaurantQueryParams search records
                    (F64.ofInt (records.map SelectionRecord.price).sum)).toString),
                  state := runRestaurantToggles c events } ∧
        completeTourist search catalog (runTouristToggles c events)
          = .ok { alert := none,
                  navigate := some ("/report?" ++ (touristQueryParams search records
                    (F64.ofInt (records.map SelectionRecord.price).sum)).toString),
                  state := runTouristToggles c events }) ∧
      (URLSearchParams.ofString ("?" ++ (restaurantQueryParams search records
          (F64.ofInt (records.map SelectionRecord.price).sum)).toString)).get
            "restaurantTotalPrice"
        = some ⟨intToChars (records.map SelectionRecord.price).sum⟩ ∧
      (URLSearchParams.ofString ("?" ++ (touristQueryParams search records
          (F64.ofInt (records.map SelectionRecord.price).sum)).toString)).get
            "touristTotalPrice"
        = some ⟨intToChars (records.map SelectionRecord.price).sum⟩ := by
  obtain ⟨hids, hnodup⟩ := run_ids_nodup c catalog events hev
  obtain ⟨records, hok, _, _⟩ := selectedRestaurantData_ok catalog _ hids
  have htot := run_total_eq c catalog events hnd hsafe hev
  have hsum := records_price_sum catalog hnd _ hnodup records hok
  have hT : (runRestaurantToggles c events).total
      = F64.ofInt (records.map SelectionRecord.price).sum := by
    rw [htot, hsum]
  have hsf : F64.safeInteger (records.map SelectionRecord.price).sum := by
    rw [hsum]
    exact F64.safeInteger_of_abs_le _ _ (abs_selectedPriceSum_le _ _) hsafe
  have hok2 : selectedTouristData catalog (runTouristToggles c events).selected
      = .ok records := by
    rw [selectedTouristData_eq, runTouristToggles_eq]
    exact hok
  refine ⟨records, hok, hok2, hT, by rw [runTouristToggles_eq]; exact hT, hsf, ?_, ?_, ?_⟩
  · intro hne
    constructor
    · rw [completeRestaurant_navigate search catalog _ records hne hok, hT]
    · have hne2 : (runTouristToggles c events).selected ≠ [] := by
        rw [runTouristToggles_eq]
        exact hne
      rw [completeTourist_navigate search catalog _ records hne2 hok2, runTouristToggles_eq, hT]
  · rw [restaurantQueryParams_total, F64.toChars_ofInt _ hsf]
  · rw [touristQueryParams_total, F64.toChars_ofInt _ hsf]

/-- Witness for C14: ceiling 30000, catalog A (20000) and B (15000), toggles A, B, A, B. -/
theorem C14_emitted_total_is_record_sum_witness :
    ∃ records : List SelectionRecord,
      selectedRestaurantData [⟨"A", "a", 20000⟩, ⟨"B", "b", 15000⟩]
        (runRestaurantToggles (F64.ofInt 30000) [⟨"A", "a", 20000⟩, ⟨"B", "b", 15000⟩,
          ⟨"A", "a", 20000⟩, ⟨"B", "b", 15000⟩]).selected = .ok records ∧
      (runRestaurantToggles (F64.ofInt 30000) [⟨"A", "a", 20000⟩, ⟨"B", "b", 15000⟩,
          ⟨"A", "a", 20000⟩, ⟨"B", "b", 15000⟩]).total
        = F64.ofInt (records.map SelectionRecord.price).sum := by
  obtain ⟨records, h1, _, h3, _⟩ := C14_emitted_total_is_record_sum (F64.ofInt 30000)
    [⟨"A", "a", 20000⟩, ⟨"B", "b", 15000⟩]
    [⟨"A", "a", 20000⟩, ⟨"B", "b", 15000⟩, ⟨"A", "a", 20000⟩, ⟨"B", "b", 15000⟩]
    "?region=x" (by decide) (by decide) (by decide)
  exact ⟨records, h1, h3⟩

end BudgetPilot
